import Mathlib

/-!
Verification of the workflow execution engine
(`backend/builder/workflow_engine.py`, `backend/models/workflow_models.py`,
`backend/orchestrator/pipeline.py`) as a shallow embedding in Lean.

Python `dict`s become ordered association lists with in-place overwrite
(`aset`), matching insertion-order semantics.  Machine-level floats are
modelled by `Rat` (the score comparisons in the source only ever parse
short decimal literals).  Effects (broadcast callback, agent/tool
adapters, the monotonic clock, `re.search`, `json.loads`) are supplied by
an `Env` of oracles.  Exceptions are modelled by a `Res.exn` outcome,
`asyncio` cancellation by `Res.cancel` (never caught by the model of
`except Exception`), and divergence by `Res.fuelOut` (the recursion knot
`engineStep` and the `while` loop of `_split_text` are fuelled).
-/

namespace MB

/-- Association-list lookup, mirroring Python `dict.get`: our maps are
built with `aset`, which keeps at most one binding per key. -/
def aget {α : Type} (m : List (String × α)) (k : String) : Option α :=
  match m with
  | [] => none
  | (k', v) :: rest => if k = k' then some v else aget rest k

/-- Association-list write, mirroring Python `dict.__setitem__`: replace
the binding in place if the key exists, else append (insertion order). -/
def aset {α : Type} (m : List (String × α)) (k : String) (v : α) : List (String × α) :=
  match m with
  | [] => [(k, v)]
  | (k', v') :: rest => if k = k' then (k, v) :: rest else (k', v') :: aset rest k v

/-- Lookup with default, mirroring Python `dict.get(k, d)`. -/
def agetD {α : Type} (m : List (String × α)) (k : String) (d : α) : α :=
  (aget m k).getD d

/-- Whether a list of keyed entries contains a key. -/
def ahas {α : Type} (m : List (String × α)) (k : String) : Bool :=
  (aget m k).isSome

/-- Python `needle in hay` on strings, via list infix search. -/
def listContainsSub {α : Type} [DecidableEq α] : List α → List α → Bool
  | _, [] => true
  | [], _ :: _ => false
  | c :: rest, needle => needle.isPrefixOf (c :: rest) || listContainsSub rest needle

/-- Python substring membership `needle in hay`. -/
def strContains (hay needle : String) : Bool :=
  listContainsSub hay.toList needle.toList

/-- Characters of the regex `\s` (also what `str.strip()` removes). -/
def isPyWs (c : Char) : Bool :=
  c = ' ' ∨ c = '\t' ∨ c = '\n' ∨ c = '\r' ∨ c = Char.ofNat 11 ∨ c = Char.ofNat 12

/-- Python `str.strip()`. -/
def pyStrip (s : String) : String :=
  String.mk (((s.toList.dropWhile isPyWs).reverse.dropWhile isPyWs).reverse)

/-- Python `str.lower()`. -/
def pyLower (s : String) : String := String.mk (s.toList.map Char.toLower)

/-- Python `str.upper()`. -/
def pyUpper (s : String) : String := String.mk (s.toList.map Char.toUpper)

/-- Python `s[:n]` character slice for a nonnegative count. -/
def pyTake (s : String) (n : Nat) : String := String.mk (s.toList.take n)

/-- Replace every occurrence of a non-empty pattern (Python
`str.replace`, as used for `{input}`-style templating). -/
def listReplace [DecidableEq α] (pat repl : List α) : Nat → List α → List α
  | 0, cs => cs
  | _ + 1, [] => []
  | fuel + 1, c :: rest =>
    if pat ≠ [] ∧ pat.isPrefixOf (c :: rest) then
      repl ++ listReplace pat repl fuel ((c :: rest).drop pat.length)
    else c :: listReplace pat repl fuel rest

/-- Python `str.replace(pat, repl)` for a non-empty pattern. -/
def pyReplace (s pat repl : String) : String :=
  String.mk (listReplace pat.toList repl.toList (s.toList.length + 1) s.toList)

/-- Word characters of the regex `\w`. -/
def isWordChar (c : Char) : Bool := c.isAlphanum || c = '_'

/-- Digit characters. -/
def isDigitChar (c : Char) : Bool := c.isDigit

/-- Value of a digit list read as a natural number. -/
def digitsToNat (ds : List Char) : Nat :=
  ds.foldl (fun acc c => acc * 10 + (c.toNat - '0'.toNat)) 0

/-- Rational value of an integer part and a fraction part, as written in a
decimal literal `D1.D2`. -/
def decimalToRat (intPart fracPart : List Char) : Rat :=
  (digitsToNat intPart : Rat) + (digitsToNat fracPart : Rat) / ((10 : Rat) ^ fracPart.length)

/-- Node type enumeration exactly as `models/workflow_models.py` `NodeType`
(nine members; the engine's dead dispatch tests for `DELAY`, `SWITCH` and
`VALIDATOR` reference enum members that do not exist there). -/
inductive NodeType where
  | agent
  | tool
  | condition
  | input
  | output
  | loop
  | aggregator
  | meta_agent
  | chunker
deriving DecidableEq, Repr

/-- Pydantic validation of the `type` field: the string value of a node
type, accepted iff it is one of the nine enum values. -/
def NodeType.ofString : String → Option NodeType
  | "agent" => some .agent
  | "tool" => some .tool
  | "condition" => some .condition
  | "input" => some .input
  | "output" => some .output
  | "loop" => some .loop
  | "aggregator" => some .aggregator
  | "meta_agent" => some .meta_agent
  | "chunker" => some .chunker
  | _ => none

/-- Node status enumeration (`NodeStatus` in `workflow_models.py`). -/
inductive NStatus where
  | waiting
  | running
  | done
  | error
deriving DecidableEq, Repr

/-- String value of a node status (`NodeStatus.value`). -/
def NStatus.value : NStatus → String
  | .waiting => "waiting"
  | .running => "running"
  | .done => "done"
  | .error => "error"

/-- Workflow edge (`WorkflowEdge` in `workflow_models.py`). -/
structure WorkflowEdge where
  id : String
  source : String
  target : String
  label : String := ""
deriving DecidableEq, Repr

mutual
/-- Values stored in a node's free-form `data` mapping. -/
inductive DVal where
  | vstr : String → DVal
  | vint : Int → DVal
  | vrat : Rat → DVal
  | vbool : Bool → DVal
  | vdict : List (String × DVal) → DVal
  | vdef : WorkflowDefinition → DVal
/-- Workflow node (`WorkflowNode`): id, type and free-form data.  The
presentational `position` field is ignored by the engine and omitted. -/
inductive WorkflowNode where
  | mk : String → NodeType → List (String × DVal) → WorkflowNode
/-- Workflow definition (`WorkflowDefinition`): node and edge lists. -/
inductive WorkflowDefinition where
  | mk : List WorkflowNode → List WorkflowEdge → WorkflowDefinition
end

/-- Id of a node. -/
def WorkflowNode.id : WorkflowNode → String
  | .mk i _ _ => i

/-- Type of a node. -/
def WorkflowNode.type : WorkflowNode → NodeType
  | .mk _ t _ => t

/-- Data mapping of a node. -/
def WorkflowNode.data : WorkflowNode → List (String × DVal)
  | .mk _ _ d => d

/-- Nodes of a definition. -/
def WorkflowDefinition.nodes : WorkflowDefinition → List WorkflowNode
  | .mk ns _ => ns

/-- Edges of a definition. -/
def WorkflowDefinition.edges : WorkflowDefinition → List WorkflowEdge
  | .mk _ es => es

/-- Python truthiness of a data value (`bool(x)`); a parsed sub-workflow
dict is treated as non-empty, hence truthy. -/
def DVal.truthy : DVal → Bool
  | .vstr s => s ≠ ""
  | .vint n => n ≠ 0
  | .vrat q => q ≠ 0
  | .vbool b => b
  | .vdict d => ¬ d.isEmpty
  | .vdef _ => true

/-- Python `str(x)` for the value shapes the engine actually converts. -/
def DVal.pyStr : DVal → String
  | .vstr s => s
  | .vint n => toString n
  | .vrat q => toString q
  | .vbool b => if b then "True" else "False"
  | .vdict _ => "<dict>"
  | .vdef _ => "<dict>"

/-- Parse an optionally signed run of digits, mirroring Python `int(s)`
(which strips whitespace and rejects anything else, e.g. `"2.5"`). -/
def parsePyInt (s : String) : Option Int :=
  let t := (pyStrip s).toList
  let core : List Char → Option Int := fun ds =>
    if ds ≠ [] ∧ ds.all isDigitChar then some (digitsToNat ds : Int) else none
  match t with
  | '-' :: rest => (core rest).map (fun n => -n)
  | '+' :: rest => core rest
  | _ => core t

/-- Parse a decimal literal, mirroring Python `float(s)` on the forms the
engine feeds it (optional sign, digits, optional fraction; exotic forms
such as exponents are rejected, which the engine never relies on). -/
def parsePyFloat (s : String) : Option Rat :=
  let t := (pyStrip s).toList
  let core : List Char → Option Rat := fun ds =>
    match ds.span isDigitChar with
    | (intPart, []) => if intPart ≠ [] then some (digitsToNat intPart : Rat) else none
    | (intPart, '.' :: rest) =>
        if rest.all isDigitChar ∧ (intPart ≠ [] ∨ rest ≠ []) then
          some (decimalToRat intPart rest)
        else none
    | _ => none
  match t with
  | '-' :: rest => (core rest).map (fun q => -q)
  | '+' :: rest => core rest
  | _ => core t

/-- Python `int(x)` on a data value; `Except.error` models the raised
`ValueError`/`TypeError`. -/
def DVal.pyInt : DVal → Except String Int
  | .vint n => .ok n
  | .vbool b => .ok (if b then 1 else 0)
  | .vrat q => .ok (q.num / (q.den : Int))
  | .vstr s => match parsePyInt s with
      | some n => .ok n
      | none => .error ("ValueError: invalid literal for int: " ++ s)
  | _ => .error "TypeError: int() argument"

/-- Python `float(x)` on a data value. -/
def DVal.pyFloat : DVal → Except String Rat
  | .vint n => .ok (n : Rat)
  | .vrat q => .ok q
  | .vbool b => .ok (if b then 1 else 0)
  | .vstr s => match parsePyFloat s with
      | some q => .ok q
      | none => .error ("ValueError: could not convert string to float: " ++ s)
  | _ => .error "TypeError: float() argument"

/-- Python attribute access `x.upper()`-style string coercion: the engine
calls `str` methods on data values it assumes are strings; a non-string
raises `AttributeError`. -/
def DVal.asStr : DVal → Except String String
  | .vstr s => .ok s
  | _ => .error "AttributeError: not a string"

/-- Read from node data trying camelCase first, then snake_case
(`workflow_engine._get`). -/
def dget (data : List (String × DVal)) (camel snake : String) (dflt : DVal) : DVal :=
  match aget data camel with
  | some v => v
  | none => match aget data snake with
      | some v => v
      | none => dflt

/-- Python `data.get(k, d)`. -/
def dgetD (data : List (String × DVal)) (k : String) (dflt : DVal) : DVal :=
  agetD data k dflt

/-- Python `x or y` used on a data value against a default. -/
def dOr (v : DVal) (dflt : DVal) : DVal :=
  if v.truthy then v else dflt

/-- Right word-boundary test of `\b`: the position is at end of input or
before a non-word character. -/
def noWordAhead : List Char → Bool
  | [] => true
  | c :: _ => ¬ isWordChar c

/-- Left word-boundary test of `\b` against the previously consumed
character. -/
def boundaryBefore : Option Char → Bool
  | none => true
  | some c => ¬ isWordChar c

/-- Scanner for `re.findall(r'\b(\d+(?:\.\d+)?)\b', text)`: at a digit run
preceded by a word boundary, match `D1.D2` when the fraction is present
and followed by a boundary, otherwise fall back to `D1` when it is
followed by a boundary (regex backtracking), otherwise skip the run. -/
def findNumbersGo : Nat → Option Char → List Char → List Rat
  | 0, _, _ => []
  | _ + 1, _, [] => []
  | fuel + 1, prev, c :: rest =>
    if isDigitChar c ∧ boundaryBefore prev then
      let sp1 := (c :: rest).span isDigitChar
      match sp1.2 with
      | '.' :: tl =>
        let sp2 := tl.span isDigitChar
        if sp2.1 ≠ [] ∧ noWordAhead sp2.2 then
          decimalToRat sp1.1 sp2.1 :: findNumbersGo fuel (some '0') sp2.2
        else
          (digitsToNat sp1.1 : Rat) :: findNumbersGo fuel (some '0') sp1.2
      | _ =>
        if noWordAhead sp1.2 then
          (digitsToNat sp1.1 : Rat) :: findNumbersGo fuel (some '0') sp1.2
        else
          findNumbersGo fuel (some '0') sp1.2
    else
      findNumbersGo fuel (some c) rest

/-- All decimal numbers of a text, in order (`re.findall` as used by the
engine; the continuation marker `'0'` records that scanning resumed right
after a digit run, a word character). -/
def findNumbers (text : String) : List Rat :=
  findNumbersGo (text.toList.length + 1) none text.toList

/-- Last decimal number of a text, if any (`numbers[-1]`). -/
def lastNumber (text : String) : Option Rat :=
  (findNumbers text).getLast?

/-- Recognise the tail of a `{var:NAME}` token: given the characters after
`'{'`, return the name and the remainder after `'}'`. -/
def matchVarToken (cs : List Char) : Option (String × List Char) :=
  match cs with
  | 'v' :: 'a' :: 'r' :: ':' :: rest =>
    match rest.span isWordChar with
    | (nm, rest2) =>
      match nm, rest2 with
      | _ :: _, '}' :: tail => some (String.mk nm, tail)
      | _, _ => none
  | _ => none

/-- Scanner for `re.sub(r'\{var:(\w+)\}', repl, text)` with a replacer that
substitutes the stored value and leaves the token unchanged when the name
is missing (`WorkflowEngine._substitute_variables`). -/
def substVarsGo (vars : List (String × String)) : Nat → List Char → List Char
  | 0, cs => cs
  | _ + 1, [] => []
  | fuel + 1, c :: rest =>
    if c = '{' then
      match matchVarToken rest with
      | some (nm, tail) =>
        match aget vars nm with
        | some v => v.toList ++ substVarsGo vars fuel tail
        | none => '{' :: 'v' :: 'a' :: 'r' :: ':' :: (nm.toList ++ '}' :: substVarsGo vars fuel tail)
      | none => c :: substVarsGo vars fuel rest
    else c :: substVarsGo vars fuel rest

/-- Replace `{var:name}` tokens with values from the variable store
(`WorkflowEngine._substitute_variables`). -/
def substituteVariables (vars : List (String × String)) (text : String) : String :=
  String.mk (substVarsGo vars (text.toList.length + 1) text.toList)

/-- Backtick character (written by code so that the source file contains
no literal backtick). -/
def btick : Char := Char.ofNat 96

/-- The opening token of an artifact fence. -/
def artifactFence : List Char :=
  [btick, btick, btick, 'a', 'r', 't', 'i', 'f', 'a', 'c', 't']

/-- Find the next closing triple-backtick, returning the suffix after it. -/
def findCloseFence : Nat → List Char → Option (List Char)
  | 0, _ => none
  | _ + 1, [] => none
  | fuel + 1, c :: rest =>
    if [btick, btick, btick].isPrefixOf (c :: rest) then some (rest.drop 2)
    else findCloseFence fuel rest

/-- Split a whitespace run after its last newline (`\s*\n` greedy with
backtracking): `some suffix` when the run contains a newline. -/
def afterLastNewline (ws : List Char) : Option (List Char) :=
  match ws with
  | [] => none
  | c :: rest =>
    match afterLastNewline rest with
    | some suf => some suf
    | none => if c = '\n' then some rest else none

/-- Try to match one artifact fence at the current position, returning the
remainder after the closing triple backtick. -/
def matchArtifactAt (cs : List Char) : Option (List Char) :=
  if artifactFence.isPrefixOf cs then
    let rest := cs.drop artifactFence.length
    match rest.span isPyWs with
    | (ws, rest2) =>
      match afterLastNewline ws with
      | some wsTail => findCloseFence (wsTail.length + rest2.length + 1) (wsTail ++ rest2)
      | none => none
  else none

/-- Scanner core of `re.sub(r"(three backticks)artifact\s*\n[\s\S]*?(three
backticks)", "[artifact rimosso]", text)`. -/
def stripArtifactsGo : Nat → List Char → List Char
  | 0, cs => cs
  | _ + 1, [] => []
  | fuel + 1, c :: rest =>
    match matchArtifactAt (c :: rest) with
    | some tail => ("[artifact rimosso]".toList) ++ stripArtifactsGo fuel tail
    | none => c :: stripArtifactsGo fuel rest

/-- Remove artifact code fences (`WorkflowEngine._strip_artifacts`). -/
def stripArtifacts (text : String) : String :=
  String.mk (stripArtifactsGo (text.toList.length + 1) text.toList)

/-- Broadcast events: the two payload shapes sent to the broadcast
callback (`workflow_status` and `node_streaming` dicts). -/
inductive Event where
  | workflowStatus : (wid : String) → (status : String) →
      (nodeStatuses : List (String × String)) →
      (results : List (String × String)) → (error : Option String) → Event
  | nodeStreaming : (wid : String) → (nid : String) →
      (chunk : String) → (part : String) → Event
deriving DecidableEq, Repr

/-- Global run-wide state threaded through sub-engines: trace of delivered
broadcast events (newest first), adapter call counters, the monotonic
clock index, and the remaining suspension points before `asyncio.wait_for`
cancels the run (`none` when no timeout is armed). -/
structure Glob where
  events : List Event
  agentCalls : Nat
  toolCalls : Nat
  timeIdx : Nat
  cancelIn : Option Nat
deriving DecidableEq, Repr

/-- Per-engine mutable state (the fields of one `WorkflowEngine`
instance and its `PipelineStatus`). -/
structure Est where
  results : List (String × String)
  stResults : List (String × String)
  statuses : List (String × NStatus)
  pstatus : String
  errMsg : Option String
  blocked : List String
  skipNodes : List String
  vars : List (String × String)
  lastStream : List (String × Int)
deriving DecidableEq, Repr

/-- Outcome of a computation: normal value, raised `Exception`, `asyncio`
cancellation (not caught by `except Exception`), or exhausted fuel
(models divergence). -/
inductive Res (α : Type) where
  | ok : α → Res α
  | exn : String → Res α
  | cancel : Res α
  | fuelOut : Res α
deriving DecidableEq, Repr

/-- The engine computation monad: state passing over `Glob` and `Est`. -/
def M (α : Type) : Type := Glob → Est → Res α × Glob × Est

/-- Monadic return. -/
def M.pure {α : Type} (a : α) : M α := fun g s => (.ok a, g, s)

/-- Monadic bind, short-circuiting on `exn`, `cancel` and `fuelOut`. -/
def M.bind {α β : Type} (x : M α) (f : α → M β) : M β := fun g s =>
  match x g s with
  | (.ok a, g', s') => f a g' s'
  | (.exn e, g', s') => (.exn e, g', s')
  | (.cancel, g', s') => (.cancel, g', s')
  | (.fuelOut, g', s') => (.fuelOut, g', s')

instance : Monad M where
  pure := M.pure
  bind := M.bind

/-- Raise an exception (`raise` in Python). -/
def M.raise {α : Type} (e : String) : M α := fun g s => (.exn e, g, s)

/-- Exhausted fuel outcome. -/
def M.noFuel {α : Type} : M α := fun g s => (.fuelOut, g, s)

/-- Read the engine state. -/
def getEst : M Est := fun g s => (.ok s, g, s)

/-- Update the engine state. -/
def modifyEst (f : Est → Est) : M Unit := fun g s => (.ok (), g, f s)

/-- Read the global state. -/
def getGlob : M Glob := fun g s => (.ok g, g, s)

/-- Update the global state. -/
def modifyGlob (f : Glob → Glob) : M Unit := fun g s => (.ok (), f g, s)

/-- Model of `try: ... except Exception: ...`: handles `exn` only;
cancellation and divergence pass through, and state mutated before the
exception is kept. -/
def tryE {α : Type} (x : M α) (h : String → M α) : M α := fun g s =>
  match x g s with
  | (.exn e, g', s') => h e g' s'
  | r => r

/-- Lift a parse result, raising on error. -/
def ofExcept {α : Type} : Except String α → M α
  | .ok a => M.pure a
  | .error e => M.raise e

/-- One cooperative suspension point (`await`): when a timeout is armed
and its countdown has expired, the task is cancelled here. -/
def awaitPoint : M Unit := fun g s =>
  match g.cancelIn with
  | none => (.ok (), g, s)
  | some 0 => (.cancel, g, s)
  | some (k + 1) => (.ok (), { g with cancelIn := some k }, s)

/-- An agent-adapter request (`create_agent` arguments plus the user
message and streaming flag of `agent.chat`). -/
structure AgentReq where
  model : String
  systemPrompt : String
  temperature : Rat
  maxTokens : Int
  userContent : String
  streamed : Bool
deriving DecidableEq, Repr

/-- An agent-adapter response: the lazy token stream as a chunk list, or a
raised provider error. -/
inductive AgentResp where
  | chunks : List String → AgentResp
  | raise : String → AgentResp
deriving DecidableEq, Repr

/-- External capabilities consumed by the engine: the optional broadcast
callback (`false` = the callback raises), the agent adapter indexed by a
global call counter, the tool registry and adapter, the file store, the
`re.search` oracles, the `json.loads` oracle for `customParams`, and the
monotonic clock (milliseconds, indexed by read count). -/
structure Env where
  bc : Option (Event → Bool)
  agentChat : Nat → AgentReq → AgentResp
  toolKnown : String → Bool
  toolExec : Nat → String → String → List (String × DVal) → Except String String
  resolveFile : String → Option String
  reSearch : String → String → Bool
  reSearchCI : String → String → Bool
  parseJsonDict : String → Option (List (String × DVal))
  clock : Nat → Int

/-- Deliver one payload to the broadcast callback: an `await` suspension
point followed by the call, which either records the event or raises. -/
def doBroadcast (env : Env) (e : Event) : M Unit :=
  match env.bc with
  | none => M.pure ()
  | some f =>
    M.bind awaitPoint fun _ =>
      if f e then modifyGlob (fun g => { g with events := e :: g.events })
      else M.raise "broadcast failed"

/-- Read `time.monotonic()` (in milliseconds). -/
def readClock (env : Env) : M Int := fun g s =>
  (.ok (env.clock g.timeIdx), { g with timeIdx := g.timeIdx + 1 }, s)

/-- Append to the list held under a key, creating it if missing
(Python `dict.setdefault(k, []).append(v)`). -/
def adjAppend {α : Type} (m : List (String × List α)) (k : String) (v : α) :
    List (String × List α) :=
  match aget m k with
  | some l => aset m k (l ++ [v])
  | none => m ++ [(k, [v])]

/-- Operations of the explicit DFS call stack used to model the recursive
3-colouring DFS of `WorkflowEngine._detect_back_edges`. -/
inductive DfsOp where
  | visit : String → DfsOp
  | scanEdges : List (String × String) → DfsOp
  | finish : String → DfsOp

/-- Run the DFS: `visit u` colours `u` gray and scans its adjacency in
edge order; an edge to a gray node is recorded as a back-edge; an edge to
a white node recurses; `finish u` colours `u` black. -/
def dfsRun (adj : List (String × List (String × String))) :
    Nat → List DfsOp → List (String × Nat) × List String → List (String × Nat) × List String
  | 0, _, st => st
  | _ + 1, [], st => st
  | fuel + 1, op :: todo, (colors, back) =>
    match op with
    | .visit u =>
        dfsRun adj fuel (.scanEdges (agetD adj u []) :: .finish u :: todo) (aset colors u 1, back)
    | .finish u =>
        dfsRun adj fuel todo (aset colors u 2, back)
    | .scanEdges [] =>
        dfsRun adj fuel todo (colors, back)
    | .scanEdges ((v, eid) :: es) =>
        match aget colors v with
        | some 1 => dfsRun adj fuel (.scanEdges es :: todo) (colors, back ++ [eid])
        | some 0 => dfsRun adj fuel (.visit v :: .scanEdges es :: todo) (colors, back)
        | _ => dfsRun adj fuel (.scanEdges es :: todo) (colors, back)

/-- Detect back-edges (edges that create cycles) using DFS colouring
(`WorkflowEngine._detect_back_edges`): returns the ids of back-edges. -/
def detectBackEdges (defn : WorkflowDefinition) : List String :=
  let adj0 : List (String × List (String × String)) :=
    defn.nodes.foldl (fun m n => aset m n.id []) []
  let adj : List (String × List (String × String)) :=
    defn.edges.foldl (fun m e => adjAppend m e.source (e.target, e.id)) adj0
  let colors0 : List (String × Nat) :=
    defn.nodes.foldl (fun m n => aset m n.id 0) []
  let fuel := 4 * (defn.nodes.length + defn.edges.length) + 4
  let final := defn.nodes.foldl
    (fun (st : List (String × Nat) × List String) n =>
      if aget st.1 n.id = some 0 then dfsRun adj fuel [.visit n.id] st else st)
    (colors0, [])
  final.2

/-- Forward reachability worklist of `_identify_loop_body` (stack-based in
the source; the resulting set is what matters). -/
def forwardReach (outgoing : List (String × List WorkflowEdge)) :
    Nat → List String → List String → List String
  | 0, _, acc => acc
  | _ + 1, [], acc => acc
  | fuel + 1, nid :: stack, fwd =>
    if nid ∈ fwd then forwardReach outgoing fuel stack fwd
    else
      let fwd' := fwd ++ [nid]
      let pushes := ((agetD outgoing nid []).filter (fun e => e.target ∉ fwd')).map (·.target)
      forwardReach outgoing fuel (pushes ++ stack) fwd'

/-- Backward reachability worklist of `_identify_loop_body`, excluding the
loop node. -/
def backwardReach (incoming : List (String × List WorkflowEdge)) (loopNodeId : String) :
    Nat → List String → List String → List String
  | 0, _, acc => acc
  | _ + 1, [], acc => acc
  | fuel + 1, nid :: stack, bwd =>
    if nid ∈ bwd ∨ nid = loopNodeId then backwardReach incoming loopNodeId fuel stack bwd
    else
      let bwd' := bwd ++ [nid]
      let pushes := ((agetD incoming nid []).filter
        (fun e => e.source ∉ bwd' ∧ e.source ≠ loopNodeId)).map (·.source)
      backwardReach incoming loopNodeId fuel (pushes ++ stack) bwd'

/-- Modelled from the spec: `PipelineExecutor.topological_levels` is
invoked by `WorkflowEngine._run_inner` but its definition is not in the
source tree (only `topological_order` is); per spec §4.1 it is Kahn's
algorithm yielding one list of nodes per generation — level 0 the nodes
with zero in-degree in the DAG, level k the nodes all of whose
predecessors lie in earlier levels; leftover nodes of a residual cycle
are never emitted. -/
def topologicalLevelsGo (edges : List WorkflowEdge) :
    Nat → List String → List (List String)
  | 0, _ => []
  | _ + 1, [] => []
  | fuel + 1, remaining =>
    let lvl := remaining.filter
      (fun nid => ¬ edges.any (fun e => e.target = nid ∧ e.source ∈ remaining))
    if lvl.isEmpty then []
    else lvl :: topologicalLevelsGo edges fuel (remaining.filter (fun nid => nid ∉ lvl))

/-- Modelled from the spec: topological levels of the DAG (see
`topologicalLevelsGo`). -/
def topologicalLevels (nodeIds : List String) (edges : List WorkflowEdge) :
    List (List String) :=
  topologicalLevelsGo edges (nodeIds.length + 1) nodeIds

/-- Static data of one `WorkflowEngine` instance: everything its
constructor derives from the definition. -/
structure Engine where
  defn : WorkflowDefinition
  wid : String
  nodesMap : List (String × WorkflowNode)
  backEdges : List WorkflowEdge
  dagEdges : List WorkflowEdge
  incoming : List (String × List WorkflowEdge)
  outgoing : List (String × List WorkflowEdge)
  levels : List (List String)

/-- Build the engine statics (`WorkflowEngine.__init__`): detect
back-edges, build the DAG-only edge lookup maps, and take the topological
levels of the cycle-free DAG. -/
def mkEngine (defn : WorkflowDefinition) (wid : String) : Engine :=
  let backIds := detectBackEdges defn
  let dagEdges := defn.edges.filter (fun e => e.id ∉ backIds)
  { defn := defn
    wid := wid
    nodesMap := defn.nodes.foldl (fun m n => aset m n.id n) []
    backEdges := defn.edges.filter (fun e => e.id ∈ backIds)
    dagEdges := dagEdges
    incoming := dagEdges.foldl (fun m e => adjAppend m e.target e) []
    outgoing := dagEdges.foldl (fun m e => adjAppend m e.source e) []
    levels := topologicalLevels (defn.nodes.map (·.id)) dagEdges }

/-- DAG-only incoming edges of a node. -/
def incomingOf (eng : Engine) (nid : String) : List WorkflowEdge :=
  agetD eng.incoming nid []

/-- DAG-only outgoing edges of a node. -/
def outgoingOf (eng : Engine) (nid : String) : List WorkflowEdge :=
  agetD eng.outgoing nid []

/-- Loop body of a loop node and a back-edge source
(`WorkflowEngine._identify_loop_body`): forward-reachable from the loop
node intersected with backward-reachable from the back-edge source. -/
def identifyLoopBody (eng : Engine) (loopNodeId backEdgeSource : String) : List String :=
  let fuel := 2 * (eng.defn.nodes.length + eng.defn.edges.length) + 2
  let seeds := (outgoingOf eng loopNodeId).map (·.target)
  let fwd := forwardReach eng.outgoing fuel seeds []
  let bwd := backwardReach eng.incoming loopNodeId fuel [backEdgeSource] []
  fwd.filter (fun nid => nid ∈ bwd)

/-- Initial per-engine state: every node `waiting`, pipeline `pending`. -/
def initEst (defn : WorkflowDefinition) : Est :=
  { results := []
    stResults := []
    statuses := defn.nodes.foldl (fun m n => aset m n.id NStatus.waiting) []
    pstatus := "pending"
    errMsg := none
    blocked := []
    skipNodes := []
    vars := []
    lastStream := [] }

/-- Broadcast the current status (`WorkflowEngine._emit`): results are
truncated to 500 characters unless this is the terminal full emit. -/
def emit (env : Env) (wid : String) (fullResults : Bool) : M Unit :=
  match env.bc with
  | none => M.pure ()
  | some _ => do
    let s ← getEst
    let results := if fullResults then s.stResults
      else s.stResults.map (fun p => (p.1, pyTake p.2 500))
    doBroadcast env (.workflowStatus wid s.pstatus
      (s.statuses.map (fun p => (p.1, p.2.value))) results s.errMsg)

/-- Broadcast a streaming token for a node, throttled to one delivery per
80 ms per node (`WorkflowEngine._stream_broadcast`); a throttled call
returns before reaching any suspension point. -/
def streamBroadcast (env : Env) (wid nid chunk part : String) : M Unit :=
  match env.bc with
  | none => M.pure ()
  | some _ => do
    let now ← readClock env
    let s ← getEst
    let last := agetD s.lastStream nid 0
    if now - last < 80 then M.pure ()
    else do
      modifyEst (fun s => { s with lastStream := aset s.lastStream nid now })
      doBroadcast env (.nodeStreaming wid nid chunk part)

/-- Collect outputs from parent nodes along unblocked DAG edges, or use
the initial input for roots and fully blocked nodes
(`WorkflowEngine._collect_input`). -/
def collectInput (eng : Engine) (s : Est) (nid : String) (initialInput : String) : String :=
  let incoming := incomingOf eng nid
  if incoming.isEmpty then initialInput
  else
    let activeSources := (incoming.filter (fun e => e.id ∉ s.blocked)).map (·.source)
    if activeSources.isEmpty then initialInput
    else String.intercalate "\n\n---\n\n" (activeSources.map (fun src => agetD s.results src ""))

/-- Python character slice `cs[a:b]` with negative-index wrapping. -/
def pySliceChars (cs : List Char) (a b : Int) : String :=
  let n := cs.length
  let norm : Int → Nat := fun i => if i < 0 then ((n : Int) + i).toNat else min i.toNat n
  String.mk ((cs.take (norm b)).drop (norm a))

/-- Loop core of `WorkflowEngine._split_text`: `while start < len(text)`
append `text[start:start+chunk_size]` and advance `start` to
`end - overlap`.  `none` models a loop that has not terminated within the
given fuel (for `overlap ≥ chunk_size` it never does). -/
def splitTextGo (cs : List Char) (chunkSize overlap : Int) :
    Nat → Int → List String → Option (List String)
  | 0, _, _ => none
  | fuel + 1, start, acc =>
    if start < (cs.length : Int) then
      splitTextGo cs chunkSize overlap fuel (start + chunkSize - overlap)
        (acc ++ [pySliceChars cs start (start + chunkSize)])
    else some acc

/-- Split text into chunks with overlap (`WorkflowEngine._split_text`):
one chunk when the text fits, else the fuelled window loop. -/
def splitText (gas : Nat) (text : String) (chunkSize overlap : Int) : Option (List String) :=
  if (text.toList.length : Int) ≤ chunkSize then some [text]
  else splitTextGo text.toList chunkSize overlap gas 0 []

/-- Read a data value expected to be a plain string for `==` comparison
dispatch (a non-string value simply compares unequal in Python). -/
def dvalTag (v : DVal) : String :=
  match v with
  | .vstr s => s
  | _ => "##nonstring##"

/-- Add an id to a blocked set (Python `set.add`). -/
def addBlocked (l : List String) (eid : String) : List String :=
  if eid ∈ l then l else l ++ [eid]

/-- Evaluate the condition configured on a node
(`WorkflowEngine._evaluate_condition`). -/
def evaluateCondition (env : Env) (node : WorkflowNode) (inputText : String) :
    Except String Bool := do
  let data := node.data
  let condType := dvalTag (dget data "conditionType" "condition_type" (.vstr "contains"))
  let condValueV := dget data "conditionValue" "condition_value" (.vstr "")
  if condType = "contains" then
    let cv ← condValueV.asStr
    .ok (strContains (pyLower inputText) (pyLower cv))
  else if condType = "not_contains" then
    let cv ← condValueV.asStr
    .ok (¬ strContains (pyLower inputText) (pyLower cv))
  else if condType = "score_threshold" then
    match lastNumber inputText with
    | none => .ok false
    | some score => do
      let threshold ← if condValueV.truthy then condValueV.pyFloat else .ok 7
      let op := dvalTag (dgetD data "operator" (.vstr "gte"))
      if op = "gte" then .ok (score ≥ threshold)
      else if op = "gt" then .ok (score > threshold)
      else if op = "lte" then .ok (score ≤ threshold)
      else if op = "lt" then .ok (score < threshold)
      else if op = "eq" then .ok (score = threshold)
      else .ok (score ≥ threshold)
  else if condType = "keyword" then
    let cv ← condValueV.asStr
    .ok (strContains (pyTake (pyUpper inputText) 500) (pyUpper cv))
  else if condType = "regex" then
    let cv ← condValueV.asStr
    .ok (env.reSearch cv inputText)
  else if condType = "length_above" then do
    let n ← (dOr condValueV (.vint 0)).pyInt
    .ok ((inputText.toList.length : Int) > n)
  else if condType = "length_below" then do
    let n ← (dOr condValueV (.vint 1000)).pyInt
    .ok ((inputText.toList.length : Int) < n)
  else
    .ok true

/-- Block the outgoing edges of the branch not taken
(`WorkflowEngine._run_condition_node`, edge-blocking loop). -/
def blockConditionEdges (edges : List WorkflowEdge) (result : Bool) (blocked : List String) :
    List String :=
  edges.foldl (fun acc e =>
    let label := pyLower (pyStrip e.label)
    if result ∧ label = "false" then addBlocked acc e.id
    else if ¬ result ∧ label = "true" then addBlocked acc e.id
    else acc) blocked

/-- Evaluate a condition node and block the losing branch
(`WorkflowEngine._run_condition_node`); the input passes through. -/
def runConditionNode (env : Env) (eng : Engine) (node : WorkflowNode) (inputText : String) :
    M String := do
  let result ← ofExcept (evaluateCondition env node inputText)
  modifyEst (fun s =>
    { s with blocked := blockConditionEdges (outgoingOf eng node.id) result s.blocked })
  M.pure inputText

/-- The per-edge matcher of the switch scan loop
(`WorkflowEngine._run_switch_node`): `keyword` = case-insensitive
substring, `regex` = case-insensitive search, `score` = last decimal
number of the input at least the label's numeric value (an unparsable
label never matches). -/
def switchCase (env : Env) (switchType inputText label : String) : Bool :=
  if switchType = "keyword" then strContains (pyLower inputText) label
  else if switchType = "regex" then env.reSearchCI label inputText
  else if switchType = "score" then
    match lastNumber inputText with
    | some score =>
      match parsePyFloat label with
      | some threshold => score ≥ threshold
      | none => false
    | none => false
  else false

/-- Scan outgoing edges in declaration order for the first matching
non-empty, non-`default` label (`WorkflowEngine._run_switch_node`,
matching loop); returns `"default"` when nothing matches. -/
def switchMatchLabel (env : Env) (switchType inputText : String) :
    List WorkflowEdge → String
  | [] => "default"
  | e :: rest =>
    let label := pyLower (pyStrip e.label)
    if label = "" ∨ label = "default" then switchMatchLabel env switchType inputText rest
    else if switchCase env switchType inputText label then label
    else switchMatchLabel env switchType inputText rest

/-- Block the non-matching edges after a switch scan
(`WorkflowEngine._run_switch_node`, blocking loop): non-empty labels that
are neither the winner nor `default` are blocked; empty labels are left
alone by every branch; `default` labels are blocked when a case won. -/
def blockSwitchEdges (edges : List WorkflowEdge) (matchedLabel : String)
    (blocked : List String) : List String :=
  edges.foldl (fun acc e =>
    let label := pyLower (pyStrip e.label)
    if label ≠ "" ∧ label ≠ matchedLabel ∧ label ≠ "default" then addBlocked acc e.id
    else if label = "" ∧ matchedLabel ≠ "default" then acc
    else if label = "default" ∧ matchedLabel ≠ "default" then addBlocked acc e.id
    else acc) blocked

/-- Multi-way branching (`WorkflowEngine._run_switch_node`): find the
winning label and block the rest; input passes through. -/
def runSwitchNode (env : Env) (eng : Engine) (node : WorkflowNode) (inputText : String) :
    M String := do
  let switchType := dvalTag (dget node.data "switchType" "switch_type" (.vstr "keyword"))
  let matchedLabel := switchMatchLabel env switchType inputText (outgoingOf eng node.id)
  modifyEst (fun s =>
    { s with blocked := blockSwitchEdges (outgoingOf eng node.id) matchedLabel s.blocked })
  M.pure inputText

/-- Aggregate parents' results using the configured strategy
(`WorkflowEngine._run_aggregator_node`). -/
def runAggregatorNode (eng : Engine) (node : WorkflowNode) : M String := do
  let s ← getEst
  let data := node.data
  let strategy := dvalTag (dgetD data "strategy" (.vstr "concatenate"))
  let separator ← ofExcept (dgetD data "separator" (.vstr "\n\n---\n\n")).asStr
  let sources := ((incomingOf eng node.id).filter (fun e => e.id ∉ s.blocked)).map (·.source)
  let parts := sources.map (fun src => agetD s.results src "")
  if strategy = "concatenate" then M.pure (String.intercalate separator parts)
  else if strategy = "summarize" then M.pure (String.intercalate separator parts)
  else if strategy = "custom" then do
    let template ← ofExcept (dget data "customTemplate" "custom_template" (.vstr "\x7binputs\x7d")).asStr
    M.pure (pyReplace template "\x7binputs\x7d" (String.intercalate separator parts))
  else M.pure (String.intercalate separator parts)

/-- Pause then pass the input through (`WorkflowEngine._run_delay_node`);
the delay is clamped to [0, 300] seconds. -/
def runDelayNode (env : Env) (wid : String) (node : WorkflowNode) (inputText : String) :
    M String := do
  let d ← ofExcept (dget node.data "delaySeconds" "delay_seconds" (.vint 1)).pyFloat
  let delay := max 0 (min d 300)
  (match env.bc with
   | some _ => doBroadcast env (.workflowStatus wid "running"
       [(node.id, "waiting " ++ toString delay ++ "s")] [] none)
   | none => M.pure ())
  awaitPoint
  M.pure inputText

/-- Invoke a tool adapter (`await tool.execute(input, **config)`). -/
def callTool (env : Env) (name inputText : String) (config : List (String × DVal)) :
    M String := do
  awaitPoint
  let g ← getGlob
  modifyGlob (fun g => { g with toolCalls := g.toolCalls + 1 })
  ofExcept (env.toolExec g.toolCalls name inputText config)

/-- Execute a database query configured on an input node
(`WorkflowEngine._run_database_input`); every failure is caught and
reported as a text result. -/
def runDatabaseInput (env : Env) (node : WorkflowNode) : M String := do
  let data := node.data
  let dbType := dget data "dbType" "db_type" (.vstr "sqlite")
  let connStr := dget data "connectionString" "connection_string" (.vstr "")
  let query := dgetD data "query" (.vstr "")
  if ¬ query.truthy then M.pure "[Database Input: nessuna query configurata]"
  else
    tryE
      (if ¬ env.toolKnown "database_tool" then
        M.pure "[Database Input: database_tool non disponibile]"
      else
        let config := (if connStr.truthy then [("connection_string", connStr)] else []) ++
          (if dbType.truthy then [("db_type", dbType)] else []) ++ [("query", query)]
        callTool env "database_tool" query.pyStr config)
      (fun e => M.pure ("[Database Input error: " ++ e ++ "]"))

/-- Input node (`_execute_node`, `NodeType.INPUT` branch): database input,
uploaded-file resolution, then the `or`-chain over collected input,
`defaultValue`, `source` and `label`. -/
def runInputNode (env : Env) (node : WorkflowNode) (nodeInput : String) : M String := do
  let data := node.data
  let inputType := dvalTag (dget data "inputType" "input_type" (.vstr "text"))
  if inputType = "database" then runDatabaseInput env node
  else do
    let fileId := dgetD data "fileId" (.vstr "")
    let resolved ← (if fileId.truthy then do
        awaitPoint
        M.pure (env.resolveFile fileId.pyStr)
      else M.pure none)
    match resolved with
    | some path => M.pure path
    | none =>
      let dfault := dget data "defaultValue" "default_value" (.vstr "")
      if nodeInput ≠ "" then M.pure nodeInput
      else if dfault.truthy then M.pure dfault.pyStr
      else if (dgetD data "source" (.vstr "")).truthy then
        M.pure (dgetD data "source" (.vstr "")).pyStr
      else M.pure (dgetD data "label" (.vstr "")).pyStr

/-- Consume an agent token stream sequentially, appending each chunk and
broadcasting the running partial (`async for chunk in gen` of
`_run_agent_with_model`). -/
def streamChunksGo (env : Env) (wid nid : String) : List String → String → M String
  | [], acc => M.pure acc
  | c :: rest, acc => do
    awaitPoint
    let acc' := acc ++ c
    streamBroadcast env wid nid c acc'
    streamChunksGo env wid nid rest acc'

/-- Run one model with streaming (`WorkflowEngine._run_agent_with_model`);
the usage log is best-effort and swallowed, hence unobservable here. -/
def runAgentWithModel (env : Env) (wid : String) (node : WorkflowNode)
    (inputText model systemPrompt : String) (temperature maxTokens : DVal) : M String := do
  let temp ← ofExcept temperature.pyFloat
  let mt ← ofExcept maxTokens.pyInt
  let _t0 ← readClock env
  awaitPoint
  let g ← getGlob
  modifyGlob (fun g => { g with agentCalls := g.agentCalls + 1 })
  match env.agentChat g.agentCalls
      { model := model, systemPrompt := systemPrompt, temperature := temp,
        maxTokens := mt, userContent := inputText, streamed := true } with
  | .raise e => M.raise e
  | .chunks cs => do
    let full ← streamChunksGo env wid node.id cs ""
    let _t1 ← readClock env
    (match env.bc with
     | some _ => do
        modifyEst (fun s => { s with lastStream := aset s.lastStream node.id 0 })
        streamBroadcast env wid node.id "" full
     | none => M.pure ())
    M.pure full

/-- Agent node with model fallback (`WorkflowEngine._run_agent_node`). -/
def runAgentNode (env : Env) (wid : String) (node : WorkflowNode) (inputText : String) :
    M String := do
  let data := node.data
  let model := (dgetD data "model" (.vstr "claude-sonnet-4-5-20250929")).pyStr
  let fallbackV := dget data "fallbackModel" "fallback_model" (.vstr "")
  let systemPrompt := (dget data "systemPrompt" "system_prompt"
    (.vstr "You are a helpful assistant.")).pyStr
  let temperature := dgetD data "temperature" (.vrat (7 / 10))
  let maxTokens := dget data "maxTokens" "max_tokens" (.vint 4096)
  let cleanInput := stripArtifacts inputText
  tryE (runAgentWithModel env wid node cleanInput model systemPrompt temperature maxTokens)
    (fun primaryErr =>
      if fallbackV.truthy then do
        let fb := fallbackV.pyStr
        (match env.bc with
         | some _ => doBroadcast env (.nodeStreaming wid node.id
             ("\n[Fallback: " ++ model ++ " → " ++ fb ++ "]\n")
             ("[Fallback: " ++ model ++ " → " ++ fb ++ "]\n"))
         | none => M.pure ())
        runAgentWithModel env wid node cleanInput fb systemPrompt temperature maxTokens
      else M.raise primaryErr)

/-- Stream one chunk's response inside the chunker, broadcasting the
joined partial of all chunk results so far (`_run_chunker_node`). -/
def chunkStreamGo (env : Env) (wid nid separator : String) (older : List String) :
    List String → String → M String
  | [], acc => M.pure acc
  | t :: rest, acc => do
    awaitPoint
    let acc' := acc ++ t
    streamBroadcast env wid nid t (String.intercalate separator (older ++ [acc']))
    chunkStreamGo env wid nid separator older rest acc'

/-- Per-chunk loop of the chunker (`for i, chunk in enumerate(chunks)`). -/
def chunkLoopGo (env : Env) (wid nid model systemPrompt separator : String) (total : Nat) :
    List String → Nat → List String → M (List String)
  | [], _, acc => M.pure acc
  | chunk :: rest, i, acc => do
    let prompt := "[Chunk " ++ toString (i + 1) ++ "/" ++ toString total ++ "]\n\n" ++ chunk
    awaitPoint
    let g ← getGlob
    modifyGlob (fun g => { g with agentCalls := g.agentCalls + 1 })
    match env.agentChat g.agentCalls
        { model := model, systemPrompt := systemPrompt, temperature := 7 / 10,
          maxTokens := 4096, userContent := prompt, streamed := true } with
    | .raise e => M.raise e
    | .chunks cs => do
      let content ← chunkStreamGo env wid nid separator acc cs ""
      let acc' := acc ++ [content]
      (match env.bc with
       | some _ => doBroadcast env (.workflowStatus wid "running"
           [(nid, "chunk " ++ toString (i + 1) ++ "/" ++ toString total)] [] none)
       | none => M.pure ())
      chunkLoopGo env wid nid model systemPrompt separator total rest (i + 1) acc'

/-- Chunker node (`WorkflowEngine._run_chunker_node`): split the input
into character windows, process each window through an agent, join the
results with the configured separator. -/
def runChunkerNode (env : Env) (wid : String) (node : WorkflowNode) (inputText : String)
    (gas : Nat) : M String := do
  let data := node.data
  let chunkSize ← ofExcept (dget data "chunkSize" "chunk_size" (.vint 2000)).pyInt
  let overlap ← ofExcept (dget data "overlap" "overlap" (.vint 200)).pyInt
  let model := (dgetD data "model" (.vstr "claude-sonnet-4-5-20250929")).pyStr
  let systemPrompt := (dget data "systemPrompt" "system_prompt"
    (.vstr "Process the following chunk of text:")).pyStr
  let separator ← ofExcept (dgetD data "separator" (.vstr "\n\n---\n\n")).asStr
  match splitText gas inputText chunkSize overlap with
  | none => M.noFuel
  | some chunks =>
    if chunks.isEmpty then M.pure inputText
    else do
      let results ← chunkLoopGo env wid node.id model systemPrompt separator
        chunks.length chunks 0 []
      M.pure (String.intercalate separator results)

/-- Python `if data.get(k): config[dst] = data[k]`. -/
def copyTruthyAs (cfg : List (String × DVal)) (data : List (String × DVal))
    (srcKey dstKey : String) : List (String × DVal) :=
  match aget data srcKey with
  | some v => if v.truthy then aset cfg dstKey v else cfg
  | none => cfg

/-- Python `if data.get(k): config[k] = data[k]`. -/
def copyTruthy (cfg : List (String × DVal)) (data : List (String × DVal)) (k : String) :
    List (String × DVal) :=
  copyTruthyAs cfg data k k

/-- Python `if data.get(k) is not None: config[dst] = data[k]`. -/
def copyPresentAs (cfg : List (String × DVal)) (data : List (String × DVal))
    (srcKey dstKey : String) : List (String × DVal) :=
  match aget data srcKey with
  | some v => aset cfg dstKey v
  | none => cfg

/-- Build the tool configuration from node data along the per-tool branch
chain of `WorkflowEngine._run_tool_node`, also returning the possibly
templated input text.  `Except.error` models string-method calls raising
on non-string data values. -/
def buildToolConfig (data : List (String × DVal)) (toolName inputText : String) :
    Except String (List (String × DVal) × String) := do
  if toolName = "code_executor" then do
    let cfg := [("language", dgetD data "language" (.vstr "python")),
                ("timeout", dgetD data "timeout" (.vint 30))]
    let codeTplV := dget data "codeTemplate" "code_template" (.vstr "")
    if codeTplV.truthy then do
      let codeTpl ← codeTplV.asStr
      let escaped := pyReplace (pyReplace inputText "\\" "\\\\") "\"\"\"" "\\\"\\\"\\\""
      .ok (cfg, pyReplace codeTpl "\x7binput\x7d" escaped)
    else .ok (cfg, inputText)
  else if toolName = "database_tool" then do
    let conn := dget data "connectionString" "connection_string" (.vstr "")
    let dbType := dget data "dbType" "db_type" (.vstr "")
    let queryTplV := dget data "queryTemplate" "query_template" (.vstr "")
    let cfg := (if conn.truthy then [("connection_string", conn)] else []) ++
      (if dbType.truthy then [("db_type", dbType)] else [])
    if queryTplV.truthy then do
      let queryTpl ← queryTplV.asStr
      .ok (cfg ++ [("query", DVal.vstr (pyReplace queryTpl "\x7binput\x7d" inputText))], inputText)
    else .ok (cfg, inputText)
  else if toolName = "file_processor" then
    .ok ([("operation", dgetD data "operation" (.vstr "read"))], inputText)
  else if toolName = "image_tool" then
    .ok ([("operation", dgetD data "operation" (.vstr "analyze"))], inputText)
  else if toolName = "ml_pipeline" then
    let cfg := [("operation", dgetD data "operation" (.vstr "train"))]
    let cfg := copyTruthyAs cfg data "modelType" "model_type"
    let cfg := copyTruthyAs cfg data "targetColumn" "target_column"
    let cfg := copyTruthyAs cfg data "modelName" "model_name"
    .ok (cfg, inputText)
  else if toolName = "website_generator" then
    .ok ([], inputText)
  else if toolName = "gis_tool" then do
    let cfg := [("operation", dgetD data "operation" (.vstr "info"))]
    let cfg := copyTruthy cfg data "analysis_type"
    let cfg := copyTruthy cfg data "distance"
    let cfg := copyTruthy cfg data "target_crs"
    let cfg := copyTruthy cfg data "title"
    let cfg := copyTruthy cfg data "colormap"
    let cfg := copyTruthy cfg data "column"
    let cfg := copyTruthy cfg data "how"
    let cfg := copyTruthy cfg data "band"
    let cfg := copyTruthy cfg data "layer"
    let cfg := copyTruthy cfg data "zoom"
    let cfg := copyTruthy cfg data "mapType"
    let cfg := copyPresentAs cfg data "addMarker" "addMarker"
    let cfg := copyTruthy cfg data "markerLabel"
    let coordsV := dget data "coordinates" "coords" (.vstr "")
    if coordsV.truthy then do
      let coords ← coordsV.asStr
      .ok (cfg, pyReplace coords "\x7binput\x7d" inputText)
    else .ok (cfg, inputText)
  else if toolName = "file_search" then
    let cfg := [("source", dgetD data "source" (.vstr "local")),
                ("mode", dgetD data "mode" (.vstr "filename")),
                ("max_results", dgetD data "max_results" (.vint 20))]
    let cfg := copyTruthy cfg data "roots"
    let cfg := copyTruthy cfg data "extensions"
    .ok (cfg, inputText)
  else if toolName = "email_search" then
    let cfg := [("source", dgetD data "source" (.vstr "gmail")),
                ("max_results", dgetD data "max_results" (.vint 20))]
    let cfg := copyTruthy cfg data "imap_server"
    let cfg := copyTruthy cfg data "imap_port"
    let cfg := copyTruthy cfg data "imap_username"
    let cfg := copyTruthy cfg data "imap_password"
    .ok (cfg, inputText)
  else if toolName = "project_analyzer" then
    .ok ([("max_depth", dgetD data "max_depth" (.vint 4)),
          ("max_file_size", dgetD data "max_file_size" (.vint 50000)),
          ("max_files_read", dgetD data "max_files_read" (.vint 20))], inputText)
  else if toolName = "email_sender" then
    let cfg := [("source", dget data "emailSource" "email_source" (.vstr "smtp")),
                ("to", dget data "emailTo" "email_to" (.vstr "")),
                ("subject", dget data "emailSubject" "email_subject"
                  (.vstr "Gennaro Workflow Result"))]
    let cfg := copyTruthyAs cfg data "smtpHost" "smtp_host"
    let cfg := copyTruthyAs cfg data "smtpPort" "smtp_port"
    let cfg := copyTruthyAs cfg data "smtpUsername" "smtp_username"
    let cfg := copyTruthyAs cfg data "smtpPassword" "smtp_password"
    let cfg := match aget data "smtpTls" with
      | some v => aset cfg "smtp_tls" (.vbool (match v with | .vstr "false" => false | _ => true))
      | none => cfg
    .ok (cfg, inputText)
  else if toolName = "web_scraper" then
    .ok ([("operation", dgetD data "operation" (.vstr "extract_text")),
          ("css_selector", dget data "cssSelector" "css_selector" (.vstr "")),
          ("timeout", dgetD data "timeout" (.vint 15)),
          ("user_agent", dget data "userAgent" "user_agent" (.vstr ""))], inputText)
  else if toolName = "file_manager" then
    .ok ([("operation", dgetD data "operation" (.vstr "list")),
          ("base_dir", dget data "baseDir" "base_dir" (.vstr "")),
          ("destination", dgetD data "destination" (.vstr "")),
          ("confirm", dgetD data "confirm" (.vbool false)),
          ("content_source", dget data "contentSource" "content_source" (.vstr "input"))],
      inputText)
  else if toolName = "http_request" then
    .ok ([("method", dgetD data "method" (.vstr "GET")),
          ("url_template", dget data "urlTemplate" "url_template" (.vstr "\x7binput\x7d")),
          ("headers", dgetD data "headers" (.vstr "")),
          ("body", dgetD data "body" (.vstr "")),
          ("auth_type", dget data "authType" "auth_type" (.vstr "none")),
          ("auth_token", dget data "authToken" "auth_token" (.vstr "")),
          ("timeout", dgetD data "timeout" (.vint 15))], inputText)
  else if toolName = "text_transformer" then
    .ok ([("operation", dgetD data "operation" (.vstr "trim")),
          ("pattern", dgetD data "pattern" (.vstr "")),
          ("replacement", dgetD data "replacement" (.vstr "")),
          ("separator", dgetD data "separator" (.vstr "\\n")),
          ("template", dgetD data "template" (.vstr "")),
          ("max_length", dget data "maxLength" "max_length" (.vint 0))], inputText)
  else if toolName = "notifier" then
    .ok ([("channel", dgetD data "channel" (.vstr "webhook")),
          ("webhook_url", dget data "webhookUrl" "webhook_url" (.vstr "")),
          ("bot_token", dget data "botToken" "bot_token" (.vstr "")),
          ("chat_id", dget data "chatId" "chat_id" (.vstr "")),
          ("method", dgetD data "method" (.vstr "POST")),
          ("headers", dgetD data "headers" (.vstr "")),
          ("timeout", dgetD data "timeout" (.vint 10))], inputText)
  else if toolName = "json_parser" then
    .ok ([("operation", dgetD data "operation" (.vstr "extract")),
          ("path", dgetD data "path" (.vstr "")),
          ("filter_field", dget data "filterField" "filter_field" (.vstr "")),
          ("filter_value", dget data "filterValue" "filter_value" (.vstr ""))], inputText)
  else if toolName = "telegram_bot" then
    .ok ([("operation", dgetD data "operation" (.vstr "send_message")),
          ("bot_token", dget data "botToken" "bot_token" (.vstr "")),
          ("chat_id", dget data "chatId" "chat_id" (.vstr "")),
          ("parse_mode", dget data "parseMode" "parse_mode" (.vstr "Markdown"))], inputText)
  else if toolName = "whatsapp" then
    .ok ([("operation", dgetD data "operation" (.vstr "send_message")),
          ("token", dget data "waToken" "token" (.vstr "")),
          ("phone_number_id", dget data "phoneNumberId" "phone_number_id" (.vstr "")),
          ("recipient", dgetD data "recipient" (.vstr "")),
          ("template_name", dget data "templateName" "template_name" (.vstr ""))], inputText)
  else if toolName = "pyarchinit_tool" then
    .ok ([("operation", dgetD data "operation" (.vstr "query_us")),
          ("db_path", dget data "dbPath" "db_path" (.vstr "")),
          ("db_type", dget data "dbType" "db_type" (.vstr "sqlite")),
          ("sito", dgetD data "sito" (.vstr "")),
          ("area", dgetD data "area" (.vstr "")),
          ("us", dgetD data "us" (.vstr "")),
          ("custom_query", dget data "customQuery" "custom_query" (.vstr ""))], inputText)
  else if toolName = "qgis_project" then
    .ok ([("operation", dgetD data "operation" (.vstr "list_layers")),
          ("project_path", dget data "projectPath" "project_path" (.vstr "")),
          ("layer_name", dget data "layerName" "layer_name" (.vstr ""))], inputText)
  else
    .ok ([], inputText)

/-- Merge the legacy explicit `config` dict and the JSON `customParams`
into the built configuration (`_run_tool_node`, merge section). -/
def mergeToolConfig (env : Env) (data : List (String × DVal))
    (cfg : List (String × DVal)) : List (String × DVal) :=
  let cfg := match dgetD data "config" (.vdict []) with
    | .vdict ex => ex.foldl (fun acc p => aset acc p.1 p.2) cfg
    | _ => cfg
  match dget data "customParams" "custom_params" (.vstr "") with
  | .vstr s =>
    if s ≠ "" then
      match env.parseJsonDict s with
      | some custom => custom.foldl (fun acc p => aset acc p.1 p.2) cfg
      | none => cfg
    else cfg
  | _ => cfg

/-- Tool node (`WorkflowEngine._run_tool_node`): resolve the tool by name
(`[Tool 'NAME' not found]` when unknown), build and merge the
configuration, template the input where applicable, call the adapter. -/
def runToolNode (env : Env) (node : WorkflowNode) (inputText : String) : M String := do
  let data := node.data
  let toolNameV := dOr (dgetD data "tool" (.vstr "")) (dgetD data "tool_name" (.vstr ""))
  let toolName := toolNameV.pyStr
  if ¬ env.toolKnown toolName then M.pure ("[Tool '" ++ toolName ++ "' not found]")
  else if toolName = "web_search" then do
    let queryTpl ← ofExcept (dget data "queryTemplate" "query_template"
      (.vstr "\x7binput\x7d")).asStr
    callTool env "web_search" (pyReplace queryTpl "\x7binput\x7d" inputText) []
  else do
    let built ← ofExcept (buildToolConfig data toolName inputText)
    callTool env toolName built.2 (mergeToolConfig env data built.1)

/-- Internal generate/critique loop of a loop node without back-edges
(`WorkflowEngine._run_loop_node`, second half); the computed `downstream`
list of the source is unused there and omitted. -/
def internalLoopGo (env : Env) (wid nid model refinementPrompt : String)
    (stopCondV : DVal) (exitType initialInput : String) :
    Nat → String → String → M String
  | 0, _, genContent => M.pure genContent
  | n + 1, current, _ => do
    awaitPoint
    let g ← getGlob
    modifyGlob (fun g => { g with agentCalls := g.agentCalls + 1 })
    match env.agentChat g.agentCalls
        { model := model,
          systemPrompt := "Generate the best possible output for the given task.",
          temperature := 7 / 10, maxTokens := 4096,
          userContent := current, streamed := true } with
    | .raise e => M.raise e
    | .chunks cs => do
      let genContent ← streamChunksGo env wid nid cs ""
      awaitPoint
      let g2 ← getGlob
      modifyGlob (fun g => { g with agentCalls := g.agentCalls + 1 })
      match env.agentChat g2.agentCalls
          { model := model,
            systemPrompt := "Review the output. If it meets quality standards, respond with "
              ++ stopCondV.pyStr ++ ". Otherwise, provide specific feedback for improvement.",
            temperature := 7 / 10, maxTokens := 4096,
            userContent := "Review this:\n\n" ++ genContent, streamed := false } with
      | .raise e => M.raise e
      | .chunks cs2 => do
        let criticContent := String.join cs2
        let shouldStop ← (if exitType = "keyword" then do
            let sc ← ofExcept stopCondV.asStr
            M.pure (strContains (pyTake (pyUpper criticContent) 100) (pyUpper sc))
          else M.pure false)
        if shouldStop then M.pure genContent
        else
          internalLoopGo env wid nid model refinementPrompt stopCondV exitType initialInput n
            ("Original: " ++ initialInput ++ "\n\nPrevious output:\n" ++ genContent ++
              "\n\nFeedback:\n" ++ criticContent ++ "\n\n" ++ refinementPrompt)
            genContent

/-- A sub-engine runner: run a fresh engine over a definition with a
workflow id and initial input, threading only the global state. -/
def SubRunner : Type :=
  WorkflowDefinition → String → String → Glob → Res (List (String × String)) × Glob × Est

/-- Spawn a sub-engine (`WorkflowEngine(...)` + `run(initial_input=...)`
with no timeout): the parent's per-engine state is untouched, the global
state (event trace, counters, cancellation countdown) is threaded. -/
def spawnSub (sub : SubRunner) (defn : WorkflowDefinition) (wid input : String) :
    M (List (String × String)) := fun g s =>
  match sub defn wid input g with
  | (r, g', _) => (r, g', s)

/-- Exit-condition check of the graph-level loop (`_run_graph_loop`,
lines after each iteration): `ok true` = break. -/
def exitCheck (exitType : String) (exitValueV : DVal) (iteration : Nat)
    (currentInput exitResult : String) : Except String Bool := do
  if exitType = "always" then .ok false
  else if exitType = "keyword" then
    if exitValueV.truthy then do
      let ev ← exitValueV.asStr
      .ok (strContains (pyTake (pyUpper exitResult) 500) (pyUpper ev))
    else .ok false
  else if exitType = "no_change" then
    .ok (iteration > 0 ∧ pyStrip exitResult = pyStrip currentInput)
  else if exitType = "score" then
    match lastNumber exitResult with
    | some score => do
      let threshold ← if exitValueV.truthy then exitValueV.pyFloat else .ok 7
      .ok (score ≥ threshold)
    | none => .ok false
  else .ok false

/-- Iterations of the graph-level loop (`for iteration in range(max_iter)`
of `_run_graph_loop`): broadcast progress, reset body statuses, run a
fresh sub-engine, fold its results into the parent, append the round
transcript, check the exit condition, feed the exit result forward. -/
def runGraphLoopIters (env : Env) (sub : SubRunner) (eng : Engine) (nid : String)
    (subDef : WorkflowDefinition) (bodyIds : List String) (exitNodeId : String)
    (maxIterI : Int) (exitType : String) (exitValueV : DVal) :
    Nat → Nat → String → List String → M (List String)
  | 0, _, _, transcript => M.pure transcript
  | r + 1, iterIdx, currentInput, transcript => do
    (match env.bc with
     | some _ => doBroadcast env (.workflowStatus eng.wid "running"
         [(nid, "loop " ++ toString (iterIdx + 1) ++ "/" ++ toString maxIterI)] [] none)
     | none => M.pure ())
    modifyEst (fun s =>
      { s with statuses := bodyIds.foldl (fun m b => aset m b .running) s.statuses })
    emit env eng.wid false
    let results ← spawnSub sub subDef eng.wid currentInput
    modifyEst (fun s => results.foldl (fun st p =>
      { st with results := aset st.results p.1 p.2,
                stResults := aset st.stResults p.1 p.2,
                statuses := aset st.statuses p.1 .done }) s)
    let exitResult := agetD results exitNodeId ""
    let transcript' := transcript ++
      ["**--- Round " ++ toString (iterIdx + 1) ++ " ---**\n\n" ++ exitResult]
    emit env eng.wid false
    let stop ← ofExcept (exitCheck exitType exitValueV iterIdx currentInput exitResult)
    if stop then M.pure transcript'
    else
      runGraphLoopIters env sub eng nid subDef bodyIds exitNodeId maxIterI
        exitType exitValueV r (iterIdx + 1) exitResult transcript'

/-- Graph-level loop driver (`WorkflowEngine._run_graph_loop`): identify
the body, mark it skipped for the main scheduler, build the body
sub-workflow, iterate, finally mark every body node done and return the
joined transcript. -/
def runGraphLoop (env : Env) (sub : SubRunner) (eng : Engine) (node : WorkflowNode)
    (inputText : String) (backEdgesToNode : List WorkflowEdge)
    (maxIter : Int) (exitType : String) (exitValueV : DVal) : M String := do
  let bodyIds := backEdgesToNode.foldl (fun acc be =>
    acc ++ (identifyLoopBody eng node.id be.source).filter (fun b => b ∉ acc)) []
  if bodyIds.isEmpty then M.pure inputText
  else do
    modifyEst (fun s =>
      { s with skipNodes := s.skipNodes ++ bodyIds.filter (fun b => b ∉ s.skipNodes) })
    let bodyNodes := bodyIds.filterMap (fun b => aget eng.nodesMap b)
    let backIds := eng.backEdges.map (·.id)
    let bodyEdges := eng.defn.edges.filter (fun e =>
      e.source ∈ bodyIds ∧ e.target ∈ bodyIds ∧ e.id ∉ backIds)
    let subDef := WorkflowDefinition.mk bodyNodes bodyEdges
    let exitNodeId := (backEdgesToNode.head?.map (·.source)).getD ""
    let transcript ← runGraphLoopIters env sub eng node.id subDef bodyIds exitNodeId
      maxIter exitType exitValueV maxIter.toNat 0 inputText []
    modifyEst (fun s =>
      { s with statuses := bodyIds.foldl (fun m b => aset m b .done) s.statuses })
    M.pure (String.intercalate "\n\n" transcript)

/-- Loop node dispatcher (`WorkflowEngine._run_loop_node`): a graph-level
loop when a back-edge targets this node, else the internal
generate/critique loop. -/
def runLoopNode (env : Env) (sub : SubRunner) (eng : Engine) (node : WorkflowNode)
    (inputText : String) : M String := do
  let data := node.data
  let maxIter ← ofExcept (dget data "maxIterations" "max_iterations" (.vint 3)).pyInt
  let exitType := dvalTag (dget data "exitConditionType" "exit_condition_type" (.vstr "keyword"))
  let exitValueV := dget data "exitValue" "exit_value" (.vstr "APPROVED")
  let loopBackEdges := eng.backEdges.filter (fun e => e.target = node.id)
  if ¬ loopBackEdges.isEmpty then
    runGraphLoop env sub eng node inputText loopBackEdges maxIter exitType exitValueV
  else do
    let stopCondV := dOr exitValueV (dgetD data "stop_condition" (.vstr "PASS"))
    let model := (dgetD data "model" (.vstr "claude-sonnet-4-5-20250929")).pyStr
    let refinementPrompt := (dget data "refinementPrompt" "refinement_prompt"
      (.vstr "Improve the content based on the feedback.")).pyStr
    internalLoopGo env eng.wid node.id model refinementPrompt stopCondV exitType inputText
      maxIter.toNat inputText ""

/-- Set `_currentDepth` on every nested `meta_agent` node of a
sub-definition (`_run_meta_agent_node`, injection loop). -/
def injectDepth (defn : WorkflowDefinition) (depth : Int) : WorkflowDefinition :=
  WorkflowDefinition.mk
    (defn.nodes.map (fun n =>
      if n.type = .meta_agent then
        WorkflowNode.mk n.id n.type (aset n.data "_currentDepth" (.vint depth))
      else n))
    defn.edges

/-- Result collection of the meta-agent (`_run_meta_agent_node`, final
section): join the output-typed nodes' results, falling back to all
results when the sub-definition has no output nodes with results. -/
def metaCollect (injected : WorkflowDefinition) (results : List (String × String)) : String :=
  let outputResults := injected.nodes.filterMap (fun n =>
    if n.type = .output ∧ ahas results n.id then some (agetD results n.id "") else none)
  if ¬ outputResults.isEmpty then String.intercalate "\n\n---\n\n" outputResults
  else String.intercalate "\n\n---\n\n" (results.map (·.2))

/-- Meta-agent node (`WorkflowEngine._run_meta_agent_node`): depth-capped
recursive sub-workflow execution; returns the joined output-node results,
falling back to all results. -/
def runMetaAgentNode (_env : Env) (sub : SubRunner) (eng : Engine) (node : WorkflowNode)
    (inputText : String) : M String := do
  let data := node.data
  let subV := match aget data "workflowDefinition" with
    | some v => if v.truthy then some v else aget data "workflow_definition"
    | none => aget data "workflow_definition"
  match subV with
  | none => M.pure "[Meta-Agent: no sub-workflow definition configured]"
  | some v =>
    if ¬ v.truthy then M.pure "[Meta-Agent: no sub-workflow definition configured]"
    else do
      let maxDepth ← ofExcept (dgetD data "maxDepth" (.vint 3)).pyInt
      let currentDepth ← ofExcept (dgetD data "_currentDepth" (.vint 0)).pyInt
      if currentDepth ≥ maxDepth then
        M.pure ("[Meta-Agent: max recursion depth (" ++ toString maxDepth ++ ") reached]")
      else
        match v with
        | .vdef d => do
          let results ← spawnSub sub (injectDepth d (currentDepth + 1))
            (eng.wid ++ "_sub_" ++ node.id) inputText
          M.pure (metaCollect (injectDepth d (currentDepth + 1)) results)
        | .vdict _ => M.raise "ValidationError: invalid sub-workflow dict"
        | _ => M.pure "[Meta-Agent: invalid workflow definition]"

/-- Dispatch one node to its typed handler after collecting its input and
substituting variables (`WorkflowEngine._execute_node`).  The source's
trailing tests against `NodeType.DELAY`, `NodeType.SWITCH` and
`NodeType.VALIDATOR` are unreachable: the nine enum members are all
matched before them, and those three names do not exist in `NodeType`. -/
def executeNode (env : Env) (sub : SubRunner) (gas : Nat) (eng : Engine)
    (node : WorkflowNode) (initialInput : String) : M String := do
  let s ← getEst
  let nodeInput := substituteVariables s.vars (collectInput eng s node.id initialInput)
  match node.type with
  | .input => runInputNode env node nodeInput
  | .output => M.pure nodeInput
  | .agent => runAgentNode env eng.wid node nodeInput
  | .tool => runToolNode env node nodeInput
  | .aggregator => runAggregatorNode eng node
  | .condition => runConditionNode env eng node nodeInput
  | .loop => runLoopNode env sub eng node nodeInput
  | .meta_agent => runMetaAgentNode env sub eng node nodeInput
  | .chunker => runChunkerNode env eng.wid node nodeInput gas

/-- Attempt loop of `_execute_with_retry`: one try per step, sleeping
between retries; after exhaustion apply the `onError` policy. -/
def attemptLoop (env : Env) (sub : SubRunner) (gas : Nat) (eng : Engine)
    (node : WorkflowNode) (input : String) (onError fallbackValue : String) :
    Nat → M String
  | 0 =>
    tryE (executeNode env sub gas eng node input)
      (fun e =>
        if onError = "skip" then M.pure "[skipped: error after retries]"
        else if onError = "fallback" then M.pure fallbackValue
        else M.raise e)
  | k + 1 =>
    tryE (executeNode env sub gas eng node input)
      (fun _ => do
        awaitPoint
        attemptLoop env sub gas eng node input onError fallbackValue k)

/-- Execute a node with retry and error policy
(`WorkflowEngine._execute_with_retry`); a negative `retryCount` makes the
attempt loop run zero times, whereupon Python re-raises `None`. -/
def executeWithRetry (env : Env) (sub : SubRunner) (gas : Nat) (eng : Engine)
    (node : WorkflowNode) (input : String) : M String := do
  let retryCount ← ofExcept (dOr (dgetD node.data "retryCount" (.vint 0)) (.vint 0)).pyInt
  let _retryDelay ← ofExcept (dOr (dgetD node.data "retryDelay" (.vint 2)) (.vint 2)).pyInt
  let onError := dvalTag (dOr (dgetD node.data "onError" (.vstr "stop")) (.vstr "stop"))
  let fallbackValue := (dOr (dgetD node.data "fallbackValue" (.vstr "")) (.vstr "")).pyStr
  if retryCount < 0 then
    if onError = "skip" then M.pure "[skipped: error after retries]"
    else if onError = "fallback" then M.pure fallbackValue
    else M.raise "TypeError: exceptions must derive from BaseException"
  else
    attemptLoop env sub gas eng node input onError fallbackValue retryCount.toNat

/-- Store a completed node's result in the variable store when
`data.setVariable` names one (scheduler bookkeeping; a non-string name
would be written under a key the `{var:...}` substitution can never
read, so it is invisible here). -/
def applySetVariable (eng : Engine) (nid result : String) : M Unit := do
  match aget eng.nodesMap nid with
  | none => M.raise ("KeyError: " ++ nid)
  | some node =>
    match dgetD node.data "setVariable" (.vstr "") with
    | .vstr vn =>
      if vn ≠ "" then modifyEst (fun s => { s with vars := aset s.vars vn result })
      else M.pure ()
    | _ => M.pure ()

/-- Skip/block filter of one level (`_run_inner`, first loop): drop nodes
owned by a loop driver; a node all of whose incoming edges are blocked is
marked done with empty result and its out-edges are blocked; the rest are
the level's active nodes, in level order. -/
def filterPhase (env : Env) (eng : Engine) : List String → M (List String)
  | [] => M.pure []
  | nid :: rest => do
    let s ← getEst
    if nid ∈ s.skipNodes then filterPhase env eng rest
    else
      let incoming := incomingOf eng nid
      if (¬ incoming.isEmpty) ∧ incoming.all (fun e => e.id ∈ s.blocked) then do
        modifyEst (fun s =>
          { s with results := aset s.results nid ""
                   stResults := aset s.stResults nid "[skipped]"
                   statuses := aset s.statuses nid .done
                   blocked := (outgoingOf eng nid).foldl (fun acc e => addBlocked acc e.id)
                     s.blocked })
        emit env eng.wid false
        filterPhase env eng rest
      else do
        let acts ← filterPhase env eng rest
        M.pure (nid :: acts)

/-- One task of the parallel branch (`_run_one` inside `_run_inner`):
catches its own exception and returns it as a value; tasks of one
`asyncio.gather` interleave cooperatively, modelled in start order. -/
def runTasks (env : Env) (sub : SubRunner) (gas : Nat) (eng : Engine) (input : String) :
    List String → M (List (String × Sum String String))
  | [] => M.pure []
  | nid :: rest => do
    let o ← tryE (do
        let node ← (match aget eng.nodesMap nid with
          | some n => M.pure n
          | none => M.raise ("KeyError: " ++ nid))
        let r ← executeWithRetry env sub gas eng node input
        M.pure (Sum.inr r))
      (fun e => M.pure (Sum.inl e))
    let os ← runTasks env sub gas eng input rest
    M.pure ((nid, o) :: os)

/-- Post-join bookkeeping of the parallel branch (`_run_inner`,
`for nid, result in outcomes`): statuses, results and variable writes are
applied only after every task of the level has finished. -/
def applyOutcomes (eng : Engine) : List (String × Sum String String) → M Bool
  | [] => M.pure false
  | (nid, o) :: rest => do
    (match o with
     | .inl e => modifyEst (fun s =>
        { s with statuses := aset s.statuses nid .error
                 errMsg := some ("Node " ++ nid ++ ": " ++ e) })
     | .inr r => do
        modifyEst (fun s =>
          { s with results := aset s.results nid r
                   stResults := aset s.stResults nid r
                   statuses := aset s.statuses nid .done })
        applySetVariable eng nid r)
    let restErr ← applyOutcomes eng rest
    M.pure ((match o with | .inl _ => true | .inr _ => false) || restErr)

/-- Process one topological level (`_run_inner`, per-level body): filter,
mark actives running, emit, sleep, then execute inline (one active) or
gathered (several); returns `true` when the run must end early with an
error status. -/
def processOneLevel (env : Env) (sub : SubRunner) (gas : Nat) (eng : Engine)
    (input : String) (lvl : List String) : M Bool := do
  let acts ← filterPhase env eng lvl
  if acts.isEmpty then M.pure false
  else do
    modifyEst (fun s =>
      { s with statuses := acts.foldl (fun m nid => aset m nid .running) s.statuses })
    emit env eng.wid false
    awaitPoint
    match acts with
    | [nid] =>
      tryE (do
          let node ← (match aget eng.nodesMap nid with
            | some n => M.pure n
            | none => M.raise ("KeyError: " ++ nid))
          let result ← executeWithRetry env sub gas eng node input
          modifyEst (fun s =>
            { s with results := aset s.results nid result
                     stResults := aset s.stResults nid result
                     statuses := aset s.statuses nid .done })
          applySetVariable eng nid result
          emit env eng.wid false
          M.pure false)
        (fun e => do
          modifyEst (fun s =>
            { s with statuses := aset s.statuses nid .error
                     errMsg := some ("Node " ++ nid ++ ": " ++ e)
                     pstatus := "error" })
          emit env eng.wid false
          M.pure true)
    | _ => do
      let outcomes ← runTasks env sub gas eng input acts
      let hasError ← applyOutcomes eng outcomes
      emit env eng.wid false
      if hasError then do
        modifyEst (fun s => { s with pstatus := "error" })
        emit env eng.wid false
        M.pure true
      else M.pure false

/-- Walk the topological levels in order (`_run_inner`, outer loop). -/
def processLevels (env : Env) (sub : SubRunner) (gas : Nat) (eng : Engine)
    (input : String) : List (List String) → M Bool
  | [] => M.pure false
  | lvl :: rest => do
    let early ← processOneLevel env sub gas eng input lvl
    if early then M.pure true
    else processLevels env sub gas eng input rest

/-- Inner run logic (`WorkflowEngine._run_inner`): status `running`,
emit, walk levels; on normal completion set `completed` and emit the full
results; every return path returns the current results map. -/
def runInnerF (env : Env) (sub : SubRunner) (gas : Nat) (eng : Engine) (input : String) :
    M (List (String × String)) := do
  modifyEst (fun s => { s with pstatus := "running" })
  emit env eng.wid false
  let early ← processLevels env sub gas eng input eng.levels
  if early then do
    let s ← getEst
    M.pure s.results
  else do
    modifyEst (fun s => { s with pstatus := "completed" })
    emit env eng.wid true
    let s ← getEst
    M.pure s.results

/-- The recursion knot: one engine instantiation plus `_run_inner`, with
fuel bounding the nesting of sub-engines (meta-agents and graph-loop
bodies) and the chunker's split loop. -/
def engineStep (env : Env) : Nat → SubRunner
  | 0 => fun _ _ _ g => (Res.fuelOut, g, initEst (WorkflowDefinition.mk [] []))
  | fuel + 1 => fun defn wid input g =>
    runInnerF env (engineStep env fuel) fuel (mkEngine defn wid) input g (initEst defn)

/-- Entry point `WorkflowEngine(definition, workflow_id, broadcast)` plus
`run(initial_input, timeout)`: with a positive timeout the inner run is
raced against cancellation (`asyncio.wait_for`); on `TimeoutError` the
status becomes `error`, one status event is emitted and the partial
results map is returned.  `cancelAt` chooses the suspension point at
which a timeout (if armed) fires; `none` means it never does. -/
def runWorkflow (env : Env) (defn : WorkflowDefinition) (wid input : String)
    (timeout : Int) (cancelAt : Option Nat) (fuel : Nat) :
    Res (List (String × String)) × Glob × Est :=
  let g0 : Glob := { events := [], agentCalls := 0, toolCalls := 0, timeIdx := 0,
                     cancelIn := if timeout > 0 then cancelAt else none }
  match engineStep env fuel defn wid input g0 with
  | (.cancel, g, s) =>
    if timeout > 0 then
      let s1 := { s with
        pstatus := "error"
        errMsg := some ("Workflow timed out after " ++ toString timeout ++ "s") }
      let g1 : Glob := { g with cancelIn := none }
      match emit env wid false g1 s1 with
      | (.ok _, g', s') => (.ok s'.results, g', s')
      | (.exn e, g', s') => (.exn e, g', s')
      | (.cancel, g', s') => (.cancel, g', s')
      | (.fuelOut, g', s') => (.fuelOut, g', s')
    else (.cancel, g, s)
  | r => r

/-- First component of a run outcome. -/
def resOf {α : Type} (t : Res α × Glob × Est) : Res α := t.1

/-- Global state of a run outcome. -/
def globOf {α : Type} (t : Res α × Glob × Est) : Glob := t.2.1

/-- Engine state of a run outcome. -/
def estOf {α : Type} (t : Res α × Glob × Est) : Est := t.2.2

/-! ### Concrete environments and workflows used by witnesses and
counterexamples -/

/-- An environment whose broadcast callback always succeeds and whose
agent adapter echoes the user content as a single chunk. -/
def envEcho : Env :=
  { bc := some (fun _ => true)
    agentChat := fun _ req => .chunks [req.userContent]
    toolKnown := fun _ => false
    toolExec := fun _ _ _ _ => .ok ""
    resolveFile := fun _ => none
    reSearch := fun _ _ => false
    reSearchCI := fun _ _ => false
    parseJsonDict := fun _ => none
    clock := fun i => (i : Int) * 1000 }

/-- The echo environment with no broadcast callback configured. -/
def envSilent : Env := { envEcho with bc := none }

/-- The echo environment whose broadcast callback always raises. -/
def envBadBc : Env := { envEcho with bc := some (fun _ => false) }

/-- The echo environment whose agent adapter always raises. -/
def envRaisingAgent : Env := { envEcho with agentChat := fun _ _ => .raise "boom" }

/-- Two-node chain: an agent feeding an output node. -/
def wfChain : WorkflowDefinition :=
  .mk [.mk "A" .agent [], .mk "B" .output []]
     [{ id := "e1", source := "A", target := "B" }]

/-- Fresh global state. -/
def glob0 : Glob :=
  { events := [], agentCalls := 0, toolCalls := 0, timeIdx := 0, cancelIn := none }

/-- Fresh engine state over the empty definition. -/
def est0 : Est := initEst (.mk [] [])

/-! ### C8 -/

/-- C8: the spec's closed set of node type kinds has twelve elements, but
the data model's `NodeType` enum accepts only nine of them: the strings
`switch`, `validator` and `delay` are rejected by validation even though
the engine implements handlers (and the builder registry offers palette
entries) for all three, so the claim's "every one of these twelve strings
is a valid node type" fails on the code. -/
theorem c8_node_type_enum_gap :
    NodeType.ofString "switch" = none ∧
    NodeType.ofString "validator" = none ∧
    NodeType.ofString "delay" = none ∧
    (["input", "output", "agent", "tool", "aggregator", "condition", "loop",
      "meta_agent", "chunker"].all (fun ty => (NodeType.ofString ty).isSome)) = true := by
  decide

/-! ### C2 counterexample -/

/-- C2: counterexample — when node `A` fails fatally (its agent adapter
raises and `onError` defaults to `stop`), `run()` returns with pipeline
status `error` while downstream node `B` is still `waiting`, not a
terminal `done`/`error`. -/
theorem c2_counterexample :
    resOf (runWorkflow envRaisingAgent wfChain "w" "x" 0 none 10) = .ok [] ∧
    aget (estOf (runWorkflow envRaisingAgent wfChain "w" "x" 0 none 10)).statuses "B" =
      some .waiting ∧
    (estOf (runWorkflow envRaisingAgent wfChain "w" "x" 0 none 10)).pstatus = "error" := by
  decide

/-! ### C3 -/

/-- C3: counterexample — a broadcast callback that raises terminates the
run: `run()` propagates the broadcast exception from the very first
status emit (nothing was delivered, no node ran). -/
theorem c3_counterexample :
    resOf (runWorkflow envBadBc wfChain "w" "x" 0 none 10) = .exn "broadcast failed" ∧
    (globOf (runWorkflow envBadBc wfChain "w" "x" 0 none 10)).events = [] := by
  decide

/-- C3 (amended): `_emit` and `_stream_broadcast` contain no exception
handling, so an exception from the broadcast callback propagates: for
every workflow and input, a run with an always-raising callback and no
timeout raises out of `run()` at the first status emit. -/
theorem c3_broadcast_exception_propagates (defn : WorkflowDefinition) (input : String)
    (fuel : Nat) :
    resOf (runWorkflow envBadBc defn "w" input 0 none (fuel + 1)) = .exn "broadcast failed" := by
  rfl

/-! ### C7 counterexample -/

/-- Outgoing edges of a switch scenario: a matching labelled case, an
unlabelled edge, a `default` edge, and a second edge with the winning
label. -/
def switchEdges : List WorkflowEdge :=
  [{ id := "e1", source := "S", target := "T1", label := "yes" },
   { id := "e2", source := "S", target := "T2", label := "" },
   { id := "e3", source := "S", target := "T3", label := "default" },
   { id := "e4", source := "S", target := "T4", label := "yes" }]

/-- A hand-assembled engine whose only feature is the switch node's
outgoing edges (the switch handler reads nothing else). -/
def switchEng : Engine :=
  { defn := .mk [] [], wid := "w", nodesMap := [], backEdges := [],
    dagEdges := switchEdges, incoming := [], outgoing := [("S", switchEdges)],
    levels := [] }

/-- A keyword switch node. -/
def switchNode : WorkflowNode := .mk "S" .tool [("switchType", .vstr "keyword")]

/-- C7: counterexample — on input `"yes"` the case `yes` wins, and then
(i) the unlabelled edge `e2` is left unblocked while the `default` edge
`e3` is blocked, so empty labels are not treated like `default` labels;
and (ii) the second edge `e4` carrying the winning non-default label is
also left unblocked, so not every *other* edge with a non-empty
non-default label is blocked. -/
theorem c7_counterexample :
    "e3" ∈ (estOf (runSwitchNode envSilent switchEng switchNode "yes" glob0 est0)).blocked ∧
    "e2" ∉ (estOf (runSwitchNode envSilent switchEng switchNode "yes" glob0 est0)).blocked ∧
    "e4" ∉ (estOf (runSwitchNode envSilent switchEng switchNode "yes" glob0 est0)).blocked ∧
    resOf (runSwitchNode envSilent switchEng switchNode "yes" glob0 est0) = .ok "yes" := by
  decide

/-! ### C9 counterexample -/

/-- With `chunk_size = overlap` the split loop never advances `start`:
`start` stays `0` forever on the two-character input. -/
lemma splitTextGo_ab_stuck : ∀ fuel acc, splitTextGo "ab".toList 1 1 fuel 0 acc = none := by
  intro fuel
  induction fuel with
  | zero => intro acc; rfl
  | succ n ih =>
    intro acc
    rw [splitTextGo]
    simp only [show ((0 : Int) + 1 - 1) = 0 by decide]
    split
    · exact ih _
    · rename_i h
      exact absurd (by decide) h

/-- C9: counterexample — the text splitter does not terminate for every
configured `chunkSize` and `overlap`: with `chunkSize = 1 = overlap` on
the input `"ab"` no amount of fuel makes the split loop return. -/
theorem c9_counterexample : ¬ ∃ gas chunks, splitText gas "ab" 1 1 = some chunks := by
  rintro ⟨gas, chunks, h⟩
  rw [splitText] at h
  simp only [show ¬ (("ab".toList.length : Int) ≤ 1) by decide, if_false] at h
  rw [splitTextGo_ab_stuck] at h
  exact Option.noConfusion h

/-! ### Association-list lemmas -/

/-- Lookup after a write. -/
lemma aget_aset {α : Type} (m : List (String × α)) (k : String) (v : α) (k' : String) :
    aget (aset m k v) k' = if k' = k then some v else aget m k' := by
  induction m with
  | nil => simp [aset, aget]
  | cons p rest ih =>
    obtain ⟨pk, pv⟩ := p
    by_cases hk : k = pk
    · subst hk
      simp [aset, aget]
      by_cases h' : k' = k <;> simp [h']
    · simp only [aset, if_neg hk]
      by_cases h' : k' = pk
      · subst h'
        simp [aget, Ne.symm hk]
      · simp [aget, h', ih]

/-- Lookup across a concatenation. -/
lemma aget_append {α : Type} (m1 m2 : List (String × α)) (k : String) :
    aget (m1 ++ m2) k = match aget m1 k with
      | some v => some v
      | none => aget m2 k := by
  induction m1 with
  | nil => simp [aget]
  | cons p rest ih =>
    by_cases h : k = p.1
    · simp [aget, h]
    · simp [aget, h, ih]

/-- Lookup after `setdefault`-append. -/
lemma aget_adjAppend {α : Type} (m : List (String × List α)) (k : String) (v : α)
    (k' : String) :
    aget (adjAppend m k v) k' =
      if k' = k then some (agetD m k [] ++ [v]) else aget m k' := by
  unfold adjAppend
  cases h : aget m k with
  | some l =>
    rw [aget_aset]
    by_cases h' : k' = k <;> simp [h', agetD, h]
  | none =>
    rw [aget_append]
    by_cases h' : k' = k
    · subst h'
      simp [h, agetD, aget]
    · cases h2 : aget m k' <;> simp [h2, aget, h']

/-- Folding edges into a keyed adjacency map collects, per key, exactly
the edges with that key, in declaration order. -/
lemma edgeMapFold_lookup (key : WorkflowEdge → String) :
    ∀ (es : List WorkflowEdge) (m : List (String × List WorkflowEdge)) (k : String),
      agetD (es.foldl (fun m e => adjAppend m (key e) e) m) k [] =
        agetD m k [] ++ es.filter (fun e => key e = k) := by
  intro es
  induction es with
  | nil => intro m k; simp [List.filter]
  | cons e rest ih =>
    intro m k
    rw [List.foldl_cons, ih]
    rw [agetD, aget_adjAppend]
    by_cases h : k = key e
    · rw [if_pos h]
      subst h
      simp [List.filter_cons, agetD]
    · rw [if_neg h]
      have h2 : ¬ (key e = k) := fun hk => h hk.symm
      simp [List.filter_cons, h2, agetD]

/-- The engine's incoming-edge map holds, for every node, exactly the DAG
edges targeting it, in edge-declaration order. -/
lemma incomingOf_mkEngine (defn : WorkflowDefinition) (wid : String) (nid : String) :
    incomingOf (mkEngine defn wid) nid =
      (mkEngine defn wid).dagEdges.filter (fun e => e.target = nid) := by
  show agetD ((mkEngine defn wid).incoming) nid [] = _
  have h : (mkEngine defn wid).incoming =
      (mkEngine defn wid).dagEdges.foldl (fun m e => adjAppend m e.target e) [] := rfl
  rw [h, edgeMapFold_lookup (fun e => e.target) _ [] nid]
  rfl

/-! ### C4 -/

/-- C4: the input collected for a node equals the run's initial input
when the node has no incoming DAG edges or all of them are blocked, and
otherwise the `results` of the sources of its unblocked incoming edges
(in edge-declaration order) joined by the literal separator; stated
against the edge list of the definition rather than the engine's lookup
map, so the edge-order guarantee is part of the statement. -/
theorem c4_collect_input_spec (defn : WorkflowDefinition) (wid : String) (s : Est)
    (nid : String) (init : String) :
    collectInput (mkEngine defn wid) s nid init =
      (let unblocked := ((mkEngine defn wid).dagEdges.filter (fun e => e.target = nid)).filter
        (fun e => e.id ∉ s.blocked)
       if unblocked.isEmpty then init
       else String.intercalate "\n\n---\n\n"
         (unblocked.map (fun e => agetD s.results e.source ""))) := by
  unfold collectInput
  rw [incomingOf_mkEngine]
  set inc := (mkEngine defn wid).dagEdges.filter (fun e => e.target = nid) with hinc
  by_cases hempty : inc.isEmpty
  · have : inc = [] := List.isEmpty_iff.mp hempty
    simp [this, List.filter]
  · simp only [hempty, if_false]
    set ub := inc.filter (fun e => e.id ∉ s.blocked) with hub
    have hmap : (ub.map (fun e => e.source)).isEmpty = ub.isEmpty := by
      cases ub <;> simp
    by_cases h2 : ub.isEmpty
    · simp [h2, hmap]
    · simp only [h2, hmap, if_false]
      rw [List.map_map]
      rfl

/-! ### C7 amended -/

/-- Condition under which the switch blocking loop blocks an edge, given
the winning label: a non-empty label that is neither the winner nor
`default`, or a `default` label when a case won.  An empty label never
satisfies it. -/
def switchBlocks (matchedLabel : String) (e : WorkflowEdge) : Prop :=
  let l := pyLower (pyStrip e.label)
  (l ≠ "" ∧ l ≠ matchedLabel ∧ l ≠ "default") ∨ (l = "default" ∧ matchedLabel ≠ "default")

instance (matchedLabel : String) (e : WorkflowEdge) :
    Decidable (switchBlocks matchedLabel e) := by
  unfold switchBlocks; infer_instance

/-- The scan of the switch handler returns the label of the first edge
(in declaration order) whose non-empty, non-`default` label matches, and
`"default"` when none does. -/
lemma switchMatchLabel_eq_find (env : Env) (ty input : String) :
    ∀ edges : List WorkflowEdge,
      switchMatchLabel env ty input edges =
        match edges.find? (fun e =>
          let l := pyLower (pyStrip e.label)
          l ≠ "" ∧ l ≠ "default" ∧ switchCase env ty input l) with
        | some e => pyLower (pyStrip e.label)
        | none => "default" := by
  intro edges
  induction edges with
  | nil => rfl
  | cons e rest ih =>
    simp only [switchMatchLabel, List.find?_cons]
    by_cases h1 : pyLower (pyStrip e.label) = ""
    · simp only [h1, true_or, if_true]
      rw [ih]
      simp [h1]
    · by_cases h2 : pyLower (pyStrip e.label) = "default"
      · simp only [h2, or_true, if_true]
        rw [ih]
        simp [h2]
      · have h0 : ¬ (pyLower (pyStrip e.label) = "" ∨ pyLower (pyStrip e.label) = "default") := by
          tauto
        simp only [h0, if_false]
        by_cases hm : switchCase env ty input (pyLower (pyStrip e.label))
        · simp [hm, h1, h2]
        · simp only [hm, if_false]
          rw [ih]
          simp [hm, h1, h2]

/-- Membership after a `set.add`. -/
lemma addBlocked_mem (l : List String) (eid x : String) :
    x ∈ addBlocked l eid ↔ x ∈ l ∨ x = eid := by
  unfold addBlocked
  by_cases h : eid ∈ l
  · simp only [h, if_true]
    constructor
    · exact Or.inl
    · rintro (hx | rfl)
      · exact hx
      · exact h
  · simp [h]

/-- One step of the switch blocking loop blocks exactly the ids whose
normalised label satisfies the blocking condition. -/
lemma switchBlockStep_mem (matched : String) (acc : List String) (l eid x : String) :
    (x ∈ (if l ≠ "" ∧ l ≠ matched ∧ l ≠ "default" then addBlocked acc eid
      else if l = "" ∧ matched ≠ "default" then acc
      else if l = "default" ∧ matched ≠ "default" then addBlocked acc eid
      else acc)) ↔ x ∈ acc ∨ (eid = x ∧
        ((l ≠ "" ∧ l ≠ matched ∧ l ≠ "default") ∨ (l = "default" ∧ matched ≠ "default"))) := by
  by_cases hb : l ≠ "" ∧ l ≠ matched ∧ l ≠ "default"
  · rw [if_pos hb, addBlocked_mem]
    constructor
    · rintro (hx | rfl)
      · exact Or.inl hx
      · exact Or.inr ⟨rfl, Or.inl hb⟩
    · rintro (hx | ⟨rfl, _⟩)
      · exact Or.inl hx
      · exact Or.inr rfl
  · rw [if_neg hb]
    by_cases h2 : l = "" ∧ matched ≠ "default"
    · rw [if_pos h2]
      have hne : l ≠ "default" := by rw [h2.1]; decide
      constructor
      · exact Or.inl
      · rintro (hx | ⟨rfl, (hfirst | hsecond)⟩)
        · exact hx
        · exact absurd hfirst.1 (by simp [h2.1])
        · exact absurd hsecond.1 hne
    · rw [if_neg h2]
      by_cases h3 : l = "default" ∧ matched ≠ "default"
      · rw [if_pos h3, addBlocked_mem]
        constructor
        · rintro (hx | rfl)
          · exact Or.inl hx
          · exact Or.inr ⟨rfl, Or.inr h3⟩
        · rintro (hx | ⟨rfl, _⟩)
          · exact Or.inl hx
          · exact Or.inr rfl
      · rw [if_neg h3]
        constructor
        · exact Or.inl
        · rintro (hx | ⟨rfl, (hfirst | hsecond)⟩)
          · exact hx
          · exact absurd hfirst hb
          · exact absurd hsecond h3

/-- The switch blocking loop blocks exactly: what was already blocked,
plus the edges satisfying `switchBlocks` for the winning label. -/
lemma blockSwitchEdges_mem (matched : String) :
    ∀ (edges : List WorkflowEdge) (blocked : List String) (x : String),
      x ∈ blockSwitchEdges edges matched blocked ↔
        x ∈ blocked ∨ ∃ e ∈ edges, e.id = x ∧ switchBlocks matched e := by
  intro edges
  induction edges with
  | nil => intro blocked x; simp [blockSwitchEdges]
  | cons e rest ih =>
    intro blocked x
    have hstep : blockSwitchEdges (e :: rest) matched blocked =
        blockSwitchEdges rest matched
          (if pyLower (pyStrip e.label) ≠ "" ∧ pyLower (pyStrip e.label) ≠ matched ∧
              pyLower (pyStrip e.label) ≠ "default" then addBlocked blocked e.id
           else if pyLower (pyStrip e.label) = "" ∧ matched ≠ "default" then blocked
           else if pyLower (pyStrip e.label) = "default" ∧ matched ≠ "default" then
             addBlocked blocked e.id
           else blocked) := rfl
    rw [hstep, ih, switchBlockStep_mem]
    have hsb : switchBlocks matched e ↔
        ((pyLower (pyStrip e.label) ≠ "" ∧ pyLower (pyStrip e.label) ≠ matched ∧
          pyLower (pyStrip e.label) ≠ "default") ∨
         (pyLower (pyStrip e.label) = "default" ∧ matched ≠ "default")) := Iff.rfl
    constructor
    · rintro ((hx | he) | ⟨e', he', hx⟩)
      · exact Or.inl hx
      · exact Or.inr ⟨e, List.mem_cons_self .., he.1, hsb.mpr he.2⟩
      · exact Or.inr ⟨e', List.mem_cons_of_mem _ he', hx⟩
    · rintro (hx | ⟨e', he', hx⟩)
      · exact Or.inl (Or.inl hx)
      · rcases List.mem_cons.mp he' with rfl | hmem
        · exact Or.inl (Or.inr ⟨hx.1, hsb.mp hx.2⟩)
        · exact Or.inr ⟨e', hmem, hx⟩

/-- C7 (amended): the switch handler scans outgoing edges in declaration
order and the first edge whose non-empty, non-`default` label matches the
input under `switchType` wins (`"default"` when none does); afterwards an
edge is newly blocked iff its normalised label is non-empty, differs from
the winning label and is not `default`, or is `default` while a case won.
In particular empty-label edges are never blocked (they are not treated
like `default` edges), and a further edge carrying the winning label is
not blocked either.  The handler passes the input through and changes
only the blocked set. -/
theorem c7_switch_first_match_and_blocking (env : Env) (eng : Engine)
    (node : WorkflowNode) (inputText : String) (g : Glob) (s : Est) :
    (runSwitchNode env eng node inputText g s =
      (.ok inputText, g,
        { s with blocked := blockSwitchEdges (outgoingOf eng node.id) (switchMatchLabel env (dvalTag (dget node.data "switchType" "switch_type" (.vstr "keyword"))) inputText (outgoingOf eng node.id)) s.blocked })) ∧
    (∀ (ty : String) (edges : List WorkflowEdge),
      switchMatchLabel env ty inputText edges =
        match edges.find? (fun e =>
          let l := pyLower (pyStrip e.label)
          l ≠ "" ∧ l ≠ "default" ∧ switchCase env ty inputText l) with
        | some e => pyLower (pyStrip e.label)
        | none => "default") ∧
    (∀ (edges : List WorkflowEdge) (matched : String) (blocked : List String) (x : String),
      x ∈ blockSwitchEdges edges matched blocked ↔
        x ∈ blocked ∨ ∃ e ∈ edges, e.id = x ∧ switchBlocks matched e) := by
  refine ⟨rfl, fun ty edges => switchMatchLabel_eq_find env ty inputText edges,
    fun edges matched blocked x => blockSwitchEdges_mem matched edges blocked x⟩

/-! ### C9 amended -/

/-- A window sliced at a nonnegative offset has at most `chunkSize`
characters. -/
lemma pySliceChars_window_len (cs : List Char) (a csz : Int) (h0 : 0 ≤ a) (h1 : 0 ≤ csz) :
    ((pySliceChars cs a (a + csz)).toList.length : Int) ≤ csz := by
  have hb : 0 ≤ a + csz := by omega
  unfold pySliceChars
  simp only [not_lt.mpr h0, not_lt.mpr hb, if_false]
  have : (String.mk ((cs.take (min (a + csz).toNat cs.length)).drop (min a.toNat cs.length))).toList
      = (cs.take (min (a + csz).toNat cs.length)).drop (min a.toNat cs.length) := rfl
  rw [this]
  rw [List.length_drop, List.length_take]
  omega

/-- Shape of the split loop for an advancing window (`overlap <
chunkSize`): within sufficient fuel it terminates and produces the
windows at offsets `start + i * (chunkSize - overlap)`. -/
lemma splitTextGo_windows (cs : List Char) (csz ov : Int) (h2 : ov < csz) :
    ∀ (n : Nat) (fuel : Nat) (start : Int) (acc : List String),
      ((cs.length : Int) - start).toNat ≤ n → n < fuel →
      ∃ wnds, splitTextGo cs csz ov fuel start acc = some (acc ++ wnds) ∧
        (start < (cs.length : Int) → wnds ≠ []) ∧
        (∀ i : Nat, i < wnds.length →
          wnds.getD i "" =
            pySliceChars cs (start + i * (csz - ov)) (start + i * (csz - ov) + csz)) := by
  intro n
  induction n with
  | zero =>
    intro fuel start acc hn hf
    obtain ⟨f, rfl⟩ : ∃ f, fuel = f + 1 := ⟨fuel - 1, by omega⟩
    have hge : ¬ (start < (cs.length : Int)) := by omega
    refine ⟨[], ?_, fun h => absurd h hge, by simp⟩
    rw [splitTextGo, if_neg hge, List.append_nil]
  | succ m ih =>
    intro fuel start acc hn hf
    obtain ⟨f, rfl⟩ : ∃ f, fuel = f + 1 := ⟨fuel - 1, by omega⟩
    by_cases hlt : start < (cs.length : Int)
    · have hstep : (1 : Int) ≤ csz - ov := by omega
      have hn' : ((cs.length : Int) - (start + csz - ov)).toNat ≤ m := by omega
      have hf' : m < f := by omega
      obtain ⟨wnds', heq, _, hidx⟩ := ih f (start + csz - ov) (acc ++ [pySliceChars cs start (start + csz)]) hn' hf'
      refine ⟨pySliceChars cs start (start + csz) :: wnds', ?_, fun _ => by simp, ?_⟩
      · rw [splitTextGo, if_pos hlt, heq]
        simp
      · intro i hi
        match i with
        | 0 =>
          simp only [List.getD_cons_zero]
          congr 1 <;> push_cast <;> ring
        | Nat.succ j =>
          simp only [List.getD_cons_succ]
          have hj : j < wnds'.length := by simpa using hi
          rw [hidx j hj]
          congr 1 <;> push_cast <;> ring
    · refine ⟨[], ?_, fun h => absurd h hlt, by simp⟩
      rw [splitTextGo, if_neg hlt, List.append_nil]

/-- C9 (amended): the text splitter terminates whenever `overlap <
chunkSize` (the counterexample shows it loops forever otherwise), and
then: a text of at most `chunkSize` characters yields exactly one chunk
equal to the whole input; a longer text yields the character windows
starting at offset 0 and advancing by `chunkSize − overlap`, each of at
most `chunkSize` characters (the length bound stated for the configured
case `0 ≤ overlap`). -/
theorem c9_split_text_windows (text : String) (chunkSize overlap : Int)
    (h1 : 0 ≤ overlap) (h2 : overlap < chunkSize) :
    ∃ chunks, splitText (text.toList.length + 1) text chunkSize overlap = some chunks ∧
      chunks ≠ [] ∧
      (∀ c ∈ chunks, ((c.toList.length : Int) ≤ chunkSize)) ∧
      (((text.toList.length : Int) ≤ chunkSize → chunks = [text]) ∧
       (¬ ((text.toList.length : Int) ≤ chunkSize) → ∀ i : Nat, i < chunks.length →
         chunks.getD i "" = pySliceChars text.toList ((i : Int) * (chunkSize - overlap))
           ((i : Int) * (chunkSize - overlap) + chunkSize))) := by
  by_cases hfit : (text.toList.length : Int) ≤ chunkSize
  · refine ⟨[text], ?_, by simp, ?_, fun _ => rfl, fun h => absurd hfit h⟩
    · rw [splitText, if_pos hfit]
    · intro c hc
      rw [List.mem_singleton.mp hc]
      exact hfit
  · obtain ⟨wnds, heq, hne, hidx⟩ :=
      splitTextGo_windows text.toList chunkSize overlap h2 text.toList.length
        (text.toList.length + 1) 0 [] (by omega) (by omega)
    have hlt : (0 : Int) < (text.toList.length : Int) := by omega
    refine ⟨wnds, ?_, hne hlt, ?_, fun h => absurd h hfit, fun _ i hi => ?_⟩
    · rw [splitText, if_neg hfit]
      simpa using heq
    · intro c hc
      obtain ⟨i, hi, hcEq⟩ := List.getElem_of_mem hc
      have := hidx i hi
      rw [List.getD_eq_getElem?_getD, List.getElem?_eq_getElem hi] at this
      simp only [Option.getD_some] at this
      rw [hcEq] at this
      rw [this]
      have hoff : 0 ≤ (i : Int) * (chunkSize - overlap) := by
        have : (0 : Int) ≤ (i : Int) := Int.natCast_nonneg i
        nlinarith
      have := pySliceChars_window_len text.toList ((i : Int) * (chunkSize - overlap)) chunkSize hoff (by omega)
      simpa using this
    · have := hidx i hi
      simpa using this

/-- C9 witness: with `chunkSize = 3`, `overlap = 1` on a six-character
input, the splitter terminates with the stated window shape. -/
theorem c9_split_text_windows_witness :
    (0 : Int) ≤ 1 ∧ (1 : Int) < 3 ∧
    (∃ chunks, splitText ("abcdef".toList.length + 1) "abcdef" 3 1 = some chunks ∧
      chunks ≠ [] ∧
      (∀ c ∈ chunks, ((c.toList.length : Int) ≤ 3)) ∧
      (((("abcdef".toList.length : Int) ≤ 3) → chunks = ["abcdef"]) ∧
       (¬ (("abcdef".toList.length : Int) ≤ 3) → ∀ i : Nat, i < chunks.length →
         chunks.getD i "" = pySliceChars "abcdef".toList ((i : Int) * (3 - 1))
           ((i : Int) * (3 - 1) + 3)))) :=
  ⟨by decide, by decide, c9_split_text_windows "abcdef" 3 1 (by decide) (by decide)⟩

/-! ### C6 -/

/-- Injecting a depth marks every nested meta-agent node of the
sub-definition with exactly that `_currentDepth`. -/
lemma injectDepth_meta_nodes (d : WorkflowDefinition) (k : Int) :
    ∀ n ∈ (injectDepth d k).nodes, n.type = .meta_agent →
      aget n.data "_currentDepth" = some (.vint k) := by
  intro n hn ht
  unfold injectDepth at hn
  simp only [WorkflowDefinition.nodes] at hn
  obtain ⟨n0, hn0, hEq⟩ := List.mem_map.mp hn
  by_cases h : n0.type = .meta_agent
  · rw [if_pos h] at hEq
    subst hEq
    show aget (aset n0.data "_currentDepth" (.vint k)) "_currentDepth" = some (.vint k)
    rw [aget_aset]
    simp
  · rw [if_neg h] at hEq
    subst hEq
    exact absurd ht h

/-- C6: with a configured sub-workflow (a parsed definition under
`workflowDefinition`) and integer depth settings, the meta-agent handler
refuses with exactly `"[Meta-Agent: max recursion depth (N) reached]"`
(N = `maxDepth`) and no state change when `_currentDepth ≥ maxDepth`;
otherwise it runs a sub-engine on the definition obtained by setting
`_currentDepth := currentDepth + 1` on every nested meta-agent node, so
every nested meta-agent sees a depth one larger than its parent's. -/
theorem c6_meta_agent_depth_cap (env : Env) (sub : SubRunner) (eng : Engine)
    (node : WorkflowNode) (inputText : String) (d : WorkflowDefinition)
    (maxDepth currentDepth : Int)
    (hw : aget node.data "workflowDefinition" = some (.vdef d))
    (hm : (dgetD node.data "maxDepth" (.vint 3)).pyInt = .ok maxDepth)
    (hc : (dgetD node.data "_currentDepth" (.vint 0)).pyInt = .ok currentDepth) :
    (currentDepth ≥ maxDepth → ∀ g s,
      runMetaAgentNode env sub eng node inputText g s =
        (.ok ("[Meta-Agent: max recursion depth (" ++ toString maxDepth ++ ") reached]"),
          g, s)) ∧
    (currentDepth < maxDepth →
      (∀ n ∈ (injectDepth d (currentDepth + 1)).nodes, n.type = .meta_agent →
        aget n.data "_currentDepth" = some (.vint (currentDepth + 1))) ∧
      (∀ g s, runMetaAgentNode env sub eng node inputText g s =
        (M.bind (spawnSub sub (injectDepth d (currentDepth + 1))
            (eng.wid ++ "_sub_" ++ node.id) inputText)
          (fun results =>
            M.pure (metaCollect (injectDepth d (currentDepth + 1)) results))) g s)) := by
  have hun : ∀ g s, runMetaAgentNode env sub eng node inputText g s =
      (if currentDepth ≥ maxDepth then
        M.pure ("[Meta-Agent: max recursion depth (" ++ toString maxDepth ++ ") reached]")
      else
        M.bind (spawnSub sub (injectDepth d (currentDepth + 1))
            (eng.wid ++ "_sub_" ++ node.id) inputText)
          (fun results =>
            M.pure (metaCollect (injectDepth d (currentDepth + 1)) results))) g s := by
    intro g s
    unfold runMetaAgentNode
    rw [hw]
    simp only [DVal.truthy, Bool.not_true, if_true]
    show (M.bind (ofExcept (dgetD node.data "maxDepth" (DVal.vint 3)).pyInt) _) g s = _
    rw [hm]
    show (M.bind (ofExcept (dgetD node.data "_currentDepth" (DVal.vint 0)).pyInt) _) g s = _
    rw [hc]
    rfl
  constructor
  · intro hge g s
    rw [hun g s, if_pos hge]
    rfl
  · intro hlt
    refine ⟨injectDepth_meta_nodes d (currentDepth + 1), fun g s => ?_⟩
    rw [hun g s, if_neg (by omega)]

/-- A meta-agent node already at its depth cap. -/
def metaCapNode : WorkflowNode :=
  .mk "M" .meta_agent
    [("workflowDefinition", .vdef (.mk [] [])), ("maxDepth", .vint 1),
     ("_currentDepth", .vint 1)]

/-- C6 witness: a meta-agent at `_currentDepth = maxDepth = 1` returns
exactly the refusal literal and leaves all state untouched. -/
theorem c6_meta_agent_depth_cap_witness :
    aget metaCapNode.data "workflowDefinition" = some (.vdef (.mk [] [])) ∧
    (dgetD metaCapNode.data "maxDepth" (.vint 3)).pyInt = .ok 1 ∧
    (dgetD metaCapNode.data "_currentDepth" (.vint 0)).pyInt = .ok 1 ∧
    runMetaAgentNode envSilent (engineStep envSilent 5) (mkEngine (.mk [] []) "w")
        metaCapNode "hi" glob0 est0 =
      (.ok ("[Meta-Agent: max recursion depth (" ++ toString (1 : Int) ++ ") reached]"),
        glob0, est0) :=
  ⟨rfl, rfl, rfl,
    (c6_meta_agent_depth_cap envSilent (engineStep envSilent 5) (mkEngine (.mk [] []) "w")
      metaCapNode "hi" (.mk [] []) 1 1 rfl rfl rfl).1
      (by decide) glob0 est0⟩

/-! ### Monad decomposition lemmas -/

/-- Desugar `>>=` to the explicit bind. -/
@[simp] lemma M_bind_def {α β : Type} (x : M α) (f : α → M β) :
    x >>= f = M.bind x f := rfl

/-- Desugar `pure` to the explicit unit. -/
@[simp] lemma M_pure_def {α : Type} (a : α) : (pure a : M α) = M.pure a := rfl

/-- A bind returns `ok` exactly when both stages do. -/
lemma M.bind_eq_ok {α β : Type} {x : M α} {f : α → M β} {g : Glob} {s : Est}
    {w : β} {g2 : Glob} {s2 : Est} :
    (M.bind x f) g s = (.ok w, g2, s2) ↔
      ∃ a g1 s1, x g s = (.ok a, g1, s1) ∧ f a g1 s1 = (.ok w, g2, s2) := by
  constructor
  · intro h
    unfold M.bind at h
    rcases hx : x g s with ⟨r, g1, s1⟩
    rw [hx] at h
    cases r with
    | ok a => exact ⟨a, g1, s1, rfl, h⟩
    | exn e => simp at h
    | cancel => simp at h
    | fuelOut => simp at h
  · rintro ⟨a, g1, s1, hx, hf⟩
    unfold M.bind
    rw [hx]
    exact hf

/-! ### C5 -/

/-- The round headers the graph-loop driver prepends to per-iteration
exit results, starting after a given round offset. -/
def roundAnnot (offset : Nat) : List String → List String
  | [] => []
  | r :: rest =>
    ("**--- Round " ++ toString (offset + 1) ++ " ---**\n\n" ++ r) :: roundAnnot (offset + 1) rest

/-- Writing the same value under every key of a list. -/
lemma aget_foldl_aset (v : NStatus) :
    ∀ (l : List String) (m : List (String × NStatus)) (b : String),
      aget (l.foldl (fun m x => aset m x v) m) b =
        if b ∈ l then some v else aget m b := by
  intro l
  induction l with
  | nil => intro m b; simp
  | cons x xs ih =>
    intro m b
    rw [List.foldl_cons, ih]
    by_cases hx : b ∈ xs
    · simp [hx, List.mem_cons]
    · rw [if_neg hx, aget_aset]
      by_cases hb : b = x
      · simp [hb]
      · simp [hb, hx]

/-- Iteration-level behaviour of the graph loop: from any starting round
the driver returns the accumulated transcript extended by one annotated
exit result per executed round, executes at most `remaining` further
rounds, continues a round only when the exit condition evaluated to
`false`, and stops before exhausting `remaining` only when it evaluated
to `true`. -/
lemma graphLoopIters_spec (env : Env) (sub : SubRunner) (eng : Engine) (nid : String)
    (subDef : WorkflowDefinition) (bodyIds : List String) (exitId : String) (maxI : Int)
    (ty : String) (ev : DVal) :
    ∀ (remaining iterIdx : Nat) (curInput : String) (transcript : List String)
      (g : Glob) (s : Est) (w : List String) (g' : Glob) (s' : Est),
      runGraphLoopIters env sub eng nid subDef bodyIds exitId maxI ty ev
        remaining iterIdx curInput transcript g s = (.ok w, g', s') →
      ∃ rs : List String,
        w = transcript ++ roundAnnot iterIdx rs ∧
        rs.length ≤ remaining ∧
        (∀ j : Nat, j + 1 < rs.length →
          exitCheck ty ev (iterIdx + j) ((curInput :: rs).getD j "") (rs.getD j "") =
            .ok false) ∧
        (rs.length < remaining → rs ≠ [] ∧
          exitCheck ty ev (iterIdx + (rs.length - 1))
            ((curInput :: rs).getD (rs.length - 1) "") (rs.getD (rs.length - 1) "") =
            .ok true) := by
  intro remaining
  induction remaining with
  | zero =>
    intro iterIdx curInput transcript g s w g' s' h
    rw [runGraphLoopIters] at h
    unfold M.pure at h
    injection h with h1 h2
    injection h1 with h1
    refine ⟨[], by simp [roundAnnot, h1.symm], by simp, by simp, by simp⟩
  | succ r ih =>
    intro iterIdx curInput transcript g s w g' s' h
    rw [runGraphLoopIters] at h
    simp only [M_bind_def, M_pure_def] at h
    rw [M.bind_eq_ok] at h
    obtain ⟨_, g1, s1, _, h⟩ := h
    rw [M.bind_eq_ok] at h
    obtain ⟨_, g2, s2, _, h⟩ := h
    rw [M.bind_eq_ok] at h
    obtain ⟨_, g3, s3, _, h⟩ := h
    rw [M.bind_eq_ok] at h
    obtain ⟨results, g4, s4, _, h⟩ := h
    rw [M.bind_eq_ok] at h
    obtain ⟨_, g5, s5, _, h⟩ := h
    rw [M.bind_eq_ok] at h
    obtain ⟨_, g6, s6, _, h⟩ := h
    rw [M.bind_eq_ok] at h
    obtain ⟨stop, g7, s7, hstop, h⟩ := h
    have hcheck : exitCheck ty ev iterIdx curInput (agetD results exitId "") = .ok stop := by
      rcases hc : exitCheck ty ev iterIdx curInput (agetD results exitId "") with e | b
      · rw [hc] at hstop
        simp [ofExcept, M.raise] at hstop
      · rw [hc] at hstop
        simp only [ofExcept] at hstop
        unfold M.pure at hstop
        injection hstop with hb hrest
        injection hb with hb
        rw [hb]
    by_cases hs : stop
    · subst hs
      rw [if_pos rfl] at h
      unfold M.pure at h
      injection h with h1 _
      injection h1 with h1
      refine ⟨[agetD results exitId ""], ?_, by simp, ?_, ?_⟩
      · rw [← h1]
        simp only [roundAnnot]
      · intro j hj
        simp at hj
      · intro _
        refine ⟨by simp, ?_⟩
        simpa using hcheck
    · have hs' : stop = false := by simpa using hs
      subst hs'
      rw [if_neg (by simp)] at h
      obtain ⟨rs', hw, hlen, hcont, hstoplast⟩ := ih (iterIdx + 1) (agetD results exitId "")
        (transcript ++ ["**--- Round " ++ toString (iterIdx + 1) ++ " ---**\n\n" ++
          agetD results exitId ""]) g7 s7 w g' s' h
      refine ⟨agetD results exitId "" :: rs', ?_, by simp only [List.length_cons]; omega, ?_, ?_⟩
      · rw [hw, List.append_assoc]
        rfl
      · intro j hj
        match j with
        | 0 => simpa using hcheck
        | Nat.succ j' =>
          have hj' : j' + 1 < rs'.length := by simpa using hj
          have hres := hcont j' hj'
          have hidx : iterIdx + (j' + 1) = (iterIdx + 1) + j' := by omega
          rw [hidx]
          simpa only [List.getD_cons_succ] using hres
      · intro hlt
        have hlt' : rs'.length < r := by simpa using hlt
        obtain ⟨hne, hlast⟩ := hstoplast hlt'
        refine ⟨by simp, ?_⟩
        have hlen1 : 1 ≤ rs'.length := List.length_pos.mpr hne
        have harith : (agetD results exitId "" :: rs').length - 1 = rs'.length := by simp
        rw [harith]
        have hidx : iterIdx + rs'.length = (iterIdx + 1) + (rs'.length - 1) := by omega
        rw [hidx]
        have hget1 : (curInput :: agetD results exitId "" :: rs').getD rs'.length "" =
            (agetD results exitId "" :: rs').getD (rs'.length - 1) "" := by
          obtain ⟨k, hk⟩ : ∃ k, rs'.length = k + 1 := ⟨rs'.length - 1, by omega⟩
          rw [hk]
          simp
        have hget2 : (agetD results exitId "" :: rs').getD rs'.length "" =
            rs'.getD (rs'.length - 1) "" := by
          obtain ⟨k, hk⟩ : ∃ k, rs'.length = k + 1 := ⟨rs'.length - 1, by omega⟩
          rw [hk]
          simp
        rw [hget1, hget2]
        exact hlast

/-- Driver guarantee for a non-empty identified loop body: when the
graph-level loop driver returns a result, it has run the loop-body
sub-engine at most `maxIterations` times (one round per transcript
entry), every body node's status is `done` on return, the result is the
round transcript — each iteration's exit-node result under a
`**--- Round N ---**` header, joined by blank lines — and iteration `j+1`
was entered only because the exit condition (keyword in the first 500
uppercased characters, no-change against the prior loop input after the
first round, or last decimal number at least the threshold) was false on
round `j`'s exit result, while stopping before `maxIterations` means it
was true on the last round. -/
theorem c5_graph_loop_driver (env : Env) (sub : SubRunner) (eng : Engine)
    (node : WorkflowNode) (inputText : String) (backEdgesToNode : List WorkflowEdge)
    (maxIter : Int) (exitType : String) (exitValueV : DVal)
    (bodyIds : List String)
    (hbody : backEdgesToNode.foldl (fun acc be =>
      acc ++ (identifyLoopBody eng node.id be.source).filter (fun b => b ∉ acc)) [] = bodyIds)
    (hne : bodyIds ≠ [])
    (g : Glob) (s : Est) (out : String) (g' : Glob) (s' : Est)
    (hrun : runGraphLoop env sub eng node inputText backEdgesToNode maxIter exitType
      exitValueV g s = (.ok out, g', s')) :
    ∃ rs : List String,
      out = String.intercalate "\n\n" (roundAnnot 0 rs) ∧
      rs.length ≤ maxIter.toNat ∧
      (∀ b ∈ bodyIds, aget s'.statuses b = some .done) ∧
      (∀ j : Nat, j + 1 < rs.length →
        exitCheck exitType exitValueV j ((inputText :: rs).getD j "") (rs.getD j "") =
          .ok false) ∧
      (rs.length < maxIter.toNat → rs ≠ [] ∧
        exitCheck exitType exitValueV (rs.length - 1)
          ((inputText :: rs).getD (rs.length - 1) "") (rs.getD (rs.length - 1) "") =
          .ok true) := by
  simp only [runGraphLoop] at hrun
  rw [hbody] at hrun
  rw [if_neg (by simp [hne])] at hrun
  simp only [M_bind_def, M_pure_def] at hrun
  rw [M.bind_eq_ok] at hrun
  obtain ⟨_, g1, s1, _, hrun⟩ := hrun
  rw [M.bind_eq_ok] at hrun
  obtain ⟨transcript, g2, s2, hiters, hrun⟩ := hrun
  rw [M.bind_eq_ok] at hrun
  obtain ⟨_, g3, s3, hmod, hrun⟩ := hrun
  unfold M.pure at hrun
  injection hrun with h1 h2
  injection h1 with h1
  injection h2 with hg hs
  unfold modifyEst at hmod
  injection hmod with hm1 hm2
  injection hm2 with hmg hms
  obtain ⟨rs, hw, hlen, hcont, hstop⟩ :=
    graphLoopIters_spec env sub eng node.id _ bodyIds _ maxIter exitType exitValueV
      maxIter.toNat 0 inputText [] g1 s1 transcript g2 s2 hiters
  refine ⟨rs, ?_, hlen, ?_, ?_, ?_⟩
  · rw [← h1, hw]
    simp
  · intro b hb
    rw [← hs, ← hms]
    show aget (bodyIds.foldl (fun m x => aset m x .done) s2.statuses) b = some .done
    rw [aget_foldl_aset]
    simp [hb]
  · intro j hj
    have := hcont j hj
    simpa using this
  · intro hlt
    obtain ⟨hne2, hl⟩ := hstop hlt
    exact ⟨hne2, by simpa using hl⟩

/-- C5 (amended): for a loop node targeted by back-edges, if the
identified loop body is empty — as for a self-loop back-edge, whose
backward pass excludes the loop node itself — the driver runs no
sub-engine and returns the input text unchanged with both states
untouched; when the body is non-empty, a normal return has run the
loop-body sub-engine at most `maxIterations` times (one round per
transcript entry), every body node's status is `done` on return, the
result is the round transcript — each iteration's exit-node result under
a `**--- Round N ---**` header, joined by blank lines — and iteration
`j+1` was entered only because the configured exit condition was false
on round `j`'s exit result, while stopping before `maxIterations` means
it was true on the last round. -/
theorem c5_graph_loop_amended (env : Env) (sub : SubRunner) (eng : Engine)
    (node : WorkflowNode) (inputText : String) (backEdgesToNode : List WorkflowEdge)
    (maxIter : Int) (exitType : String) (exitValueV : DVal)
    (bodyIds : List String)
    (hbody : backEdgesToNode.foldl (fun acc be =>
      acc ++ (identifyLoopBody eng node.id be.source).filter (fun b => b ∉ acc)) [] = bodyIds)
    (g : Glob) (s : Est) :
    (bodyIds = [] →
      runGraphLoop env sub eng node inputText backEdgesToNode maxIter exitType exitValueV
        g s = (.ok inputText, g, s)) ∧
    (bodyIds ≠ [] → ∀ (out : String) (g' : Glob) (s' : Est),
      runGraphLoop env sub eng node inputText backEdgesToNode maxIter exitType exitValueV
        g s = (.ok out, g', s') →
      ∃ rs : List String,
        out = String.intercalate "\n\n" (roundAnnot 0 rs) ∧
        rs.length ≤ maxIter.toNat ∧
        (∀ b ∈ bodyIds, aget s'.statuses b = some .done) ∧
        (∀ j : Nat, j + 1 < rs.length →
          exitCheck exitType exitValueV j ((inputText :: rs).getD j "") (rs.getD j "") =
            .ok false) ∧
        (rs.length < maxIter.toNat → rs ≠ [] ∧
          exitCheck exitType exitValueV (rs.length - 1)
            ((inputText :: rs).getD (rs.length - 1) "") (rs.getD (rs.length - 1) "") =
            .ok true)) := by
  constructor
  · intro hmt
    subst hmt
    simp only [runGraphLoop]
    rw [hbody]
    rfl
  · intro hne out g' s' hrun
    exact c5_graph_loop_driver env sub eng node inputText backEdgesToNode maxIter exitType
      exitValueV bodyIds hbody hne g s out g' s' hrun

/-- A keyword-exit loop workflow: input feeds a loop node whose body is
one echo agent with a back-edge to the loop. -/
def wfLoopK : WorkflowDefinition :=
  .mk [.mk "I" .input [("defaultValue", .vstr "go STOP")],
       .mk "L" .loop [("maxIterations", .vint 3), ("exitConditionType", .vstr "keyword"),
         ("exitValue", .vstr "STOP")],
       .mk "G" .agent []]
     [{ id := "e1", source := "I", target := "L" },
      { id := "e2", source := "L", target := "G" },
      { id := "e3", source := "G", target := "L" }]

/-- The loop node of `wfLoopK`. -/
def loopNodeK : WorkflowNode :=
  .mk "L" .loop [("maxIterations", .vint 3), ("exitConditionType", .vstr "keyword"),
    ("exitValue", .vstr "STOP")]

/-- A workflow whose only node is a loop node with a self-loop edge: the
edge is detected as a back-edge targeting the loop node, but the
identified loop body is empty (the backward pass excludes the loop node
itself). -/
def wfSelfLoop : WorkflowDefinition :=
  .mk [.mk "L" .loop [("maxIterations", .vint 3), ("exitConditionType", .vstr "keyword"),
        ("exitValue", .vstr "STOP")]]
     [{ id := "e1", source := "L", target := "L" }]

/-- The loop node of `wfSelfLoop`. -/
def selfLoopNode : WorkflowNode :=
  .mk "L" .loop [("maxIterations", .vint 3), ("exitConditionType", .vstr "keyword"),
    ("exitValue", .vstr "STOP")]

/-- The C5 theorem applied at concrete loops: the keyword loop of
`wfLoopK` (non-empty body `G`) stops after round one — its echo agent
returns the `STOP`-containing input — satisfying the round-transcript
and terminal-status properties, and the self-loop of `wfSelfLoop`
(empty body) passes the input through unchanged. -/
theorem c5_graph_loop_amended_witness :
    (((mkEngine wfLoopK "w").backEdges.filter (fun e => e.target = "L")).foldl (fun acc be =>
      acc ++ (identifyLoopBody (mkEngine wfLoopK "w") "L" be.source).filter
        (fun b => b ∉ acc)) [] = ["G"]) ∧
    (["G"] ≠ []) ∧
    (runGraphLoop envSilent (engineStep envSilent 5) (mkEngine wfLoopK "w") loopNodeK
        "go STOP" ((mkEngine wfLoopK "w").backEdges.filter (fun e => e.target = "L")) 3
        "keyword" (.vstr "STOP") glob0 (initEst wfLoopK) =
      (.ok "**--- Round 1 ---**\n\ngo STOP",
        { events := [], agentCalls := 1, toolCalls := 0, timeIdx := 2, cancelIn := none },
        { results := [("G", "go STOP")], stResults := [("G", "go STOP")],
          statuses := [("I", .waiting), ("L", .waiting), ("G", .done)],
          pstatus := "pending", errMsg := none, blocked := [], skipNodes := ["G"],
          vars := [], lastStream := [] })) ∧
    (∃ rs : List String,
      "**--- Round 1 ---**\n\ngo STOP" = String.intercalate "\n\n" (roundAnnot 0 rs) ∧
      rs.length ≤ (3 : Int).toNat ∧
      (∀ b ∈ ["G"],
        aget (Est.mk [("G", "go STOP")] [("G", "go STOP")]
          [("I", .waiting), ("L", .waiting), ("G", .done)] "pending" none [] ["G"] []
          []).statuses b = some .done) ∧
      (∀ j : Nat, j + 1 < rs.length →
        exitCheck "keyword" (.vstr "STOP") j (("go STOP" :: rs).getD j "") (rs.getD j "") =
          .ok false) ∧
      (rs.length < (3 : Int).toNat → rs ≠ [] ∧
        exitCheck "keyword" (.vstr "STOP") (rs.length - 1)
          (("go STOP" :: rs).getD (rs.length - 1) "") (rs.getD (rs.length - 1) "") =
          .ok true)) ∧
    (runGraphLoop envSilent (engineStep envSilent 5) (mkEngine wfSelfLoop "w") selfLoopNode
        "go" ((mkEngine wfSelfLoop "w").backEdges.filter (fun e => e.target = "L")) 3
        "keyword" (.vstr "STOP") glob0 (initEst wfSelfLoop) =
      (.ok "go", glob0, initEst wfSelfLoop)) :=
  ⟨by decide, by decide, by decide,
    (c5_graph_loop_amended envSilent (engineStep envSilent 5) (mkEngine wfLoopK "w") loopNodeK
      "go STOP" ((mkEngine wfLoopK "w").backEdges.filter (fun e => e.target = "L")) 3
      "keyword" (.vstr "STOP") ["G"] (by decide) glob0 (initEst wfLoopK)).2 (by decide)
      "**--- Round 1 ---**\n\ngo STOP"
      { events := [], agentCalls := 1, toolCalls := 0, timeIdx := 2, cancelIn := none }
      { results := [("G", "go STOP")], stResults := [("G", "go STOP")],
        statuses := [("I", .waiting), ("L", .waiting), ("G", .done)],
        pstatus := "pending", errMsg := none, blocked := [], skipNodes := ["G"],
        vars := [], lastStream := [] }
      (by decide),
    (c5_graph_loop_amended envSilent (engineStep envSilent 5) (mkEngine wfSelfLoop "w")
      selfLoopNode "go" ((mkEngine wfSelfLoop "w").backEdges.filter (fun e => e.target = "L"))
      3 "keyword" (.vstr "STOP") [] (by decide) glob0 (initEst wfSelfLoop)).1 rfl⟩

/-- C5 (counterexample): the self-loop edge `L→L` is detected as a
back-edge targeting the loop node `L`, but the identified loop body is
empty, so the graph-loop driver runs zero sub-engine rounds (the agent
adapter is never invoked) and the run returns the input text unchanged —
not a round-annotated transcript. -/
theorem c5_counterexample :
    (mkEngine wfSelfLoop "w").backEdges = [{ id := "e1", source := "L", target := "L" }] ∧
    identifyLoopBody (mkEngine wfSelfLoop "w") "L" "L" = [] ∧
    resOf (runWorkflow envSilent wfSelfLoop "w" "go" 0 none 5) = .ok [("L", "go")] ∧
    (globOf (runWorkflow envSilent wfSelfLoop "w" "go" 0 none 5)).agentCalls = 0 := by
  decide

/-! ### C10: variable-store invariance during node execution -/

/-- A computation that leaves the engine's variable store untouched. -/
def PreservesVars {α : Type} (m : M α) : Prop :=
  ∀ g s, ((m g s).2.2).vars = s.vars

lemma pv_pure {α : Type} (a : α) : PreservesVars (M.pure a) := fun _ _ => rfl

lemma pv_raise {α : Type} (e : String) : PreservesVars (M.raise e : M α) := fun _ _ => rfl

lemma pv_noFuel {α : Type} : PreservesVars (M.noFuel : M α) := fun _ _ => rfl

lemma pv_getEst : PreservesVars getEst := fun _ _ => rfl

lemma pv_getGlob : PreservesVars getGlob := fun _ _ => rfl

lemma pv_modifyGlob (f : Glob → Glob) : PreservesVars (modifyGlob f) := fun _ _ => rfl

lemma pv_readClock (env : Env) : PreservesVars (readClock env) := fun _ _ => rfl

lemma pv_modifyEst (f : Est → Est) (h : ∀ s, (f s).vars = s.vars) :
    PreservesVars (modifyEst f) := fun _ s => h s

lemma pv_awaitPoint : PreservesVars awaitPoint := by
  intro g s
  unfold awaitPoint
  cases g.cancelIn with
  | none => rfl
  | some k => cases k <;> rfl

lemma pv_ofExcept {α : Type} (x : Except String α) : PreservesVars (ofExcept x) := by
  cases x with
  | ok a => exact pv_pure a
  | error e => exact pv_raise e

lemma pv_bind {α β : Type} {x : M α} {f : α → M β} (hx : PreservesVars x)
    (hf : ∀ a, PreservesVars (f a)) : PreservesVars (M.bind x f) := by
  intro g s
  have hx' := hx g s
  unfold M.bind
  rcases hres : x g s with ⟨r, g', s'⟩
  rw [hres] at hx'
  cases r with
  | ok a => exact (hf a g' s').trans hx'
  | exn e => exact hx'
  | cancel => exact hx'
  | fuelOut => exact hx'

lemma pv_tryE {α : Type} {x : M α} {h : String → M α} (hx : PreservesVars x)
    (hh : ∀ e, PreservesVars (h e)) : PreservesVars (tryE x h) := by
  intro g s
  have hx' := hx g s
  unfold tryE
  rcases hres : x g s with ⟨r, g', s'⟩
  rw [hres] at hx'
  cases r with
  | ok a => exact hx'
  | exn e => exact (hh e g' s').trans hx'
  | cancel => exact hx'
  | fuelOut => exact hx'

lemma pv_spawnSub (sub : SubRunner) (defn : WorkflowDefinition) (wid input : String) :
    PreservesVars (spawnSub sub defn wid input) := by
  intro g s
  show ((match sub defn wid input g with | (r, g', _) => (r, g', s)).2.2).vars = s.vars
  rcases sub defn wid input g with ⟨r, g', s'⟩
  rfl

lemma pv_doBroadcast (env : Env) (e : Event) : PreservesVars (doBroadcast env e) := by
  unfold doBroadcast
  cases env.bc with
  | none => exact pv_pure _
  | some f =>
    refine pv_bind pv_awaitPoint (fun _ => ?_)
    by_cases hf : f e
    · rw [if_pos hf]; exact pv_modifyGlob _
    · rw [if_neg hf]; exact pv_raise _

lemma pv_emit (env : Env) (wid : String) (full : Bool) : PreservesVars (emit env wid full) := by
  unfold emit
  cases env.bc with
  | none => exact pv_pure _
  | some f =>
    simp only [M_bind_def]
    exact pv_bind pv_getEst (fun _ => pv_doBroadcast env _)

lemma pv_streamBroadcast (env : Env) (wid nid chunk part : String) :
    PreservesVars (streamBroadcast env wid nid chunk part) := by
  unfold streamBroadcast
  cases env.bc with
  | none => exact pv_pure _
  | some f =>
    simp only [M_bind_def]
    refine pv_bind (pv_readClock env) (fun now => pv_bind pv_getEst (fun s => ?_))
    split
    · exact pv_pure _
    · exact pv_bind (pv_modifyEst _ (fun _ => rfl)) (fun _ => pv_doBroadcast env _)

lemma pv_runConditionNode (env : Env) (eng : Engine) (node : WorkflowNode) (t : String) :
    PreservesVars (runConditionNode env eng node t) := by
  unfold runConditionNode
  simp only [M_bind_def]
  exact pv_bind (pv_ofExcept _) (fun _ =>
    pv_bind (pv_modifyEst _ (fun _ => rfl)) (fun _ => pv_pure _))

lemma pv_runSwitchNode (env : Env) (eng : Engine) (node : WorkflowNode) (t : String) :
    PreservesVars (runSwitchNode env eng node t) := by
  unfold runSwitchNode
  simp only [M_bind_def]
  exact pv_bind (pv_modifyEst _ (fun _ => rfl)) (fun _ => pv_pure _)

lemma pv_runAggregatorNode (eng : Engine) (node : WorkflowNode) :
    PreservesVars (runAggregatorNode eng node) := by
  unfold runAggregatorNode
  simp only [M_bind_def]
  refine pv_bind pv_getEst (fun s => pv_bind (pv_ofExcept _) (fun sep => ?_))
  split
  · exact pv_pure _
  · split
    · exact pv_pure _
    · split
      · exact pv_bind (pv_ofExcept _) (fun _ => pv_pure _)
      · exact pv_pure _

lemma pv_runDelayNode (env : Env) (wid : String) (node : WorkflowNode) (t : String) :
    PreservesVars (runDelayNode env wid node t) := by
  unfold runDelayNode
  simp only [M_bind_def]
  refine pv_bind (pv_ofExcept _) (fun d => ?_)
  refine pv_bind ?_ (fun _ => pv_bind pv_awaitPoint (fun _ => pv_pure _))
  cases env.bc with
  | none => exact pv_pure _
  | some f => exact pv_doBroadcast env _

lemma pv_callTool (env : Env) (name t : String) (config : List (String × DVal)) :
    PreservesVars (callTool env name t config) := by
  unfold callTool
  simp only [M_bind_def]
  exact pv_bind pv_awaitPoint (fun _ => pv_bind pv_getGlob (fun g =>
    pv_bind (pv_modifyGlob _) (fun _ => pv_ofExcept _)))

lemma pv_runDatabaseInput (env : Env) (node : WorkflowNode) :
    PreservesVars (runDatabaseInput env node) := by
  unfold runDatabaseInput
  dsimp only
  split <;> (try split) <;>
    first
      | exact pv_pure _
      | exact pv_tryE (pv_pure _) (fun e => pv_pure _)
      | exact pv_tryE (pv_callTool env _ _ _) (fun e => pv_pure _)

lemma pv_runInputNode (env : Env) (node : WorkflowNode) (t : String) :
    PreservesVars (runInputNode env node t) := by
  unfold runInputNode
  dsimp only
  simp only [M_bind_def]
  split
  · exact pv_runDatabaseInput env node
  · refine pv_bind ?_ (fun resolved => ?_)
    · split
      · exact pv_bind pv_awaitPoint (fun _ => pv_pure _)
      · exact pv_pure _
    · cases resolved with
      | some path => exact pv_pure _
      | none =>
        split <;> (try split) <;> (try split) <;> (try split) <;> exact pv_pure _

lemma pv_streamChunksGo (env : Env) (wid nid : String) (cs : List String) :
    ∀ acc, PreservesVars (streamChunksGo env wid nid cs acc) := by
  induction cs with
  | nil => intro acc; exact pv_pure _
  | cons c rest ih =>
    intro acc
    unfold streamChunksGo
    simp only [M_bind_def]
    exact pv_bind pv_awaitPoint (fun _ =>
      pv_bind (pv_streamBroadcast env wid nid c _) (fun _ => ih _))

lemma pv_runAgentWithModel (env : Env) (wid : String) (node : WorkflowNode)
    (t model sp : String) (temperature maxTokens : DVal) :
    PreservesVars (runAgentWithModel env wid node t model sp temperature maxTokens) := by
  unfold runAgentWithModel
  simp only [M_bind_def]
  refine pv_bind (pv_ofExcept _) (fun _ => pv_bind (pv_ofExcept _) (fun _ =>
    pv_bind (pv_readClock env) (fun _ => pv_bind pv_awaitPoint (fun _ =>
    pv_bind pv_getGlob (fun g => pv_bind (pv_modifyGlob _) (fun _ => ?_))))))
  split
  · exact pv_raise _
  · refine pv_bind (pv_streamChunksGo env wid node.id _ _) (fun full =>
      pv_bind (pv_readClock env) (fun _ => pv_bind ?_ (fun _ => pv_pure _)))
    cases env.bc with
    | none => exact pv_pure _
    | some f =>
      simp only [M_bind_def]
      exact pv_bind (pv_modifyEst _ (fun _ => rfl)) (fun _ =>
        pv_streamBroadcast env wid node.id _ _)

lemma pv_runAgentNode (env : Env) (wid : String) (node : WorkflowNode) (t : String) :
    PreservesVars (runAgentNode env wid node t) := by
  unfold runAgentNode
  simp only [M_bind_def]
  refine pv_tryE (pv_runAgentWithModel env wid node _ _ _ _ _) (fun primaryErr => ?_)
  split
  · refine pv_bind ?_ (fun _ => pv_runAgentWithModel env wid node _ _ _ _ _)
    cases env.bc with
    | none => exact pv_pure _
    | some f => exact pv_doBroadcast env _
  · exact pv_raise _

lemma pv_chunkStreamGo (env : Env) (wid nid separator : String) (older : List String)
    (ts : List String) : ∀ acc, PreservesVars (chunkStreamGo env wid nid separator older ts acc) := by
  induction ts with
  | nil => intro acc; exact pv_pure _
  | cons c rest ih =>
    intro acc
    unfold chunkStreamGo
    simp only [M_bind_def]
    exact pv_bind pv_awaitPoint (fun _ =>
      pv_bind (pv_streamBroadcast env wid nid c _) (fun _ => ih _))

lemma pv_chunkLoopGo (env : Env) (wid nid model sp separator : String) (total : Nat)
    (chunks : List String) :
    ∀ i acc, PreservesVars (chunkLoopGo env wid nid model sp separator total chunks i acc) := by
  induction chunks with
  | nil => intro i acc; exact pv_pure _
  | cons c rest ih =>
    intro i acc
    unfold chunkLoopGo
    simp only [M_bind_def]
    refine pv_bind pv_awaitPoint (fun _ => pv_bind pv_getGlob (fun g =>
      pv_bind (pv_modifyGlob _) (fun _ => ?_)))
    split
    · exact pv_raise _
    · refine pv_bind (pv_chunkStreamGo env wid nid separator acc _ _) (fun content =>
        pv_bind ?_ (fun _ => ih _ _))
      cases env.bc with
      | none => exact pv_pure _
      | some f => exact pv_doBroadcast env _

lemma pv_runChunkerNode (env : Env) (wid : String) (node : WorkflowNode) (t : String)
    (gas : Nat) : PreservesVars (runChunkerNode env wid node t gas) := by
  unfold runChunkerNode
  simp only [M_bind_def]
  refine pv_bind (pv_ofExcept _) (fun _ => pv_bind (pv_ofExcept _) (fun _ =>
    pv_bind (pv_ofExcept _) (fun separator => ?_)))
  split
  · exact pv_noFuel
  · split
    · exact pv_pure _
    · exact pv_bind (pv_chunkLoopGo env wid node.id _ _ separator _ _ _ _)
        (fun _ => pv_pure _)

lemma pv_runToolNode (env : Env) (node : WorkflowNode) (t : String) :
    PreservesVars (runToolNode env node t) := by
  unfold runToolNode
  simp only [M_bind_def]
  split
  · exact pv_pure _
  · split
    · exact pv_bind (pv_ofExcept _) (fun _ => pv_callTool env _ _ _)
    · exact pv_bind (pv_ofExcept _) (fun _ => pv_callTool env _ _ _)

lemma pv_internalLoopGo (env : Env) (wid nid model rp : String) (stopCondV : DVal)
    (exitType initialInput : String) (n : Nat) :
    ∀ current genContent,
      PreservesVars (internalLoopGo env wid nid model rp stopCondV exitType initialInput
        n current genContent) := by
  induction n with
  | zero => intro c gc; exact pv_pure _
  | succ k ih =>
    intro c gc
    unfold internalLoopGo
    simp only [M_bind_def]
    refine pv_bind pv_awaitPoint (fun _ => pv_bind pv_getGlob (fun g =>
      pv_bind (pv_modifyGlob _) (fun _ => ?_)))
    split
    · exact pv_raise _
    · refine pv_bind (pv_streamChunksGo env wid nid _ _) (fun genContent =>
        pv_bind pv_awaitPoint (fun _ => pv_bind pv_getGlob (fun g2 =>
        pv_bind (pv_modifyGlob _) (fun _ => ?_))))
      split
      · exact pv_raise _
      · refine pv_bind ?_ (fun shouldStop => ?_)
        · split
          · exact pv_bind (pv_ofExcept _) (fun _ => pv_pure _)
          · exact pv_pure _
        · split
          · exact pv_pure _
          · exact ih _ _

/-- The graph-loop per-round results fold touches only `results`,
`stResults` and `statuses`. -/
lemma vars_results_fold (results : List (String × String)) :
    ∀ (s : Est), (results.foldl (fun st p =>
      { st with results := aset st.results p.1 p.2,
                stResults := aset st.stResults p.1 p.2,
                statuses := aset st.statuses p.1 .done }) s).vars = s.vars := by
  induction results with
  | nil => intro s; rfl
  | cons p rest ih => intro s; rw [List.foldl_cons, ih]

lemma pv_runGraphLoopIters (env : Env) (sub : SubRunner) (eng : Engine) (nid : String)
    (subDef : WorkflowDefinition) (bodyIds : List String) (exitNodeId : String)
    (maxIterI : Int) (exitType : String) (exitValueV : DVal) (r : Nat) :
    ∀ iterIdx currentInput transcript,
      PreservesVars (runGraphLoopIters env sub eng nid subDef bodyIds exitNodeId maxIterI
        exitType exitValueV r iterIdx currentInput transcript) := by
  induction r with
  | zero => intro i ci tr; exact pv_pure _
  | succ k ih =>
    intro i ci tr
    unfold runGraphLoopIters
    simp only [M_bind_def]
    refine pv_bind ?_ (fun _ => ?_)
    · cases env.bc with
      | none => exact pv_pure _
      | some f => exact pv_doBroadcast env _
    · refine pv_bind (pv_modifyEst _ (fun _ => rfl)) (fun _ =>
        pv_bind (pv_emit env eng.wid false) (fun _ =>
        pv_bind (pv_spawnSub sub subDef eng.wid ci) (fun results =>
        pv_bind (pv_modifyEst _ (vars_results_fold results)) (fun _ =>
        pv_bind (pv_emit env eng.wid false) (fun _ =>
        pv_bind (pv_ofExcept _) (fun stop => ?_))))))
      split
      · exact pv_pure _
      · exact ih _ _ _

lemma pv_runGraphLoop (env : Env) (sub : SubRunner) (eng : Engine) (node : WorkflowNode)
    (t : String) (backEdgesToNode : List WorkflowEdge) (maxIter : Int)
    (exitType : String) (exitValueV : DVal) :
    PreservesVars (runGraphLoop env sub eng node t backEdgesToNode maxIter exitType
      exitValueV) := by
  unfold runGraphLoop
  simp only [M_bind_def]
  split
  · exact pv_pure _
  · refine pv_bind (pv_modifyEst _ (fun _ => rfl)) (fun _ =>
      pv_bind (pv_runGraphLoopIters env sub eng node.id _ _ _ maxIter exitType exitValueV
        maxIter.toNat _ _ _) (fun transcript =>
      pv_bind (pv_modifyEst _ (fun _ => rfl)) (fun _ => pv_pure _)))

lemma pv_runLoopNode (env : Env) (sub : SubRunner) (eng : Engine) (node : WorkflowNode)
    (t : String) : PreservesVars (runLoopNode env sub eng node t) := by
  unfold runLoopNode
  simp only [M_bind_def]
  refine pv_bind (pv_ofExcept _) (fun maxIter => ?_)
  split
  · exact pv_runGraphLoop env sub eng node t _ maxIter _ _
  · exact pv_internalLoopGo env eng.wid node.id _ _ _ _ t maxIter.toNat t ""

lemma pv_runMetaAgentNode (env : Env) (sub : SubRunner) (eng : Engine)
    (node : WorkflowNode) (t : String) :
    PreservesVars (runMetaAgentNode env sub eng node t) := by
  unfold runMetaAgentNode
  simp only [M_bind_def]
  split
  · exact pv_pure _
  · split
    · exact pv_pure _
    · refine pv_bind (pv_ofExcept _) (fun maxDepth =>
        pv_bind (pv_ofExcept _) (fun currentDepth => ?_))
      split
      · exact pv_pure _
      · split <;>
          first
            | exact pv_bind (pv_spawnSub sub _ _ t) (fun _ => pv_pure _)
            | exact pv_raise _
            | exact pv_pure _

lemma pv_executeNode (env : Env) (sub : SubRunner) (gas : Nat) (eng : Engine)
    (node : WorkflowNode) (input : String) :
    PreservesVars (executeNode env sub gas eng node input) := by
  unfold executeNode
  simp only [M_bind_def]
  refine pv_bind pv_getEst (fun s => ?_)
  cases node.type with
  | agent => exact pv_runAgentNode env eng.wid node _
  | tool => exact pv_runToolNode env node _
  | condition => exact pv_runConditionNode env eng node _
  | input => exact pv_runInputNode env node _
  | output => exact pv_pure _
  | loop => exact pv_runLoopNode env sub eng node _
  | aggregator => exact pv_runAggregatorNode eng node
  | meta_agent => exact pv_runMetaAgentNode env sub eng node _
  | chunker => exact pv_runChunkerNode env eng.wid node _ gas

lemma pv_attemptLoop (env : Env) (sub : SubRunner) (gas : Nat) (eng : Engine)
    (node : WorkflowNode) (input onError fallbackValue : String) (k : Nat) :
    PreservesVars (attemptLoop env sub gas eng node input onError fallbackValue k) := by
  induction k with
  | zero =>
    unfold attemptLoop
    refine pv_tryE (pv_executeNode env sub gas eng node input) (fun e => ?_)
    split
    · exact pv_pure _
    · split
      · exact pv_pure _
      · exact pv_raise _
  | succ k ih =>
    unfold attemptLoop
    simp only [M_bind_def]
    exact pv_tryE (pv_executeNode env sub gas eng node input) (fun _ =>
      pv_bind pv_awaitPoint (fun _ => ih))

lemma pv_executeWithRetry (env : Env) (sub : SubRunner) (gas : Nat) (eng : Engine)
    (node : WorkflowNode) (input : String) :
    PreservesVars (executeWithRetry env sub gas eng node input) := by
  unfold executeWithRetry
  simp only [M_bind_def]
  refine pv_bind (pv_ofExcept _) (fun retryCount => pv_bind (pv_ofExcept _) (fun _ => ?_))
  split
  · split
    · exact pv_pure _
    · split
      · exact pv_pure _
      · exact pv_raise _
  · exact pv_attemptLoop env sub gas eng node input _ _ _

lemma pv_runTasks (env : Env) (sub : SubRunner) (gas : Nat) (eng : Engine) (input : String)
    (nids : List String) : PreservesVars (runTasks env sub gas eng input nids) := by
  induction nids with
  | nil => exact pv_pure _
  | cons nid rest ih =>
    unfold runTasks
    simp only [M_bind_def]
    refine pv_bind (pv_tryE ?_ (fun e => pv_pure _)) (fun o =>
      pv_bind ih (fun os => pv_pure _))
    refine pv_bind ?_ (fun node =>
      pv_bind (pv_executeWithRetry env sub gas eng node input) (fun r => pv_pure _))
    cases aget eng.nodesMap nid with
    | none => exact pv_raise _
    | some n => exact pv_pure _

/-- Scanner state of `List.span` over word characters: a run of word
characters followed by the closing brace splits exactly there. -/
lemma span_loop_all (l : List Char) (hl : ∀ c ∈ l, isWordChar c = true) :
    ∀ acc, List.span.loop isWordChar (l ++ ['}']) acc = (acc.reverse ++ l, ['}']) := by
  induction l with
  | nil =>
    intro acc
    have h : isWordChar '}' = false := by decide
    simp [List.span.loop, h]
  | cons c rest ih =>
    intro acc
    have hc : isWordChar c = true := hl c (List.mem_cons_self c rest)
    have ih' := ih (fun x hx => hl x (List.mem_cons_of_mem c hx)) (c :: acc)
    simp only [List.cons_append, List.span.loop, hc, if_true, List.append_eq]
    rw [ih']
    simp

/-- The token scanner recognises a well-formed variable token. -/
lemma matchVarToken_token (nm : List Char) (hne : nm ≠ [])
    (hw : ∀ c ∈ nm, isWordChar c = true) :
    matchVarToken ('v' :: 'a' :: 'r' :: ':' :: (nm ++ ['}'])) = some (String.mk nm, []) := by
  obtain ⟨c0, nm', rfl⟩ : ∃ c0 nm', nm = c0 :: nm' := by
    cases nm with
    | nil => exact absurd rfl hne
    | cons a b => exact ⟨a, b, rfl⟩
  have hspan : ((c0 :: nm') ++ ['}']).span isWordChar = (c0 :: nm', ['}']) := by
    show List.span.loop isWordChar ((c0 :: nm') ++ ['}']) [] = (c0 :: nm', ['}'])
    simpa using span_loop_all (c0 :: nm') hw []
  simp only [matchVarToken, hspan]

lemma substVarsGo_nil (store : List (String × String)) (fuel : Nat) :
    substVarsGo store fuel [] = [] := by
  cases fuel with
  | zero => rfl
  | succ k => rfl

/-- One scanner step at an opening brace. -/
lemma substVarsGo_step (store : List (String × String)) (fuel : Nat) (rest : List Char) :
    substVarsGo store (fuel + 1) ('{' :: rest) =
      match matchVarToken rest with
      | some (nm, tail) =>
        match aget store nm with
        | some v => v.toList ++ substVarsGo store fuel tail
        | none => '{' :: 'v' :: 'a' :: 'r' :: ':' :: (nm.toList ++ '}' :: substVarsGo store fuel tail)
      | none => '{' :: substVarsGo store fuel rest := by
  rw [substVarsGo]
  rw [if_pos rfl]

/-- The literal text of a `\x7bvar:NAME\x7d` token. -/
def varToken (nm : String) : String :=
  String.mk ('{' :: 'v' :: 'a' :: 'r' :: ':' :: (nm.toList ++ ['}']))

/-- A variable token whose name is absent from the store is left
unchanged by `_substitute_variables`. -/
lemma subst_missing_token (store : List (String × String)) (nm : List Char)
    (hne : nm ≠ []) (hw : ∀ c ∈ nm, isWordChar c = true)
    (hnone : aget store (String.mk nm) = none) :
    substituteVariables store (varToken (String.mk nm)) = varToken (String.mk nm) := by
  have hm := matchVarToken_token nm hne hw
  unfold substituteVariables varToken
  apply congrArg String.mk
  show substVarsGo store (('{' :: 'v' :: 'a' :: 'r' :: ':' :: (nm ++ ['}'])).length + 1)
      ('{' :: 'v' :: 'a' :: 'r' :: ':' :: (nm ++ ['}'])) = _
  have hlen : ('{' :: 'v' :: 'a' :: 'r' :: ':' :: (nm ++ ['}'])).length = nm.length + 6 := by
    simp
  rw [hlen, substVarsGo_step, hm]
  simp only [hnone, substVarsGo_nil]

/-- C10: variable writes are invisible during node execution.  (1) A
node execution via `executeWithRetry` — including every typed handler and
any spawned sub-engine — never changes the parent engine's variable
store; only the scheduler's post-completion bookkeeping
(`applySetVariable`) writes it.  (2) The gathered parallel branch
(`runTasks`) likewise leaves the store untouched: same-level peers all
read the store as it stood when the level began, and writes land only in
`applyOutcomes` after every task has joined.  (3) A `\x7bvar:NAME\x7d`
token whose name is absent from the store is left unchanged by the
substitution. -/
theorem c10_variable_visibility (env : Env) (sub : SubRunner) (gas : Nat)
    (eng : Engine) (input : String) :
    (∀ (node : WorkflowNode) (g : Glob) (s : Est),
      (estOf (executeWithRetry env sub gas eng node input g s)).vars = s.vars) ∧
    (∀ (nids : List String) (g : Glob) (s : Est),
      (estOf (runTasks env sub gas eng input nids g s)).vars = s.vars) ∧
    (∀ (store : List (String × String)) (nm : List Char), nm ≠ [] →
      (∀ c ∈ nm, isWordChar c = true) → aget store (String.mk nm) = none →
      substituteVariables store (varToken (String.mk nm)) = varToken (String.mk nm)) :=
  ⟨fun node g s => pv_executeWithRetry env sub gas eng node input g s,
   fun nids g s => pv_runTasks env sub gas eng input nids g s,
   fun store nm h1 h2 h3 => subst_missing_token store nm h1 h2 h3⟩

/-- The C10 theorem applied at a concrete store and token: the store maps
only `x`, so the token naming `y` survives substitution verbatim. -/
theorem c10_variable_visibility_witness :
    substituteVariables [("x", "V")] (varToken (String.mk ['y'])) =
      varToken (String.mk ['y']) :=
  (c10_variable_visibility envEcho
      (fun _ _ _ g => (.ok [], g, initEst (WorkflowDefinition.mk [] [])))
      0 (mkEngine (WorkflowDefinition.mk [] []) "w") "").2.2
    [("x", "V")] ['y'] (by decide) (by decide) (by decide)

/-! ### C2: per-level terminal-status discipline -/

/-- A computation that returns the per-engine state unchanged. -/
def EstFixed {α : Type} (m : M α) : Prop := ∀ g s, ((m g s).2.2) = s

lemma ef_pure {α : Type} (a : α) : EstFixed (M.pure a) := fun _ _ => rfl

lemma ef_raise {α : Type} (e : String) : EstFixed (M.raise e : M α) := fun _ _ => rfl

lemma ef_noFuel {α : Type} : EstFixed (M.noFuel : M α) := fun _ _ => rfl

lemma ef_getEst : EstFixed getEst := fun _ _ => rfl

lemma ef_getGlob : EstFixed getGlob := fun _ _ => rfl

lemma ef_modifyGlob (f : Glob → Glob) : EstFixed (modifyGlob f) := fun _ _ => rfl

lemma ef_readClock (env : Env) : EstFixed (readClock env) := fun _ _ => rfl

lemma ef_awaitPoint : EstFixed awaitPoint := by
  intro g s
  unfold awaitPoint
  cases g.cancelIn with
  | none => rfl
  | some k => cases k <;> rfl

lemma ef_ofExcept {α : Type} (x : Except String α) : EstFixed (ofExcept x) := by
  cases x with
  | ok a => exact ef_pure a
  | error e => exact ef_raise e

lemma ef_bind {α β : Type} {x : M α} {f : α → M β} (hx : EstFixed x)
    (hf : ∀ a, EstFixed (f a)) : EstFixed (M.bind x f) := by
  intro g s
  have hx' := hx g s
  unfold M.bind
  rcases hres : x g s with ⟨r, g', s'⟩
  rw [hres] at hx'
  cases r with
  | ok a => exact (hf a g' s').trans hx'
  | exn e => exact hx'
  | cancel => exact hx'
  | fuelOut => exact hx'

lemma ef_spawnSub (sub : SubRunner) (defn : WorkflowDefinition) (wid input : String) :
    EstFixed (spawnSub sub defn wid input) := by
  intro g s
  show ((match sub defn wid input g with | (r, g', _) => (r, g', s)).2.2) = s
  rcases sub defn wid input g with ⟨r, g', s'⟩
  rfl

lemma ef_doBroadcast (env : Env) (e : Event) : EstFixed (doBroadcast env e) := by
  unfold doBroadcast
  cases env.bc with
  | none => exact ef_pure _
  | some f =>
    refine ef_bind ef_awaitPoint (fun _ => ?_)
    by_cases hf : f e
    · rw [if_pos hf]; exact ef_modifyGlob _
    · rw [if_neg hf]; exact ef_raise _

lemma ef_emit (env : Env) (wid : String) (full : Bool) : EstFixed (emit env wid full) := by
  unfold emit
  cases env.bc with
  | none => exact ef_pure _
  | some f =>
    simp only [M_bind_def]
    exact ef_bind ef_getEst (fun _ => ef_doBroadcast env _)

/-- Status discipline between an entry and an exit engine state: the skip
set only grows, and a node's status entry is unchanged unless the node is
owned by a loop driver at exit or its status was set to `done`. -/
def SDRel (s s' : Est) : Prop :=
  (∀ x ∈ s.skipNodes, x ∈ s'.skipNodes) ∧
  (∀ nid, aget s'.statuses nid = aget s.statuses nid ∨ nid ∈ s'.skipNodes ∨
    aget s'.statuses nid = some NStatus.done ∨
    aget s'.statuses nid = some NStatus.error)

lemma sdrel_refl (s : Est) : SDRel s s := ⟨fun _ hx => hx, fun _ => Or.inl rfl⟩

lemma sdrel_same {s s' : Est} (h1 : s'.skipNodes = s.skipNodes)
    (h2 : s'.statuses = s.statuses) : SDRel s s' :=
  ⟨fun x hx => h1 ▸ hx, fun nid => Or.inl (by rw [h2])⟩

lemma sdrel_trans {s1 s2 s3 : Est} (h12 : SDRel s1 s2) (h23 : SDRel s2 s3) : SDRel s1 s3 := by
  refine ⟨fun x hx => h23.1 x (h12.1 x hx), fun nid => ?_⟩
  rcases h23.2 nid with h | h | h | h
  · rw [h]
    rcases h12.2 nid with h' | h' | h' | h'
    · exact Or.inl h'
    · exact Or.inr (Or.inl (h23.1 nid h'))
    · exact Or.inr (Or.inr (Or.inl h'))
    · exact Or.inr (Or.inr (Or.inr h'))
  · exact Or.inr (Or.inl h)
  · exact Or.inr (Or.inr (Or.inl h))
  · exact Or.inr (Or.inr (Or.inr h))

/-- Status discipline of a computation, relative to its entry state. -/
def SDisc {α : Type} (m : M α) : Prop := ∀ g s, SDRel s ((m g s).2.2)

lemma sd_of_ef {α : Type} {m : M α} (h : EstFixed m) : SDisc m := by
  intro g s
  rw [h g s]
  exact sdrel_refl s

lemma sd_pure {α : Type} (a : α) : SDisc (M.pure a) := sd_of_ef (ef_pure a)

lemma sd_raise {α : Type} (e : String) : SDisc (M.raise e : M α) := sd_of_ef (ef_raise e)

lemma sd_noFuel {α : Type} : SDisc (M.noFuel : M α) := sd_of_ef ef_noFuel

lemma sd_getEst : SDisc getEst := sd_of_ef ef_getEst

lemma sd_getGlob : SDisc getGlob := sd_of_ef ef_getGlob

lemma sd_modifyGlob (f : Glob → Glob) : SDisc (modifyGlob f) := sd_of_ef (ef_modifyGlob f)

lemma sd_readClock (env : Env) : SDisc (readClock env) := sd_of_ef (ef_readClock env)

lemma sd_awaitPoint : SDisc awaitPoint := sd_of_ef ef_awaitPoint

lemma sd_ofExcept {α : Type} (x : Except String α) : SDisc (ofExcept x) :=
  sd_of_ef (ef_ofExcept x)

lemma sd_modifyEst (f : Est → Est) (h : ∀ s, SDRel s (f s)) : SDisc (modifyEst f) :=
  fun _ s => h s

lemma sd_bind {α β : Type} {x : M α} {f : α → M β} (hx : SDisc x)
    (hf : ∀ a, SDisc (f a)) : SDisc (M.bind x f) := by
  intro g s
  have hx' := hx g s
  unfold M.bind
  rcases hres : x g s with ⟨r, g', s'⟩
  rw [hres] at hx'
  cases r with
  | ok a => exact sdrel_trans hx' (hf a g' s')
  | exn e => exact hx'
  | cancel => exact hx'
  | fuelOut => exact hx'

lemma sd_tryE {α : Type} {x : M α} {h : String → M α} (hx : SDisc x)
    (hh : ∀ e, SDisc (h e)) : SDisc (tryE x h) := by
  intro g s
  have hx' := hx g s
  unfold tryE
  rcases hres : x g s with ⟨r, g', s'⟩
  rw [hres] at hx'
  cases r with
  | ok a => exact hx'
  | exn e => exact sdrel_trans hx' (hh e g' s')
  | cancel => exact hx'
  | fuelOut => exact hx'

lemma sd_spawnSub (sub : SubRunner) (defn : WorkflowDefinition) (wid input : String) :
    SDisc (spawnSub sub defn wid input) := sd_of_ef (ef_spawnSub sub defn wid input)

lemma sd_doBroadcast (env : Env) (e : Event) : SDisc (doBroadcast env e) :=
  sd_of_ef (ef_doBroadcast env e)

lemma sd_emit (env : Env) (wid : String) (full : Bool) : SDisc (emit env wid full) :=
  sd_of_ef (ef_emit env wid full)

lemma sd_streamBroadcast (env : Env) (wid nid chunk part : String) :
    SDisc (streamBroadcast env wid nid chunk part) := by
  unfold streamBroadcast
  cases env.bc with
  | none => exact sd_pure _
  | some f =>
    simp only [M_bind_def]
    refine sd_bind (sd_readClock env) (fun now => sd_bind sd_getEst (fun s => ?_))
    split
    · exact sd_pure _
    · exact sd_bind (sd_modifyEst _ (fun s => sdrel_same rfl rfl)) (fun _ =>
        sd_doBroadcast env _)

lemma sd_runConditionNode (env : Env) (eng : Engine) (node : WorkflowNode) (t : String) :
    SDisc (runConditionNode env eng node t) := by
  unfold runConditionNode
  simp only [M_bind_def]
  exact sd_bind (sd_ofExcept _) (fun _ =>
    sd_bind (sd_modifyEst _ (fun s => sdrel_same rfl rfl)) (fun _ => sd_pure _))

lemma sd_runSwitchNode (env : Env) (eng : Engine) (node : WorkflowNode) (t : String) :
    SDisc (runSwitchNode env eng node t) := by
  unfold runSwitchNode
  simp only [M_bind_def]
  exact sd_bind (sd_modifyEst _ (fun s => sdrel_same rfl rfl)) (fun _ => sd_pure _)

lemma sd_runAggregatorNode (eng : Engine) (node : WorkflowNode) :
    SDisc (runAggregatorNode eng node) := by
  unfold runAggregatorNode
  simp only [M_bind_def]
  refine sd_bind sd_getEst (fun s => sd_bind (sd_ofExcept _) (fun sep => ?_))
  split
  · exact sd_pure _
  · split
    · exact sd_pure _
    · split
      · exact sd_bind (sd_ofExcept _) (fun _ => sd_pure _)
      · exact sd_pure _

lemma sd_runDelayNode (env : Env) (wid : String) (node : WorkflowNode) (t : String) :
    SDisc (runDelayNode env wid node t) := by
  unfold runDelayNode
  simp only [M_bind_def]
  refine sd_bind (sd_ofExcept _) (fun d => ?_)
  refine sd_bind ?_ (fun _ => sd_bind sd_awaitPoint (fun _ => sd_pure _))
  cases env.bc with
  | none => exact sd_pure _
  | some f => exact sd_doBroadcast env _

lemma sd_callTool (env : Env) (name t : String) (config : List (String × DVal)) :
    SDisc (callTool env name t config) := by
  unfold callTool
  simp only [M_bind_def]
  exact sd_bind sd_awaitPoint (fun _ => sd_bind sd_getGlob (fun g =>
    sd_bind (sd_modifyGlob _) (fun _ => sd_ofExcept _)))

lemma sd_runDatabaseInput (env : Env) (node : WorkflowNode) :
    SDisc (runDatabaseInput env node) := by
  unfold runDatabaseInput
  dsimp only
  split <;> (try split) <;>
    first
      | exact sd_pure _
      | exact sd_tryE (sd_pure _) (fun e => sd_pure _)
      | exact sd_tryE (sd_callTool env _ _ _) (fun e => sd_pure _)

lemma sd_runInputNode (env : Env) (node : WorkflowNode) (t : String) :
    SDisc (runInputNode env node t) := by
  unfold runInputNode
  dsimp only
  simp only [M_bind_def]
  split
  · exact sd_runDatabaseInput env node
  · refine sd_bind ?_ (fun resolved => ?_)
    · split
      · exact sd_bind sd_awaitPoint (fun _ => sd_pure _)
      · exact sd_pure _
    · cases resolved with
      | some path => exact sd_pure _
      | none =>
        split <;> (try split) <;> (try split) <;> (try split) <;> exact sd_pure _

lemma sd_streamChunksGo (env : Env) (wid nid : String) (cs : List String) :
    ∀ acc, SDisc (streamChunksGo env wid nid cs acc) := by
  induction cs with
  | nil => intro acc; exact sd_pure _
  | cons c rest ih =>
    intro acc
    unfold streamChunksGo
    simp only [M_bind_def]
    exact sd_bind sd_awaitPoint (fun _ =>
      sd_bind (sd_streamBroadcast env wid nid c _) (fun _ => ih _))

lemma sd_runAgentWithModel (env : Env) (wid : String) (node : WorkflowNode)
    (t model sp : String) (temperature maxTokens : DVal) :
    SDisc (runAgentWithModel env wid node t model sp temperature maxTokens) := by
  unfold runAgentWithModel
  simp only [M_bind_def]
  refine sd_bind (sd_ofExcept _) (fun _ => sd_bind (sd_ofExcept _) (fun _ =>
    sd_bind (sd_readClock env) (fun _ => sd_bind sd_awaitPoint (fun _ =>
    sd_bind sd_getGlob (fun g => sd_bind (sd_modifyGlob _) (fun _ => ?_))))))
  split
  · exact sd_raise _
  · refine sd_bind (sd_streamChunksGo env wid node.id _ _) (fun full =>
      sd_bind (sd_readClock env) (fun _ => sd_bind ?_ (fun _ => sd_pure _)))
    cases env.bc with
    | none => exact sd_pure _
    | some f =>
      simp only [M_bind_def]
      exact sd_bind (sd_modifyEst _ (fun s => sdrel_same rfl rfl)) (fun _ =>
        sd_streamBroadcast env wid node.id _ _)

lemma sd_runAgentNode (env : Env) (wid : String) (node : WorkflowNode) (t : String) :
    SDisc (runAgentNode env wid node t) := by
  unfold runAgentNode
  simp only [M_bind_def]
  refine sd_tryE (sd_runAgentWithModel env wid node _ _ _ _ _) (fun primaryErr => ?_)
  split
  · refine sd_bind ?_ (fun _ => sd_runAgentWithModel env wid node _ _ _ _ _)
    cases env.bc with
    | none => exact sd_pure _
    | some f => exact sd_doBroadcast env _
  · exact sd_raise _

lemma sd_chunkStreamGo (env : Env) (wid nid separator : String) (older : List String)
    (ts : List String) : ∀ acc, SDisc (chunkStreamGo env wid nid separator older ts acc) := by
  induction ts with
  | nil => intro acc; exact sd_pure _
  | cons c rest ih =>
    intro acc
    unfold chunkStreamGo
    simp only [M_bind_def]
    exact sd_bind sd_awaitPoint (fun _ =>
      sd_bind (sd_streamBroadcast env wid nid c _) (fun _ => ih _))

lemma sd_chunkLoopGo (env : Env) (wid nid model sp separator : String) (total : Nat)
    (chunks : List String) :
    ∀ i acc, SDisc (chunkLoopGo env wid nid model sp separator total chunks i acc) := by
  induction chunks with
  | nil => intro i acc; exact sd_pure _
  | cons c rest ih =>
    intro i acc
    unfold chunkLoopGo
    simp only [M_bind_def]
    refine sd_bind sd_awaitPoint (fun _ => sd_bind sd_getGlob (fun g =>
      sd_bind (sd_modifyGlob _) (fun _ => ?_)))
    split
    · exact sd_raise _
    · refine sd_bind (sd_chunkStreamGo env wid nid separator acc _ _) (fun content =>
        sd_bind ?_ (fun _ => ih _ _))
      cases env.bc with
      | none => exact sd_pure _
      | some f => exact sd_doBroadcast env _

lemma sd_runChunkerNode (env : Env) (wid : String) (node : WorkflowNode) (t : String)
    (gas : Nat) : SDisc (runChunkerNode env wid node t gas) := by
  unfold runChunkerNode
  simp only [M_bind_def]
  refine sd_bind (sd_ofExcept _) (fun _ => sd_bind (sd_ofExcept _) (fun _ =>
    sd_bind (sd_ofExcept _) (fun separator => ?_)))
  split
  · exact sd_noFuel
  · split
    · exact sd_pure _
    · exact sd_bind (sd_chunkLoopGo env wid node.id _ _ separator _ _ _ _)
        (fun _ => sd_pure _)

lemma sd_runToolNode (env : Env) (node : WorkflowNode) (t : String) :
    SDisc (runToolNode env node t) := by
  unfold runToolNode
  simp only [M_bind_def]
  split
  · exact sd_pure _
  · split
    · exact sd_bind (sd_ofExcept _) (fun _ => sd_callTool env _ _ _)
    · exact sd_bind (sd_ofExcept _) (fun _ => sd_callTool env _ _ _)

lemma sd_internalLoopGo (env : Env) (wid nid model rp : String) (stopCondV : DVal)
    (exitType initialInput : String) (n : Nat) :
    ∀ current genContent,
      SDisc (internalLoopGo env wid nid model rp stopCondV exitType initialInput
        n current genContent) := by
  induction n with
  | zero => intro c gc; exact sd_pure _
  | succ k ih =>
    intro c gc
    unfold internalLoopGo
    simp only [M_bind_def]
    refine sd_bind sd_awaitPoint (fun _ => sd_bind sd_getGlob (fun g =>
      sd_bind (sd_modifyGlob _) (fun _ => ?_)))
    split
    · exact sd_raise _
    · refine sd_bind (sd_streamChunksGo env wid nid _ _) (fun genContent =>
        sd_bind sd_awaitPoint (fun _ => sd_bind sd_getGlob (fun g2 =>
        sd_bind (sd_modifyGlob _) (fun _ => ?_))))
      split
      · exact sd_raise _
      · refine sd_bind ?_ (fun shouldStop => ?_)
        · split
          · exact sd_bind (sd_ofExcept _) (fun _ => sd_pure _)
          · exact sd_pure _
        · split
          · exact sd_pure _
          · exact ih _ _

lemma bind_modifyEst {β : Type} (h : Est → Est) (f : Unit → M β) (g : Glob) (s : Est) :
    M.bind (modifyEst h) f g s = f () g (h s) := rfl

lemma sdrel_running_fold (bodyIds : List String) (s : Est)
    (hB : ∀ b ∈ bodyIds, b ∈ s.skipNodes) :
    SDRel s { s with statuses := bodyIds.foldl (fun m b => aset m b .running) s.statuses } := by
  refine ⟨fun x hx => hx, fun nid => ?_⟩
  by_cases h : nid ∈ bodyIds
  · exact Or.inr (Or.inl (hB nid h))
  · left
    show aget (bodyIds.foldl (fun m b => aset m b NStatus.running) s.statuses) nid = _
    rw [aget_foldl_aset, if_neg h]

lemma sdrel_done_fold (bodyIds : List String) (s : Est) :
    SDRel s { s with statuses := bodyIds.foldl (fun m b => aset m b .done) s.statuses } := by
  refine ⟨fun x hx => hx, fun nid => ?_⟩
  by_cases h : nid ∈ bodyIds
  · right; right; left
    show aget (bodyIds.foldl (fun m b => aset m b NStatus.done) s.statuses) nid = _
    rw [aget_foldl_aset, if_pos h]
  · left
    show aget (bodyIds.foldl (fun m b => aset m b NStatus.done) s.statuses) nid = _
    rw [aget_foldl_aset, if_neg h]

lemma sdrel_results_fold (results : List (String × String)) :
    ∀ s : Est, SDRel s (results.foldl (fun st p =>
      { st with results := aset st.results p.1 p.2,
                stResults := aset st.stResults p.1 p.2,
                statuses := aset st.statuses p.1 .done }) s) := by
  induction results with
  | nil => intro s; exact sdrel_refl s
  | cons p rest ih =>
    intro s
    rw [List.foldl_cons]
    refine sdrel_trans ?_ (ih _)
    refine ⟨fun x hx => hx, fun nid => ?_⟩
    by_cases h : nid = p.1
    · right; right; left
      show aget (aset s.statuses p.1 NStatus.done) nid = _
      rw [aget_aset, if_pos h]
    · left
      show aget (aset s.statuses p.1 NStatus.done) nid = _
      rw [aget_aset, if_neg h]

lemma skip_results_fold (results : List (String × String)) :
    ∀ s : Est, (results.foldl (fun st p =>
      { st with results := aset st.results p.1 p.2,
                stResults := aset st.stResults p.1 p.2,
                statuses := aset st.statuses p.1 .done }) s).skipNodes = s.skipNodes := by
  induction results with
  | nil => intro s; rfl
  | cons p rest ih => intro s; rw [List.foldl_cons, ih]

lemma mem_skipAdd {l new : List String} {b : String} (hb : b ∈ new) :
    b ∈ l ++ new.filter (fun x => x ∉ l) := by
  by_cases h : b ∈ l
  · exact List.mem_append_left _ h
  · refine List.mem_append_right _ ?_
    rw [List.mem_filter]
    exact ⟨hb, by simpa using h⟩

/-- Bind composition tracking both the status discipline and
preservation of the skip set. -/
lemma sdskip_bind {α β : Type} (x : M α) (f : α → M β) (g : Glob) (s : Est)
    (hx : SDRel s ((x g s).2.2) ∧ ((x g s).2.2).skipNodes = s.skipNodes)
    (hf : ∀ a g1 s1, x g s = (.ok a, g1, s1) → s1.skipNodes = s.skipNodes →
      SDRel s1 ((f a g1 s1).2.2) ∧ ((f a g1 s1).2.2).skipNodes = s1.skipNodes) :
    SDRel s ((M.bind x f g s).2.2) ∧ ((M.bind x f g s).2.2).skipNodes = s.skipNodes := by
  rcases hres : x g s with ⟨r, g1, s1⟩
  have hx' := hx
  rw [hres] at hx'
  unfold M.bind
  rw [hres]
  cases r with
  | ok a =>
    have h2 := hf a g1 s1 hres hx'.2
    exact ⟨sdrel_trans hx'.1 h2.1, h2.2.trans hx'.2⟩
  | exn e => exact hx'
  | cancel => exact hx'
  | fuelOut => exact hx'

lemma sdskip_of_ef {α : Type} {m : M α} (h : EstFixed m) (g : Glob) (s : Est) :
    SDRel s ((m g s).2.2) ∧ ((m g s).2.2).skipNodes = s.skipNodes := by
  rw [h g s]
  exact ⟨sdrel_refl s, rfl⟩

/-- Iterations of the graph loop respect the status discipline and leave
the skip set unchanged, provided the body is already skip-marked. -/
lemma sd_runGraphLoopIters (env : Env) (sub : SubRunner) (eng : Engine) (nid : String)
    (subDef : WorkflowDefinition) (bodyIds : List String) (exitId : String) (mi : Int)
    (et : String) (ev : DVal) (r : Nat) :
    ∀ (i : Nat) (ci : String) (tr : List String) (g : Glob) (s : Est),
      (∀ b ∈ bodyIds, b ∈ s.skipNodes) →
      SDRel s ((runGraphLoopIters env sub eng nid subDef bodyIds exitId mi et ev
          r i ci tr g s).2.2) ∧
      ((runGraphLoopIters env sub eng nid subDef bodyIds exitId mi et ev
          r i ci tr g s).2.2).skipNodes = s.skipNodes := by
  induction r with
  | zero => intro i ci tr g s hB; exact ⟨sdrel_refl s, rfl⟩
  | succ k ih =>
    intro i ci tr g s hB
    unfold runGraphLoopIters
    simp only [M_bind_def]
    refine sdskip_bind _ _ g s ?_ ?_
    · cases env.bc with
      | none => exact sdskip_of_ef (ef_pure _) g s
      | some f => exact sdskip_of_ef (ef_doBroadcast env _) g s
    · intro a1 g1 s1 h1 hsk1
      have hB1 : ∀ b ∈ bodyIds, b ∈ s1.skipNodes := fun b hb => by
        rw [hsk1]; exact hB b hb
      refine sdskip_bind _ _ g1 s1 ⟨sdrel_running_fold bodyIds s1 hB1, rfl⟩ ?_
      intro a2 g2 s2 h2 hsk2
      have hB2 : ∀ b ∈ bodyIds, b ∈ s2.skipNodes := fun b hb => by
        rw [hsk2]; exact hB1 b hb
      refine sdskip_bind _ _ g2 s2 (sdskip_of_ef (ef_emit env eng.wid false) g2 s2) ?_
      intro a3 g3 s3 h3 hsk3
      have hB3 : ∀ b ∈ bodyIds, b ∈ s3.skipNodes := fun b hb => by
        rw [hsk3]; exact hB2 b hb
      refine sdskip_bind _ _ g3 s3 (sdskip_of_ef (ef_spawnSub sub subDef eng.wid ci) g3 s3) ?_
      intro results g4 s4 h4 hsk4
      have hB4 : ∀ b ∈ bodyIds, b ∈ s4.skipNodes := fun b hb => by
        rw [hsk4]; exact hB3 b hb
      refine sdskip_bind _ _ g4 s4 ⟨sdrel_results_fold results s4, skip_results_fold results s4⟩ ?_
      intro a5 g5 s5 h5 hsk5
      have hB5 : ∀ b ∈ bodyIds, b ∈ s5.skipNodes := fun b hb => by
        rw [hsk5]; exact hB4 b hb
      refine sdskip_bind _ _ g5 s5 (sdskip_of_ef (ef_emit env eng.wid false) g5 s5) ?_
      intro a6 g6 s6 h6 hsk6
      have hB6 : ∀ b ∈ bodyIds, b ∈ s6.skipNodes := fun b hb => by
        rw [hsk6]; exact hB5 b hb
      refine sdskip_bind _ _ g6 s6 (sdskip_of_ef (ef_ofExcept _) g6 s6) ?_
      intro stop g7 s7 h7 hsk7
      have hB7 : ∀ b ∈ bodyIds, b ∈ s7.skipNodes := fun b hb => by
        rw [hsk7]; exact hB6 b hb
      split
      · exact ⟨sdrel_refl s7, rfl⟩
      · exact ih (i + 1) _ _ g7 s7 hB7

lemma sd_skipAdd_seq {β : Type} (new : List String) (body : Unit → M β)
    (hbody : ∀ g s, (∀ b ∈ new, b ∈ s.skipNodes) → SDRel s ((body () g s).2.2)) :
    SDisc (M.bind (modifyEst (fun s =>
      { s with skipNodes := s.skipNodes ++ new.filter (fun b => b ∉ s.skipNodes) })) body) := by
  intro g s
  rw [bind_modifyEst]
  have hmid : SDRel s { s with skipNodes := s.skipNodes ++ new.filter (fun b => b ∉ s.skipNodes) } :=
    ⟨fun x hx => List.mem_append_left _ hx, fun nid => Or.inl rfl⟩
  exact sdrel_trans hmid (hbody g _ (fun b hb => mem_skipAdd hb))

lemma sd_runGraphLoop (env : Env) (sub : SubRunner) (eng : Engine) (node : WorkflowNode)
    (t : String) (backEdgesToNode : List WorkflowEdge) (maxIter : Int)
    (exitType : String) (exitValueV : DVal) :
    SDisc (runGraphLoop env sub eng node t backEdgesToNode maxIter exitType exitValueV) := by
  unfold runGraphLoop
  simp only [M_bind_def]
  split
  · exact sd_pure _
  · refine sd_skipAdd_seq _ _ ?_
    intro g s hB
    refine (sdskip_bind _ _ g s (sd_runGraphLoopIters env sub eng node.id _ _ _ maxIter
      exitType exitValueV maxIter.toNat 0 t [] g s hB) ?_).1
    intro transcript g1 s1 h1 hsk1
    rw [bind_modifyEst]
    exact ⟨sdrel_done_fold _ s1, rfl⟩

lemma sd_runLoopNode (env : Env) (sub : SubRunner) (eng : Engine) (node : WorkflowNode)
    (t : String) : SDisc (runLoopNode env sub eng node t) := by
  unfold runLoopNode
  simp only [M_bind_def]
  refine sd_bind (sd_ofExcept _) (fun maxIter => ?_)
  split
  · exact sd_runGraphLoop env sub eng node t _ maxIter _ _
  · exact sd_internalLoopGo env eng.wid node.id _ _ _ _ t maxIter.toNat t ""

lemma sd_runMetaAgentNode (env : Env) (sub : SubRunner) (eng : Engine)
    (node : WorkflowNode) (t : String) :
    SDisc (runMetaAgentNode env sub eng node t) := by
  unfold runMetaAgentNode
  simp only [M_bind_def]
  split
  · exact sd_pure _
  · split
    · exact sd_pure _
    · refine sd_bind (sd_ofExcept _) (fun maxDepth =>
        sd_bind (sd_ofExcept _) (fun currentDepth => ?_))
      split
      · exact sd_pure _
      · split <;>
          first
            | exact sd_bind (sd_spawnSub sub _ _ t) (fun _ => sd_pure _)
            | exact sd_raise _
            | exact sd_pure _

lemma sd_executeNode (env : Env) (sub : SubRunner) (gas : Nat) (eng : Engine)
    (node : WorkflowNode) (input : String) :
    SDisc (executeNode env sub gas eng node input) := by
  unfold executeNode
  simp only [M_bind_def]
  refine sd_bind sd_getEst (fun s => ?_)
  cases node.type with
  | agent => exact sd_runAgentNode env eng.wid node _
  | tool => exact sd_runToolNode env node _
  | condition => exact sd_runConditionNode env eng node _
  | input => exact sd_runInputNode env node _
  | output => exact sd_pure _
  | loop => exact sd_runLoopNode env sub eng node _
  | aggregator => exact sd_runAggregatorNode eng node
  | meta_agent => exact sd_runMetaAgentNode env sub eng node _
  | chunker => exact sd_runChunkerNode env eng.wid node _ gas

lemma sd_attemptLoop (env : Env) (sub : SubRunner) (gas : Nat) (eng : Engine)
    (node : WorkflowNode) (input onError fallbackValue : String) (k : Nat) :
    SDisc (attemptLoop env sub gas eng node input onError fallbackValue k) := by
  induction k with
  | zero =>
    unfold attemptLoop
    refine sd_tryE (sd_executeNode env sub gas eng node input) (fun e => ?_)
    split
    · exact sd_pure _
    · split
      · exact sd_pure _
      · exact sd_raise _
  | succ k ih =>
    unfold attemptLoop
    simp only [M_bind_def]
    exact sd_tryE (sd_executeNode env sub gas eng node input) (fun _ =>
      sd_bind sd_awaitPoint (fun _ => ih))

lemma sd_executeWithRetry (env : Env) (sub : SubRunner) (gas : Nat) (eng : Engine)
    (node : WorkflowNode) (input : String) :
    SDisc (executeWithRetry env sub gas eng node input) := by
  unfold executeWithRetry
  simp only [M_bind_def]
  refine sd_bind (sd_ofExcept _) (fun retryCount => sd_bind (sd_ofExcept _) (fun _ => ?_))
  split
  · split
    · exact sd_pure _
    · split
      · exact sd_pure _
      · exact sd_raise _
  · exact sd_attemptLoop env sub gas eng node input _ _ _

lemma sd_runTasks (env : Env) (sub : SubRunner) (gas : Nat) (eng : Engine) (input : String)
    (nids : List String) : SDisc (runTasks env sub gas eng input nids) := by
  induction nids with
  | nil => exact sd_pure _
  | cons nid rest ih =>
    unfold runTasks
    simp only [M_bind_def]
    refine sd_bind (sd_tryE ?_ (fun e => sd_pure _)) (fun o =>
      sd_bind ih (fun os => sd_pure _))
    refine sd_bind ?_ (fun node =>
      sd_bind (sd_executeWithRetry env sub gas eng node input) (fun r => sd_pure _))
    cases aget eng.nodesMap nid with
    | none => exact sd_raise _
    | some n => exact sd_pure _

/-- `applySetVariable` never changes statuses or the skip set. -/
lemma applySetVariable_frame (eng : Engine) (nid res : String) (g : Glob) (s : Est) :
    (((applySetVariable eng nid res) g s).2.2).statuses = s.statuses ∧
    (((applySetVariable eng nid res) g s).2.2).skipNodes = s.skipNodes := by
  unfold applySetVariable
  cases aget eng.nodesMap nid with
  | none => exact ⟨rfl, rfl⟩
  | some node =>
    simp only [M_bind_def]
    cases dgetD node.data "setVariable" (DVal.vstr "") with
    | vstr vn =>
      dsimp only
      by_cases h : vn ≠ ""
      · rw [if_pos h]; exact ⟨rfl, rfl⟩
      · rw [if_neg h]; exact ⟨rfl, rfl⟩
    | vint k => exact ⟨rfl, rfl⟩
    | vrat q => exact ⟨rfl, rfl⟩
    | vbool b => exact ⟨rfl, rfl⟩
    | vdict d => exact ⟨rfl, rfl⟩
    | vdef d => exact ⟨rfl, rfl⟩

lemma triple_eq {α : Type} {r1 r2 : Res α} {g1 g2 : Glob} {s1 s2 : Est}
    (h : (r1, g1, s1) = (r2, g2, s2)) : r1 = r2 ∧ g1 = g2 ∧ s1 = s2 := by
  injection h with h1 h2
  injection h2 with h2a h2b
  exact ⟨h1, h2a, h2b⟩

lemma tryE_bind_raise {α β : Type} (e : String) (f : α → M β) (h : String → M β)
    (g : Glob) (s : Est) : tryE (M.bind (M.raise e) f) h g s = h e g s := rfl

/-- A successful gather returns one outcome per task in task order, and
an `inr` (success) outcome implies the node lookup succeeded inside the
task. -/
lemma runTasks_ok_shape (env : Env) (sub : SubRunner) (gas : Nat) (eng : Engine)
    (input : String) :
    ∀ (nids : List String) (g : Glob) (s : Est) (os : List (String × Sum String String))
      (g' : Glob) (s' : Est),
      runTasks env sub gas eng input nids g s = (.ok os, g', s') →
      os.map (·.1) = nids ∧
      ∀ p ∈ os, ∀ r, p.2 = Sum.inr r → aget eng.nodesMap p.1 ≠ none := by
  intro nids
  induction nids with
  | nil =>
    intro g s os g' s' h
    unfold runTasks M.pure at h
    obtain ⟨h1, -, -⟩ := triple_eq h
    obtain rfl : ([] : List (String × Sum String String)) = os := Res.ok.inj h1
    exact ⟨rfl, fun p hp => absurd hp (by simp)⟩
  | cons nid rest ih =>
    intro g s os g' s' h
    unfold runTasks at h
    simp only [M_bind_def, M_pure_def] at h
    rw [M.bind_eq_ok] at h
    obtain ⟨o, g1, s1, hhead, h⟩ := h
    rw [M.bind_eq_ok] at h
    obtain ⟨os2, g2, s2, hrest, hpure⟩ := h
    unfold M.pure at hpure
    obtain ⟨hp1, -, -⟩ := triple_eq hpure
    obtain rfl : (nid, o) :: os2 = os := Res.ok.inj hp1
    obtain ⟨ihmap, ihprop⟩ := ih g1 s1 os2 g2 s2 hrest
    refine ⟨by simp [ihmap], ?_⟩
    intro p hp r hpr
    rcases List.mem_cons.mp hp with hpeq | hptail
    · subst hpeq
      intro hlook
      rw [hlook] at hhead
      dsimp only at hhead
      rw [tryE_bind_raise] at hhead
      unfold M.pure at hhead
      obtain ⟨h1, -, -⟩ := triple_eq hhead
      obtain hx : Sum.inl ("KeyError: " ++ nid) = o := Res.ok.inj h1
      rw [← hx] at hpr
      exact absurd hpr (by simp)
    · exact ihprop p hptail r hpr

/-- A successful outcome application leaves the skip set unchanged,
touches no status outside the outcome keys, and leaves every outcome key
`done` or `error`. -/
lemma applyOutcomes_ok_statuses (eng : Engine) :
    ∀ (os : List (String × Sum String String)) (g : Glob) (s : Est) (b : Bool)
      (g' : Glob) (s' : Est),
      applyOutcomes eng os g s = (.ok b, g', s') →
      s'.skipNodes = s.skipNodes ∧
      (∀ nid, nid ∉ os.map (·.1) → aget s'.statuses nid = aget s.statuses nid) ∧
      (∀ nid, nid ∈ os.map (·.1) →
        aget s'.statuses nid = some NStatus.done ∨
        aget s'.statuses nid = some NStatus.error) := by
  intro os
  induction os with
  | nil =>
    intro g s b g' s' h
    unfold applyOutcomes M.pure at h
    obtain ⟨-, hg, hs⟩ := triple_eq h
    subst hg; subst hs
    exact ⟨rfl, fun nid _ => rfl, fun nid hmem => absurd hmem (by simp)⟩
  | cons p rest ih =>
    intro g s b g' s' h
    obtain ⟨pnid, po⟩ := p
    unfold applyOutcomes at h
    simp only [M_bind_def, M_pure_def] at h
    rw [M.bind_eq_ok] at h
    obtain ⟨u, g1, s1, hstep, h⟩ := h
    rw [M.bind_eq_ok] at h
    obtain ⟨bres, g2, s2, hrest, hpure⟩ := h
    unfold M.pure at hpure
    obtain ⟨-, hg, hs⟩ := triple_eq hpure
    subst hg; subst hs
    obtain ⟨ihskip, ihout, ihin⟩ := ih g1 s1 bres _ _ hrest
    cases po with
    | inl e =>
      dsimp only at hstep
      unfold modifyEst at hstep
      obtain ⟨-, -, hs1⟩ := triple_eq hstep
      subst hs1
      refine ⟨ihskip, ?_, ?_⟩
      · intro nid hnin
        have hh : nid ∉ List.map (·.1) rest := fun hx => hnin (by simp [hx])
        have hne : nid ≠ pnid := fun hx => hnin (by simp [hx])
        rw [ihout nid hh]
        show aget (aset s.statuses pnid NStatus.error) nid = _
        rw [aget_aset, if_neg hne]
      · intro nid hmem
        by_cases hr : nid ∈ List.map (·.1) rest
        · exact ihin nid hr
        · have hne : nid = pnid := by
            rcases (by simpa using hmem : nid = pnid ∨ nid ∈ List.map (·.1) rest) with h | h
            · exact h
            · exact absurd h hr
          subst hne
          rw [ihout nid hr]
          right
          show aget (aset s.statuses nid NStatus.error) nid = _
          rw [aget_aset, if_pos rfl]
    | inr r =>
      dsimp only at hstep
      rw [M.bind_eq_ok] at hstep
      obtain ⟨u0, ga, sa, hms, hasv⟩ := hstep
      unfold modifyEst at hms
      obtain ⟨-, -, hsa⟩ := triple_eq hms
      have hframe := applySetVariable_frame eng pnid r ga sa
      rw [hasv] at hframe
      obtain ⟨hst, hsk⟩ := hframe
      have hsk2 : sa.skipNodes = s.skipNodes := by rw [← hsa]
      refine ⟨ihskip.trans (hsk.trans hsk2), ?_, ?_⟩
      · intro nid hnin
        have hh : nid ∉ List.map (·.1) rest := fun hx => hnin (by simp [hx])
        have hne : nid ≠ pnid := fun hx => hnin (by simp [hx])
        rw [ihout nid hh, hst, ← hsa]
        show aget (aset s.statuses pnid NStatus.done) nid = _
        rw [aget_aset, if_neg hne]
      · intro nid hmem
        by_cases hr : nid ∈ List.map (·.1) rest
        · exact ihin nid hr
        · have hne : nid = pnid := by
            rcases (by simpa using hmem : nid = pnid ∨ nid ∈ List.map (·.1) rest) with h | h
            · exact h
            · exact absurd h hr
          subst hne
          rw [ihout nid hr, hst, ← hsa]
          left
          show aget (aset s.statuses nid NStatus.done) nid = _
          rw [aget_aset, if_pos rfl]

/-- The skip/blocked filter of one level: the skip set is unchanged, a
non-skipped level node either becomes active or is marked done
(all-incoming-blocked), and no status is touched except by marking
`done`. -/
lemma filterPhase_spec (env : Env) (eng : Engine) :
    ∀ (lvl : List String) (g : Glob) (s : Est) (acts : List String) (g1 : Glob) (s1 : Est),
      filterPhase env eng lvl g s = (.ok acts, g1, s1) →
      s1.skipNodes = s.skipNodes ∧
      (∀ nid, nid ∈ lvl → nid ∉ s.skipNodes →
        nid ∈ acts ∨ aget s1.statuses nid = some NStatus.done) ∧
      (∀ nid, aget s1.statuses nid = aget s.statuses nid ∨
        aget s1.statuses nid = some NStatus.done) := by
  intro lvl
  induction lvl with
  | nil =>
    intro g s acts g1 s1 h
    unfold filterPhase M.pure at h
    obtain ⟨-, -, hs⟩ := triple_eq h
    subst hs
    exact ⟨rfl, fun nid hmem => absurd hmem (by simp), fun nid => Or.inl rfl⟩
  | cons nid rest ih =>
    intro g s acts g1 s1 h
    unfold filterPhase at h
    simp only [M_bind_def, M_pure_def] at h
    rw [M.bind_eq_ok] at h
    obtain ⟨scur, ga, sa, hget, h⟩ := h
    unfold getEst at hget
    obtain ⟨hr, hg, hs⟩ := triple_eq hget
    obtain rfl : s = scur := Res.ok.inj hr
    subst hg; subst hs
    by_cases hskip : nid ∈ s.skipNodes
    · rw [if_pos hskip] at h
      obtain ⟨hsk, hmem, hstat⟩ := ih g s acts g1 s1 h
      refine ⟨hsk, ?_, hstat⟩
      intro x hx hnsk
      rcases List.mem_cons.mp hx with rfl | hx'
      · exact absurd hskip hnsk
      · exact hmem x hx' hnsk
    · rw [if_neg hskip] at h
      split at h
      · -- all-incoming-blocked branch
        rw [M.bind_eq_ok] at h
        obtain ⟨u0, gb, sb, hms, h⟩ := h
        unfold modifyEst at hms
        obtain ⟨-, -, hsb⟩ := triple_eq hms
        rw [M.bind_eq_ok] at h
        obtain ⟨u1, gc, sc, hemit, h⟩ := h
        have hee := ef_emit env eng.wid false gb sb
        rw [hemit] at hee
        have hee2 : sc = sb := hee
        subst hee2
        obtain ⟨hsk, hmem, hstat⟩ := ih gc sc acts g1 s1 h
        have hsbskip : sc.skipNodes = s.skipNodes := by rw [← hsb]
        refine ⟨hsk.trans hsbskip, ?_, ?_⟩
        · intro x hx hnsk
          rcases List.mem_cons.mp hx with rfl | hx'
          · right
            rcases hstat x with hu | hd
            · rw [hu, ← hsb]
              show aget (aset s.statuses x NStatus.done) x = _
              rw [aget_aset, if_pos rfl]
            · exact hd
          · refine hmem x hx' ?_
            rw [hsbskip]
            exact hnsk
        · intro x
          rcases hstat x with hu | hd
          · by_cases hxe : x = nid
            · subst hxe
              right
              rw [hu, ← hsb]
              show aget (aset s.statuses x NStatus.done) x = _
              rw [aget_aset, if_pos rfl]
            · left
              rw [hu, ← hsb]
              show aget (aset s.statuses nid NStatus.done) x = _
              rw [aget_aset, if_neg hxe]
          · exact Or.inr hd
      · -- active branch
        rw [M.bind_eq_ok] at h
        obtain ⟨acts2, gb, sb, hrest, hpure⟩ := h
        unfold M.pure at hpure
        obtain ⟨hr2, hg2, hs2⟩ := triple_eq hpure
        obtain rfl : nid :: acts2 = acts := Res.ok.inj hr2
        subst hg2; subst hs2
        obtain ⟨hsk, hmem, hstat⟩ := ih g s acts2 gb sb hrest
        refine ⟨hsk, ?_, hstat⟩
        intro x hx hnsk
        rcases List.mem_cons.mp hx with rfl | hx'
        · exact Or.inl (List.mem_cons_self _ _)
        · rcases hmem x hx' hnsk with ha | hd
          · exact Or.inl (List.mem_cons_of_mem _ ha)
          · exact Or.inr hd

lemma sdrel_of_run {α : Type} {m : M α} (hm : SDisc m) {g : Glob} {s : Est}
    {r : Res α} {g2 : Glob} {s2 : Est} (h : m g s = (r, g2, s2)) : SDRel s s2 := by
  have hh := hm g s
  rw [h] at hh
  exact hh

lemma sd_applySetVariable (eng : Engine) (nid res : String) :
    SDisc (applySetVariable eng nid res) := fun g s =>
  sdrel_same (applySetVariable_frame eng nid res g s).2 (applySetVariable_frame eng nid res g s).1

lemma tryE_eq_ok {α : Type} {x : M α} {h : String → M α} {g : Glob} {s : Est}
    {v : α} {g2 : Glob} {s2 : Est} (heq : tryE x h g s = (.ok v, g2, s2)) :
    x g s = (.ok v, g2, s2) ∨
    ∃ e ge se, x g s = (.exn e, ge, se) ∧ h e ge se = (.ok v, g2, s2) := by
  unfold tryE at heq
  rcases hres : x g s with ⟨r, gx, sx⟩
  rw [hres] at heq
  cases r with
  | ok a => exact Or.inl heq
  | exn e => exact Or.inr ⟨e, gx, sx, rfl, heq⟩
  | cancel => exact absurd (triple_eq heq).1 (by simp)
  | fuelOut => exact absurd (triple_eq heq).1 (by simp)

/-- C2 (amended): when one topological level is processed to a normal
return, every node of the level that was not already owned by a loop
driver on entry ends the level with status `done` or `error`, or has
been claimed by a loop driver (skip set) during the level.  Nodes of
levels the scheduler never reaches (after a fatal failure or a timeout)
keep their `waiting`/`running` statuses, per the counterexample. -/
theorem c2_level_terminal (env : Env) (sub : SubRunner) (gas : Nat)
    (eng : Engine) (input : String) (lvl : List String) (g : Glob) (s : Est)
    (b : Bool) (g2 : Glob) (s2 : Est)
    (hok : processOneLevel env sub gas eng input lvl g s = (.ok b, g2, s2)) :
    ∀ nid ∈ lvl, nid ∉ s.skipNodes →
      aget s2.statuses nid = some NStatus.done ∨
      aget s2.statuses nid = some NStatus.error ∨
      nid ∈ s2.skipNodes := by
  unfold processOneLevel at hok
  simp only [M_bind_def, M_pure_def] at hok
  rw [M.bind_eq_ok] at hok
  obtain ⟨acts, gf, sf, hfil, hok⟩ := hok
  obtain ⟨hfskip, hfmem, hfstat⟩ := filterPhase_spec env eng lvl g s acts gf sf hfil
  intro nid hmemL hnskip
  by_cases hemp : acts.isEmpty
  · rw [if_pos hemp] at hok
    unfold M.pure at hok
    obtain ⟨-, -, hse⟩ := triple_eq hok
    rcases hfmem nid hmemL hnskip with ha | hd
    · rw [List.isEmpty_iff] at hemp
      subst hemp
      exact absurd ha (by simp)
    · left
      rw [← hse]
      exact hd
  · rw [if_neg hemp] at hok
    rw [M.bind_eq_ok] at hok
    obtain ⟨u1, gm, sm, hrun, hok⟩ := hok
    unfold modifyEst at hrun
    obtain ⟨-, -, hsm⟩ := triple_eq hrun
    rw [M.bind_eq_ok] at hok
    obtain ⟨u2, ge2, se2, hemit, hok⟩ := hok
    have hee := ef_emit env eng.wid false gm sm
    rw [hemit] at hee
    have heq2 : se2 = sm := hee
    rw [M.bind_eq_ok] at hok
    obtain ⟨u3, ga2, sa2, hawait, hok⟩ := hok
    have hea := ef_awaitPoint ge2 se2
    rw [hawait] at hea
    have heq3 : sa2 = se2 := hea
    have hsmst : ∀ x, aget sa2.statuses x =
        if x ∈ acts then some NStatus.running else aget sf.statuses x := by
      intro x
      rw [heq3, heq2, ← hsm]
      show aget (acts.foldl (fun m n => aset m n NStatus.running) sf.statuses) x = _
      rw [aget_foldl_aset]
    have hsmskip : sa2.skipNodes = sf.skipNodes := by rw [heq3, heq2, ← hsm]
    cases acts with
    | nil => exact absurd rfl hemp
    | cons a tail =>
      cases tail with
      | nil =>
        dsimp only at hok
        by_cases hna : nid = a
        · subst hna
          rcases tryE_eq_ok hok with hokX | ⟨e, gx, sx, hxrun, hH⟩
          · rw [M.bind_eq_ok] at hokX
            obtain ⟨node, g4, s4, hlook, hokX⟩ := hokX
            rcases hl : aget eng.nodesMap nid with _ | n
            · rw [hl] at hlook
              dsimp only at hlook
              exact absurd (triple_eq hlook).1 (by simp)
            · rw [hl] at hlook
              dsimp only at hlook
              unfold M.pure at hlook
              obtain ⟨hr4, hg4, hs4⟩ := triple_eq hlook
              rw [M.bind_eq_ok] at hokX
              obtain ⟨result, g5, s5, hexec, hokX⟩ := hokX
              rw [M.bind_eq_ok] at hokX
              obtain ⟨u5, g6, s6, hmod, hokX⟩ := hokX
              unfold modifyEst at hmod
              obtain ⟨-, -, hs6⟩ := triple_eq hmod
              rw [M.bind_eq_ok] at hokX
              obtain ⟨u6, g7, s7, hasv, hokX⟩ := hokX
              have hfr := applySetVariable_frame eng nid result g6 s6
              rw [hasv] at hfr
              rw [M.bind_eq_ok] at hokX
              obtain ⟨u7, g8, s8, hemit2, hokX⟩ := hokX
              have hef2 := ef_emit env eng.wid false g7 s7
              rw [hemit2] at hef2
              unfold M.pure at hokX
              obtain ⟨-, -, hs2'⟩ := triple_eq hokX
              left
              rw [← hs2']
              have h8 : s8 = s7 := hef2
              rw [h8, hfr.1, ← hs6]
              show aget (aset s5.statuses nid NStatus.done) nid = _
              rw [aget_aset, if_pos rfl]
          · rw [M.bind_eq_ok] at hH
            obtain ⟨u5, g5, s5, hmod, hH⟩ := hH
            unfold modifyEst at hmod
            obtain ⟨-, -, hs5⟩ := triple_eq hmod
            rw [M.bind_eq_ok] at hH
            obtain ⟨u6, g6, s6, hemit2, hH⟩ := hH
            have hef2 := ef_emit env eng.wid false g5 s5
            rw [hemit2] at hef2
            unfold M.pure at hH
            obtain ⟨-, -, hs2'⟩ := triple_eq hH
            right; left
            rw [← hs2']
            have h6 : s6 = s5 := hef2
            rw [h6, ← hs5]
            show aget (aset sx.statuses nid NStatus.error) nid = _
            rw [aget_aset, if_pos rfl]
        · have hdisc : SDRel sa2 s2 := by
            refine sdrel_of_run (sd_tryE ?_ ?_) hok
            · refine sd_bind ?_ (fun node =>
                sd_bind (sd_executeWithRetry env sub gas eng node input) (fun result =>
                sd_bind (sd_modifyEst _ ?_) (fun _ =>
                sd_bind (sd_applySetVariable eng a result) (fun _ =>
                sd_bind (sd_emit env eng.wid false) (fun _ => sd_pure _)))))
              · cases aget eng.nodesMap a with
                | none => exact sd_raise _
                | some n => exact sd_pure _
              · intro s0
                refine ⟨fun x hx => hx, fun x => ?_⟩
                by_cases hxa : x = a
                · subst hxa
                  right; right; left
                  show aget (aset s0.statuses x NStatus.done) x = _
                  rw [aget_aset, if_pos rfl]
                · left
                  show aget (aset s0.statuses a NStatus.done) x = _
                  rw [aget_aset, if_neg hxa]
            · intro e
              refine sd_bind (sd_modifyEst _ ?_) (fun _ =>
                sd_bind (sd_emit env eng.wid false) (fun _ => sd_pure _))
              intro s0
              refine ⟨fun x hx => hx, fun x => ?_⟩
              by_cases hxa : x = a
              · subst hxa
                right; right; right
                show aget (aset s0.statuses x NStatus.error) x = _
                rw [aget_aset, if_pos rfl]
              · left
                show aget (aset s0.statuses a NStatus.error) x = _
                rw [aget_aset, if_neg hxa]
          rcases hfmem nid hmemL hnskip with ha | hd
          · have : nid = a := by simpa using ha
            exact absurd this hna
          · have hsmnid : aget sa2.statuses nid = some NStatus.done := by
              rw [hsmst nid, if_neg (by simpa using hna)]
              exact hd
            rcases hdisc.2 nid with hu | hsk | hdn | herr
            · left; rw [hu]; exact hsmnid
            · right; right; exact hsk
            · left; exact hdn
            · right; left; exact herr
      | cons b2 t2 =>
        dsimp only at hok
        rw [M.bind_eq_ok] at hok
        obtain ⟨os, g5, s5, hrt, hok⟩ := hok
        rw [M.bind_eq_ok] at hok
        obtain ⟨herrb, g6, s6, hao, hok⟩ := hok
        rw [M.bind_eq_ok] at hok
        obtain ⟨u6, g7, s7, hemit2, hok⟩ := hok
        have hef2 := ef_emit env eng.wid false g6 s6
        rw [hemit2] at hef2
        have heq7 : s7 = s6 := hef2
        obtain ⟨hmap, -⟩ := runTasks_ok_shape env sub gas eng input _ ga2 sa2 os g5 s5 hrt
        obtain ⟨haoskip, haoout, haoin⟩ := applyOutcomes_ok_statuses eng os g5 s5 herrb g6 s6 hao
        have hsd5 : SDRel sa2 s5 := sdrel_of_run (sd_runTasks env sub gas eng input _) hrt
        have hfin : s2.statuses = s6.statuses ∧ s2.skipNodes = s6.skipNodes := by
          cases herrb with
          | true =>
            rw [if_pos rfl] at hok
            rw [M.bind_eq_ok] at hok
            obtain ⟨u8, g8, s8, hmod, hok⟩ := hok
            unfold modifyEst at hmod
            obtain ⟨-, -, hs8⟩ := triple_eq hmod
            rw [M.bind_eq_ok] at hok
            obtain ⟨u9, g9, s9, hemit3, hok⟩ := hok
            have hef3 := ef_emit env eng.wid false g8 s8
            rw [hemit3] at hef3
            unfold M.pure at hok
            obtain ⟨-, -, hs2'⟩ := triple_eq hok
            have h9 : s9 = s8 := hef3
            rw [← hs2', h9, ← hs8, heq7]
            exact ⟨rfl, rfl⟩
          | false =>
            rw [if_neg (by simp)] at hok
            unfold M.pure at hok
            obtain ⟨-, -, hs2'⟩ := triple_eq hok
            rw [← hs2', heq7]
            exact ⟨rfl, rfl⟩
        by_cases hin : nid ∈ List.map (·.1) os
        · rcases haoin nid hin with hD | hE
          · left; rw [hfin.1]; exact hD
          · right; left; rw [hfin.1]; exact hE
        · have hnacts : nid ∉ (a :: b2 :: t2) := by rw [← hmap]; exact hin
          rcases hfmem nid hmemL hnskip with ha | hd
          · exact absurd ha hnacts
          · have hsmnid : aget sa2.statuses nid = some NStatus.done := by
              rw [hsmst nid, if_neg hnacts]
              exact hd
            rcases hsd5.2 nid with hu | hsk | hdn | herr2
            · left
              rw [hfin.1, haoout nid hin, hu]
              exact hsmnid
            · right; right
              rw [hfin.2, haoskip]
              exact hsk
            · left
              rw [hfin.1, haoout nid hin]
              exact hdn
            · right; left
              rw [hfin.1, haoout nid hin]
              exact herr2

/-- Engine state after processing the first level of the two-node chain
with the echo adapters (computed run outcome, used by the C2 witness). -/
def c2WitnessEst : Est :=
  { results := [("A", "hi")], stResults := [("A", "hi")],
    statuses := [("A", NStatus.done), ("B", NStatus.waiting)],
    pstatus := "pending", errMsg := none, blocked := [], skipNodes := [],
    vars := [], lastStream := [] }

/-- The C2 level theorem applied at a concrete level: processing the
first level of the two-node chain leaves its node `A` terminal. -/
theorem c2_level_terminal_witness :
    aget c2WitnessEst.statuses "A" = some NStatus.done ∨
    aget c2WitnessEst.statuses "A" = some NStatus.error ∨
    "A" ∈ c2WitnessEst.skipNodes :=
  c2_level_terminal envSilent (engineStep envSilent 3) 3 (mkEngine wfChain "w") "hi"
    ["A"] glob0 (initEst wfChain) false
    { events := [], agentCalls := 1, toolCalls := 0, timeIdx := 2, cancelIn := none }
    c2WitnessEst
    (by decide) "A" (by decide) (by decide)

/-! ### C1: exception-freedom and the terminal status event -/

/-- A computation that never returns a raised exception. -/
def NoExn {α : Type} (m : M α) : Prop := ∀ g s e, (m g s).1 ≠ Res.exn e

/-- A broadcast callback that never raises. -/
def BcTotal (env : Env) : Prop := ∀ f, env.bc = some f → ∀ ev, f ev = true

lemma ne_pure {α : Type} (a : α) : NoExn (M.pure a) := fun _ _ _ h => Res.noConfusion h

lemma ne_noFuel {α : Type} : NoExn (M.noFuel : M α) := fun _ _ _ h => Res.noConfusion h

lemma ne_getEst : NoExn getEst := fun _ _ _ h => Res.noConfusion h

lemma ne_getGlob : NoExn getGlob := fun _ _ _ h => Res.noConfusion h

lemma ne_modifyGlob (f : Glob → Glob) : NoExn (modifyGlob f) :=
  fun _ _ _ h => Res.noConfusion h

lemma ne_modifyEst (f : Est → Est) : NoExn (modifyEst f) :=
  fun _ _ _ h => Res.noConfusion h

lemma ne_readClock (env : Env) : NoExn (readClock env) :=
  fun _ _ _ h => Res.noConfusion h

lemma ne_awaitPoint : NoExn awaitPoint := by
  intro g s e
  unfold awaitPoint
  cases g.cancelIn with
  | none => exact fun h => Res.noConfusion h
  | some k => cases k <;> exact fun h => Res.noConfusion h

lemma ne_bind {α β : Type} {x : M α} {f : α → M β} (hx : NoExn x)
    (hf : ∀ a, NoExn (f a)) : NoExn (M.bind x f) := by
  intro g s e
  unfold M.bind
  rcases hres : x g s with ⟨r, g1, s1⟩
  cases r with
  | ok a => exact hf a g1 s1 e
  | exn e1 => exact fun _ => hx g s e1 (by rw [hres])
  | cancel => exact fun h => Res.noConfusion h
  | fuelOut => exact fun h => Res.noConfusion h

lemma ne_bind_strong {α β : Type} {x : M α} {f : α → M β} (hx : NoExn x)
    (hf : ∀ a g s g1 s1, x g s = (.ok a, g1, s1) → ∀ e2, (f a g1 s1).1 ≠ .exn e2) :
    NoExn (M.bind x f) := by
  intro g s e
  unfold M.bind
  rcases hres : x g s with ⟨r, g1, s1⟩
  cases r with
  | ok a => exact hf a g s g1 s1 hres e
  | exn e1 => exact fun _ => hx g s e1 (by rw [hres])
  | cancel => exact fun h => Res.noConfusion h
  | fuelOut => exact fun h => Res.noConfusion h

lemma ne_tryE {α : Type} {x : M α} {h : String → M α} (hh : ∀ e, NoExn (h e)) :
    NoExn (tryE x h) := by
  intro g s e
  unfold tryE
  rcases hres : x g s with ⟨r, g1, s1⟩
  cases r with
  | ok a => exact fun hc => Res.noConfusion hc
  | exn e1 => exact hh e1 g1 s1 e
  | cancel => exact fun hc => Res.noConfusion hc
  | fuelOut => exact fun hc => Res.noConfusion hc

lemma ne_doBroadcast (env : Env) (hbc : BcTotal env) (ev : Event) :
    NoExn (doBroadcast env ev) := by
  unfold doBroadcast
  cases h : env.bc with
  | none => exact ne_pure _
  | some f =>
    refine ne_bind ne_awaitPoint (fun _ => ?_)
    rw [hbc f h ev, if_pos rfl]
    exact ne_modifyGlob _

lemma ne_emit (env : Env) (hbc : BcTotal env) (wid : String) (full : Bool) :
    NoExn (emit env wid full) := by
  unfold emit
  cases h : env.bc with
  | none => exact ne_pure _
  | some f =>
    simp only [M_bind_def]
    refine ne_bind ne_getEst (fun s => ne_doBroadcast env hbc _)

lemma ne_applySetVariable (eng : Engine) (nid res : String)
    (hl : aget eng.nodesMap nid ≠ none) : NoExn (applySetVariable eng nid res) := by
  unfold applySetVariable
  rcases hn : aget eng.nodesMap nid with _ | node
  · exact absurd hn hl
  · simp only [M_bind_def]
    cases dgetD node.data "setVariable" (DVal.vstr "") with
    | vstr vn =>
      dsimp only
      by_cases h : vn ≠ ""
      · rw [if_pos h]; exact ne_modifyEst _
      · rw [if_neg h]; exact ne_pure _
    | vint k => exact ne_pure _
    | vrat q => exact ne_pure _
    | vbool b => exact ne_pure _
    | vdict d => exact ne_pure _
    | vdef d => exact ne_pure _

lemma ne_applyOutcomes (eng : Engine) :
    ∀ (os : List (String × Sum String String)),
      (∀ p ∈ os, ∀ r, p.2 = Sum.inr r → aget eng.nodesMap p.1 ≠ none) →
      NoExn (applyOutcomes eng os) := by
  intro os
  induction os with
  | nil => intro hpre; exact ne_pure _
  | cons p rest ih =>
    intro hpre
    obtain ⟨pnid, po⟩ := p
    unfold applyOutcomes
    simp only [M_bind_def, M_pure_def]
    refine ne_bind ?_ (fun _ =>
      ne_bind (ih (fun q hq => hpre q (List.mem_cons_of_mem _ hq))) (fun _ => ne_pure _))
    cases po with
    | inl e => exact ne_modifyEst _
    | inr r =>
      dsimp only
      refine ne_bind (ne_modifyEst _) (fun _ => ?_)
      exact ne_applySetVariable eng pnid r
        (hpre (pnid, Sum.inr r) (List.mem_cons_self _ _) r rfl)

lemma ne_filterPhase (env : Env) (hbc : BcTotal env) (eng : Engine) :
    ∀ (lvl : List String), NoExn (filterPhase env eng lvl) := by
  intro lvl
  induction lvl with
  | nil => exact ne_pure _
  | cons nid rest ih =>
    unfold filterPhase
    simp only [M_bind_def, M_pure_def]
    refine ne_bind ne_getEst (fun s => ?_)
    split
    · exact ih
    · split
      · exact ne_bind (ne_modifyEst _) (fun _ =>
          ne_bind (ne_emit env hbc eng.wid false) (fun _ => ih))
      · exact ne_bind ih (fun acts => ne_pure _)

lemma ne_runTasks (env : Env) (sub : SubRunner) (gas : Nat) (eng : Engine)
    (input : String) : ∀ (nids : List String), NoExn (runTasks env sub gas eng input nids) := by
  intro nids
  induction nids with
  | nil => exact ne_pure _
  | cons nid rest ih =>
    unfold runTasks
    simp only [M_bind_def, M_pure_def]
    exact ne_bind (ne_tryE (fun e => ne_pure _)) (fun o =>
      ne_bind ih (fun os => ne_pure _))

lemma ne_processOneLevel (env : Env) (hbc : BcTotal env) (sub : SubRunner) (gas : Nat)
    (eng : Engine) (input : String) (lvl : List String) :
    NoExn (processOneLevel env sub gas eng input lvl) := by
  unfold processOneLevel
  simp only [M_bind_def, M_pure_def]
  refine ne_bind (ne_filterPhase env hbc eng lvl) (fun acts => ?_)
  split
  · exact ne_pure _
  · refine ne_bind (ne_modifyEst _) (fun _ =>
      ne_bind (ne_emit env hbc eng.wid false) (fun _ =>
      ne_bind ne_awaitPoint (fun _ => ?_)))
    cases acts with
    | nil =>
      dsimp only
      refine ne_bind_strong (ne_runTasks env sub gas eng input _) ?_
      intro os g s g1 s1 hrt e2
      obtain ⟨-, hpre⟩ := runTasks_ok_shape env sub gas eng input _ g s os g1 s1 hrt
      refine (ne_bind (ne_applyOutcomes eng os hpre) (fun hasErr => ?_)) g1 s1 e2
      refine ne_bind (ne_emit env hbc eng.wid false) (fun _ => ?_)
      split
      · exact ne_bind (ne_modifyEst _) (fun _ =>
          ne_bind (ne_emit env hbc eng.wid false) (fun _ => ne_pure _))
      · exact ne_pure _
    | cons a tail =>
      cases tail with
      | nil =>
        dsimp only
        exact ne_tryE (fun e => ne_bind (ne_modifyEst _) (fun _ =>
          ne_bind (ne_emit env hbc eng.wid false) (fun _ => ne_pure _)))
      | cons b2 t2 =>
        dsimp only
        refine ne_bind_strong (ne_runTasks env sub gas eng input _) ?_
        intro os g s g1 s1 hrt e2
        obtain ⟨-, hpre⟩ := runTasks_ok_shape env sub gas eng input _ g s os g1 s1 hrt
        refine (ne_bind (ne_applyOutcomes eng os hpre) (fun hasErr => ?_)) g1 s1 e2
        refine ne_bind (ne_emit env hbc eng.wid false) (fun _ => ?_)
        split
        · exact ne_bind (ne_modifyEst _) (fun _ =>
            ne_bind (ne_emit env hbc eng.wid false) (fun _ => ne_pure _))
        · exact ne_pure _

lemma ne_processLevels (env : Env) (hbc : BcTotal env) (sub : SubRunner) (gas : Nat)
    (eng : Engine) (input : String) :
    ∀ (lvls : List (List String)), NoExn (processLevels env sub gas eng input lvls) := by
  intro lvls
  induction lvls with
  | nil => exact ne_pure _
  | cons lvl rest ih =>
    unfold processLevels
    simp only [M_bind_def, M_pure_def]
    refine ne_bind (ne_processOneLevel env hbc sub gas eng input lvl) (fun early => ?_)
    split
    · exact ne_pure _
    · exact ih

lemma ne_runInnerF (env : Env) (hbc : BcTotal env) (sub : SubRunner) (gas : Nat)
    (eng : Engine) (input : String) : NoExn (runInnerF env sub gas eng input) := by
  unfold runInnerF
  simp only [M_bind_def, M_pure_def]
  refine ne_bind (ne_modifyEst _) (fun _ =>
    ne_bind (ne_emit env hbc eng.wid false) (fun _ =>
    ne_bind (ne_processLevels env hbc sub gas eng input eng.levels) (fun early => ?_)))
  split
  · exact ne_bind ne_getEst (fun s => ne_pure _)
  · exact ne_bind (ne_modifyEst _) (fun _ =>
      ne_bind (ne_emit env hbc eng.wid true) (fun _ =>
      ne_bind ne_getEst (fun s => ne_pure _)))

lemma ne_engineStep (env : Env) (hbc : BcTotal env) :
    ∀ (fuel : Nat) (defn : WorkflowDefinition) (wid input : String) (g : Glob) (e : String),
      (engineStep env fuel defn wid input g).1 ≠ Res.exn e := by
  intro fuel defn wid input g e
  cases fuel with
  | zero => exact fun h => Res.noConfusion h
  | succ k =>
    show (runInnerF env (engineStep env k) k (mkEngine defn wid) input g
      (initEst defn)).1 ≠ Res.exn e
    exact ne_runInnerF env hbc (engineStep env k) k (mkEngine defn wid) input g
      (initEst defn) e

/-- The status event `_emit` builds from the current engine state. -/
def statusEvent (wid : String) (full : Bool) (s : Est) : Event :=
  .workflowStatus wid s.pstatus (s.statuses.map (fun p => (p.1, p.2.value)))
    (if full then s.stResults else s.stResults.map (fun p => (p.1, pyTake p.2 500)))
    s.errMsg

lemma awaitPoint_run (g : Glob) (s : Est) :
    ∀ r g2 s2, awaitPoint g s = (r, g2, s2) → g2.events = g.events ∧ s2 = s := by
  intro r g2 s2 h
  unfold awaitPoint at h
  cases hc : g.cancelIn with
  | none =>
    rw [hc] at h
    obtain ⟨-, hg, hs⟩ := triple_eq h
    exact ⟨by rw [← hg], hs.symm⟩
  | some k =>
    rw [hc] at h
    cases k with
    | zero =>
      obtain ⟨-, hg, hs⟩ := triple_eq h
      exact ⟨by rw [← hg], hs.symm⟩
    | succ k2 =>
      obtain ⟨-, hg, hs⟩ := triple_eq h
      exact ⟨by rw [← hg], hs.symm⟩

/-- A successful delivery appends exactly the event, newest first, and
leaves the engine state unchanged. -/
lemma doBroadcast_ok_events (env : Env) (f : Event → Bool) (hbc : env.bc = some f)
    (ev : Event) (g : Glob) (s : Est) (u : Unit) (g2 : Glob) (s2 : Est)
    (h : doBroadcast env ev g s = (.ok u, g2, s2)) :
    g2.events = ev :: g.events ∧ s2 = s := by
  unfold doBroadcast at h
  rw [hbc] at h
  rw [M.bind_eq_ok] at h
  obtain ⟨u1, ga, sa, haw, h⟩ := h
  obtain ⟨hge, hse⟩ := awaitPoint_run g s _ ga sa haw
  by_cases hfe : f ev = true
  · rw [if_pos hfe] at h
    unfold modifyGlob at h
    obtain ⟨-, hg2, hs2⟩ := triple_eq h
    constructor
    · rw [← hg2]
      show ev :: ga.events = ev :: g.events
      rw [hge]
    · exact hs2.symm.trans hse
  · rw [if_neg hfe] at h
    unfold M.raise at h
    exact absurd (triple_eq h).1 (by simp)

/-- A successful `_emit` with a configured callback pushes exactly the
status event for the entry state, newest first, and leaves the engine
state unchanged. -/
lemma emit_ok_events (env : Env) (f : Event → Bool) (hbc : env.bc = some f)
    (wid : String) (full : Bool) (g : Glob) (s : Est) (u : Unit) (g2 : Glob) (s2 : Est)
    (h : emit env wid full g s = (.ok u, g2, s2)) :
    g2.events = statusEvent wid full s :: g.events ∧ s2 = s := by
  unfold emit at h
  rw [hbc] at h
  simp only [M_bind_def] at h
  rw [M.bind_eq_ok] at h
  obtain ⟨s', g1, s1, hget, h⟩ := h
  unfold getEst at hget
  obtain ⟨hr, hg1, hs1⟩ := triple_eq hget
  obtain rfl : s = s' := Res.ok.inj hr
  obtain ⟨hev, hs⟩ := doBroadcast_ok_events env f hbc _ g1 s1 u g2 s2 h
  constructor
  · rw [hev, ← hg1]
    rfl
  · exact hs.trans hs1.symm

/-- With a total callback and no armed countdown, `_emit` succeeds and
pushes the status event. -/
lemma emit_total_ok (env : Env) (f : Event → Bool) (hbc : env.bc = some f)
    (hf : ∀ ev, f ev = true) (wid : String) (full : Bool) (g : Glob) (s : Est)
    (hcan : g.cancelIn = none) :
    emit env wid full g s =
      (.ok (), { g with events := statusEvent wid full s :: g.events }, s) := by
  unfold emit
  rw [hbc]
  simp only [M_bind_def]
  unfold M.bind getEst
  dsimp only
  unfold doBroadcast
  rw [hbc]
  unfold M.bind
  dsimp only
  have ha : awaitPoint g s = (.ok (), g, s) := by unfold awaitPoint; rw [hcan]
  rw [ha]
  dsimp only
  rw [hf, if_pos rfl]
  unfold modifyGlob
  rfl

/-- An early-error level return leaves an `error` status event at the
head of the trace. -/
lemma processOneLevel_true (env : Env) (f : Event → Bool) (hbc : env.bc = some f)
    (sub : SubRunner) (gas : Nat) (eng : Engine) (input : String) (lvl : List String)
    (g : Glob) (s : Est) (g2 : Glob) (s2 : Est)
    (h : processOneLevel env sub gas eng input lvl g s = (.ok true, g2, s2)) :
    ∃ sE rest, g2.events = statusEvent eng.wid false sE :: rest ∧ sE.pstatus = "error" := by
  unfold processOneLevel at h
  simp only [M_bind_def, M_pure_def] at h
  rw [M.bind_eq_ok] at h
  obtain ⟨acts, gf, sf, hfil, h⟩ := h
  by_cases hemp : acts.isEmpty
  · rw [if_pos hemp] at h
    unfold M.pure at h
    exact absurd (Res.ok.inj (triple_eq h).1) (by simp)
  · rw [if_neg hemp] at h
    rw [M.bind_eq_ok] at h
    obtain ⟨u1, gm, sm, hrunf, h⟩ := h
    rw [M.bind_eq_ok] at h
    obtain ⟨u2, ge2, se2, hemit, h⟩ := h
    rw [M.bind_eq_ok] at h
    obtain ⟨u3, ga2, sa2, hawait, h⟩ := h
    cases acts with
    | nil => exact absurd rfl hemp
    | cons a tail =>
      cases tail with
      | nil =>
        dsimp only at h
        rcases tryE_eq_ok h with hokX | ⟨e, gx, sx, hxrun, hH⟩
        · rw [M.bind_eq_ok] at hokX
          obtain ⟨node, g4, s4, hlook, hokX⟩ := hokX
          rw [M.bind_eq_ok] at hokX
          obtain ⟨result, g5, s5, hexec, hokX⟩ := hokX
          rw [M.bind_eq_ok] at hokX
          obtain ⟨u5, g6, s6, hmod, hokX⟩ := hokX
          rw [M.bind_eq_ok] at hokX
          obtain ⟨u6, g7, s7, hasv, hokX⟩ := hokX
          rw [M.bind_eq_ok] at hokX
          obtain ⟨u7, g8, s8, hemit2, hokX⟩ := hokX
          unfold M.pure at hokX
          exact absurd (Res.ok.inj (triple_eq hokX).1) (by simp)
        · rw [M.bind_eq_ok] at hH
          obtain ⟨u5, g5, s5, hmod, hH⟩ := hH
          unfold modifyEst at hmod
          obtain ⟨-, hg5, hs5⟩ := triple_eq hmod
          rw [M.bind_eq_ok] at hH
          obtain ⟨u6, g6, s6, hemit2, hH⟩ := hH
          obtain ⟨hev, -⟩ := emit_ok_events env f hbc eng.wid false g5 s5 u6 g6 s6 hemit2
          unfold M.pure at hH
          obtain ⟨-, hg2, -⟩ := triple_eq hH
          exact ⟨s5, g5.events, by rw [← hg2, hev], by rw [← hs5]⟩
      | cons b2 t2 =>
        dsimp only at h
        rw [M.bind_eq_ok] at h
        obtain ⟨os, g5, s5, hrt, h⟩ := h
        rw [M.bind_eq_ok] at h
        obtain ⟨herrb, g6, s6, hao, h⟩ := h
        rw [M.bind_eq_ok] at h
        obtain ⟨u6, g7, s7, hemit2, h⟩ := h
        cases herrb with
        | false =>
          rw [if_neg (by simp)] at h
          unfold M.pure at h
          exact absurd (Res.ok.inj (triple_eq h).1) (by simp)
        | true =>
          rw [if_pos rfl] at h
          rw [M.bind_eq_ok] at h
          obtain ⟨u8, g8, s8, hmod, h⟩ := h
          unfold modifyEst at hmod
          obtain ⟨-, hg8, hs8⟩ := triple_eq hmod
          rw [M.bind_eq_ok] at h
          obtain ⟨u9, g9, s9, hemit3, h⟩ := h
          obtain ⟨hev, -⟩ := emit_ok_events env f hbc eng.wid false g8 s8 u9 g9 s9 hemit3
          unfold M.pure at h
          obtain ⟨-, hg2, -⟩ := triple_eq h
          exact ⟨s8, g8.events, by rw [← hg2, hev], by rw [← hs8]⟩

lemma processLevels_true (env : Env) (f : Event → Bool) (hbc : env.bc = some f)
    (sub : SubRunner) (gas : Nat) (eng : Engine) (input : String) :
    ∀ (lvls : List (List String)) (g : Glob) (s : Est) (g2 : Glob) (s2 : Est),
      processLevels env sub gas eng input lvls g s = (.ok true, g2, s2) →
      ∃ sE rest, g2.events = statusEvent eng.wid false sE :: rest ∧ sE.pstatus = "error" := by
  intro lvls
  induction lvls with
  | nil =>
    intro g s g2 s2 h
    unfold processLevels M.pure at h
    exact absurd (Res.ok.inj (triple_eq h).1) (by simp)
  | cons lvl rest ih =>
    intro g s g2 s2 h
    unfold processLevels at h
    simp only [M_bind_def, M_pure_def] at h
    rw [M.bind_eq_ok] at h
    obtain ⟨early, g1, s1, hone, h⟩ := h
    cases early with
    | true =>
      rw [if_pos rfl] at h
      unfold M.pure at h
      obtain ⟨-, hg2, -⟩ := triple_eq h
      obtain ⟨sE, rest2, hev, hpe⟩ :=
        processOneLevel_true env f hbc sub gas eng input lvl g s g1 s1 hone
      exact ⟨sE, rest2, by rw [← hg2]; exact hev, hpe⟩
    | false =>
      rw [if_neg (by simp)] at h
      exact ih g1 s1 g2 s2 h

/-- A normal return of `_run_inner` returns the current results map and
leaves a terminal (`completed` or `error`) status event at the head of
the trace. -/
lemma runInnerF_ok (env : Env) (f : Event → Bool) (hbc : env.bc = some f)
    (sub : SubRunner) (gas : Nat) (eng : Engine) (input : String)
    (g : Glob) (s : Est) {r : List (String × String)} {g2 : Glob} {s2 : Est}
    (h : runInnerF env sub gas eng input g s = (.ok r, g2, s2)) :
    r = s2.results ∧ ∃ st ns res err rest,
      g2.events = Event.workflowStatus eng.wid st ns res err :: rest ∧
      (st = "completed" ∨ st = "error") := by
  unfold runInnerF at h
  simp only [M_bind_def, M_pure_def] at h
  rw [M.bind_eq_ok] at h
  obtain ⟨u1, g3, s3, hmod, h⟩ := h
  rw [M.bind_eq_ok] at h
  obtain ⟨u2, g4, s4, hemit, h⟩ := h
  rw [M.bind_eq_ok] at h
  obtain ⟨early, g5, s5, hlv, h⟩ := h
  cases early with
  | true =>
    rw [if_pos rfl] at h
    rw [M.bind_eq_ok] at h
    obtain ⟨sres, g6, s6, hget, h⟩ := h
    unfold getEst at hget
    obtain ⟨hr6, hg6, hs6⟩ := triple_eq hget
    obtain rfl : s5 = sres := Res.ok.inj hr6
    unfold M.pure at h
    obtain ⟨hrr, hg2, hs2⟩ := triple_eq h
    have hres : s5.results = r := Res.ok.inj hrr
    constructor
    · rw [← hres, hs6, hs2]
    · obtain ⟨sE, rest, hev, hpe⟩ :=
        processLevels_true env f hbc sub gas eng input eng.levels g4 s4 g5 s5 hlv
      refine ⟨"error", sE.statuses.map (fun p => (p.1, p.2.value)),
        sE.stResults.map (fun p => (p.1, pyTake p.2 500)), sE.errMsg, rest, ?_, Or.inr rfl⟩
      rw [← hg2, ← hg6, hev]
      unfold statusEvent
      rw [hpe, if_neg (by simp)]
  | false =>
    rw [if_neg (by simp)] at h
    rw [M.bind_eq_ok] at h
    obtain ⟨u3, g6, s6, hmod2, h⟩ := h
    unfold modifyEst at hmod2
    obtain ⟨-, hg6, hs6⟩ := triple_eq hmod2
    rw [M.bind_eq_ok] at h
    obtain ⟨u4, g7, s7, hemit2, h⟩ := h
    obtain ⟨hev, hself⟩ := emit_ok_events env f hbc eng.wid true g6 s6 u4 g7 s7 hemit2
    rw [M.bind_eq_ok] at h
    obtain ⟨sres, g8, s8, hget, h⟩ := h
    unfold getEst at hget
    obtain ⟨hr8, hg8, hs8⟩ := triple_eq hget
    have hres8 : s7 = sres := Res.ok.inj hr8
    unfold M.pure at h
    obtain ⟨hrr, hg2, hs2⟩ := triple_eq h
    have hres : sres.results = r := Res.ok.inj hrr
    constructor
    · rw [← hres, ← hs2, ← hs8, hres8]
    · have hps : s6.pstatus = "completed" := by rw [← hs6]
      refine ⟨"completed", s6.statuses.map (fun p => (p.1, p.2.value)), s6.stResults,
        s6.errMsg, g6.events, ?_, Or.inl rfl⟩
      rw [← hg2, ← hg8, hev]
      unfold statusEvent
      rw [hps, if_pos rfl]

/-- C1 (counterexample): with an always-raising broadcast adapter the
engine entry point raises instead of returning a results map — the
claim's "for every (possibly failing) set of adapters, run() never
raises" fails on the code. -/
theorem c1_counterexample :
    resOf (runWorkflow envBadBc wfChain "wf1" "hello" 0 none 6) =
      Res.exn "broadcast failed" := by
  decide

/-- C1 (amended): provided the broadcast callback never raises, `run()`
never raises: for every workflow definition, initial input, timeout,
cancellation schedule and fuel, the outcome is never an exception, and
whenever the run returns normally it returns exactly the current results
map after emitting a terminal `completed` or `error` status event (the
head of the event trace).  A run may still fail to return at all: the
chunker's split loop diverges when `overlap ≥ chunkSize` (fuel
exhaustion stands in for divergence). -/
theorem c1_run_no_raise_terminal (env : Env) (f : Event → Bool)
    (hbc : env.bc = some f) (hf : ∀ ev, f ev = true)
    (defn : WorkflowDefinition) (wid input : String) (timeout : Int)
    (cancelAt : Option Nat) (fuel : Nat) :
    (∀ e, resOf (runWorkflow env defn wid input timeout cancelAt fuel) ≠ Res.exn e) ∧
    (∀ r, resOf (runWorkflow env defn wid input timeout cancelAt fuel) = .ok r →
      r = (estOf (runWorkflow env defn wid input timeout cancelAt fuel)).results ∧
      ∃ st ns res err rest,
        (globOf (runWorkflow env defn wid input timeout cancelAt fuel)).events =
          Event.workflowStatus wid st ns res err :: rest ∧
        (st = "completed" ∨ st = "error")) := by
  have hbcT : BcTotal env := by
    intro f2 h2 ev
    rw [hbc] at h2
    obtain rfl : f = f2 := Option.some.inj h2
    exact hf ev
  unfold runWorkflow
  dsimp only
  rcases hrun : engineStep env fuel defn wid input
      { events := [], agentCalls := 0, toolCalls := 0, timeIdx := 0,
        cancelIn := if timeout > 0 then cancelAt else none } with ⟨rr, gr, sr⟩
  cases rr with
  | ok v =>
    dsimp only
    constructor
    · intro e hcon
      exact Res.noConfusion hcon
    · intro r hr
      have hvr : v = r := Res.ok.inj hr
      subst hvr
      cases fuel with
      | zero => exact absurd (triple_eq hrun).1 (by simp)
      | succ k =>
        have hr' : runInnerF env (engineStep env k) k (mkEngine defn wid) input
            { events := [], agentCalls := 0, toolCalls := 0, timeIdx := 0,
              cancelIn := if timeout > 0 then cancelAt else none }
            (initEst defn) = (.ok v, gr, sr) := hrun
        exact runInnerF_ok env f hbc (engineStep env k) k (mkEngine defn wid) input _ _ hr'
  | exn e1 =>
    have hfalse : False := ne_engineStep env hbcT fuel defn wid input _ e1 (by rw [hrun])
    exact hfalse.elim
  | cancel =>
    dsimp only
    by_cases ht : timeout > 0
    · rw [if_pos ht]
      have hemq := emit_total_ok env f hbc hf wid false
        { gr with cancelIn := none }
        { sr with pstatus := "error"
                  errMsg := some ("Workflow timed out after " ++ toString timeout ++ "s") }
        rfl
      rw [hemq]
      dsimp only
      constructor
      · intro e hcon
        exact Res.noConfusion hcon
      · intro r hr
        refine ⟨(Res.ok.inj hr).symm, "error",
          sr.statuses.map (fun p => (p.1, p.2.value)),
          sr.stResults.map (fun p => (p.1, pyTake p.2 500)),
          some ("Workflow timed out after " ++ toString timeout ++ "s"),
          gr.events, ?_, Or.inr rfl⟩
        exact rfl
    · rw [if_neg ht]
      constructor
      · intro e hcon
        exact Res.noConfusion hcon
      · intro r hr
        exact Res.noConfusion hr
  | fuelOut =>
    dsimp only
    constructor
    · intro e hcon
      exact Res.noConfusion hcon
    · intro r hr
      exact Res.noConfusion hr

/-- The C1 theorem applied with the echo adapter set (its broadcast
callback always succeeds) on the two-node chain. -/
theorem c1_run_no_raise_terminal_witness :
    (∀ e, resOf (runWorkflow envEcho wfChain "w" "hi" 0 none 5) ≠ Res.exn e) ∧
    (∀ r, resOf (runWorkflow envEcho wfChain "w" "hi" 0 none 5) = .ok r →
      r = (estOf (runWorkflow envEcho wfChain "w" "hi" 0 none 5)).results ∧
      ∃ st ns res err rest,
        (globOf (runWorkflow envEcho wfChain "w" "hi" 0 none 5)).events =
          Event.workflowStatus "w" st ns res err :: rest ∧
        (st = "completed" ∨ st = "error")) :=
  c1_run_no_raise_terminal envEcho (fun _ => true) rfl (fun _ => rfl)
    wfChain "w" "hi" 0 none 5

end MB
